import Mathlib

/-!
Verification of the force-field parameter repository core
(`packages/Qpyl/core/qparameter.py`).

This file gives a shallow embedding of the canonical-identity functions,
the parameter record classes (`_PrmAtom`, `_PrmBond`, `_PrmAngle`,
`_PrmTorsion`, `_PrmImproper`), the merge store (`QPrm._add_prm`), the
native-format reader (`QPrm.read_prm`) and the canonical serializer
(`QPrm.get_string`), and proves the specified properties about them.

Modelling conventions:
* Python floats are modelled as exact rationals (`ℚ`).  Constants such as
  `1e-7` are written `mkRat 1 (10^7)`.  Python's `round` and the `"%.3f"`
  style formatting are modelled as exact decimal round-half-even.
* Python strings are `String`; Python's code-point comparison `<` is
  embedded as `clLt` on the underlying character lists, and `" ".join` /
  `str.split()` as `joinT` / `pySplit`.
* Files are modelled after tokenization: a parameter line is a record of
  its whitespace-separated fields, with numeric fields already converted,
  mirroring exactly which token positions `read_prm` consumes.
* Exceptions (`QPrmError`, `ValueError`) are modelled with `Except`/`Option`;
  `raise_or_log` becomes a branch on the `ignore_errors` flag.
-/

/-! ## Python string primitives -/

/-- Python string comparison (`str.__lt__`): lexicographic on code points,
with a proper prefix smaller than the longer string. -/
def clLt : List Char → List Char → Bool
  | [], [] => false
  | [], _ :: _ => true
  | _ :: _, [] => false
  | a :: as, b :: bs => if a < b then true else if b < a then false else clLt as bs

/-- Python `s1 < s2` on strings. -/
def strLt (a b : String) : Bool := clLt a.data b.data

/-- Python `s1 <= s2` on strings (total order, so `a <= b ↔ ¬ b < a`). -/
def strLe (a b : String) : Bool := ! strLt b a

/-- Python `min(a, b)` on strings: returns `a` unless `b < a`. -/
def pyStrMin (a b : String) : String := if strLt b a then b else a

/-- Characters of `" ".join` at the `List Char` level. -/
def joinC : List (List Char) → List Char
  | [] => []
  | [t] => t
  | t :: u :: ts => t ++ ' ' :: joinC (u :: ts)

/-- Python `" ".join(l)`. -/
def joinT (l : List String) : String := String.mk (joinC (l.map String.data))

/-- Worker for Python `str.split()` (split on blanks, drop empty fields);
`acc` holds the reversed current token. -/
def splitGo (acc : List Char) : List Char → List (List Char)
  | [] => if acc = [] then [] else [acc.reverse]
  | c :: cs =>
    if c = ' ' then
      if acc = [] then splitGo [] cs else acc.reverse :: splitGo [] cs
    else splitGo (c :: acc) cs

/-- Python `s.split()`. -/
def pySplit (s : String) : List String := (splitGo [] s.data).map String.mk

/-- An atom-type name as produced by tokenization: nonempty and containing
no blank or control characters. -/
def goodName (s : String) : Prop := s.data ≠ [] ∧ ∀ c ∈ s.data, ' ' < c

instance (s : String) : Decidable (goodName s) := by
  unfold goodName; infer_instance

/-! ## Insertion sort (model of Python `sorted`, stable ascending) -/

/-- Insert `x` before the first element `y` with `le x y`. -/
def insertS (le : α → α → Bool) (x : α) : List α → List α
  | [] => [x]
  | y :: ys => if le x y then x :: y :: ys else y :: insertS le x ys

/-- Model of Python `sorted(l)` with comparator `le` (stable ascending). -/
def sortI (le : α → α → Bool) (l : List α) : List α := l.foldr (insertS le) []

/-- Python list comparison on lists of strings (`list.__lt__`). -/
def slistLt : List String → List String → Bool
  | [], [] => false
  | [], _ :: _ => true
  | _ :: _, [] => false
  | x :: xs, y :: ys => if strLt x y then true else if strLt y x then false else slistLt xs ys

/-- Python `min(a, b)`: returns `a` unless `b < a`. -/
def pyMin2 (lt : α → α → Bool) (a b : α) : α := if lt b a then b else a

/-! ## Canonical identities (qparameter.py `get_id` staticmethods) -/

/-- Identity of an atom-type record: the type name verbatim
(`_PrmAtom.get_id`, line 1109-1112). -/
def atomGetId (atom_type : String) : String := atom_type

/-- Identity of a bond: the two atom-type names sorted and joined
(`_PrmBond.get_id`, lines 1139-1144). -/
def bondGetId (atom_types : List String) : String := joinT (sortI strLe atom_types)

/-- Identity of an angle: the smaller of the forward and reversed name
list, joined (`_PrmAngle.get_id`, lines 1170-1174). -/
def angleGetId (atom_types : List String) : String :=
  joinT (pyMin2 slistLt atom_types atom_types.reverse)

/-- Identity of a torsion: the smaller of the forward and reversed name
list, joined (`_PrmTorsion.get_id`, lines 1219-1224). -/
def torsionGetId (atom_types : List String) : String :=
  joinT (pyMin2 slistLt atom_types atom_types.reverse)

/-- Token list of an improper identity: center fixed in second position,
peripherals sorted, wildcards filling missing slots; `none` when no
concrete peripheral remains (`_PrmImproper.get_id`, lines 1288-1307,
where the `else` branch raises `QPrmError`). -/
def improperGetIdTokens (center_atom_type : String) (other_atom_types : List String) :
    Option (List String) :=
  match (sortI strLe other_atom_types).filter (fun x => x ≠ "?") with
  | [a, b, c] => some [a, center_atom_type, b, c]
  | [a, b] => some ["?", center_atom_type, a, b]
  | [a] => some ["?", center_atom_type, a, "?"]
  | _ => none

/-- Improper identity string (`_PrmImproper.get_id`). -/
def improperGetId (center_atom_type : String) (other_atom_types : List String) :
    Option String :=
  (improperGetIdTokens center_atom_type other_atom_types).map joinT

/-! ## Numeric model: tolerances, rounding, fixed-point formatting -/

/-- The literal `1e-7` of `_PrmTorsion.add_prm`. -/
def tol7 : ℚ := mkRat 1 (10 ^ 7)

/-- The literal `0.00001` of `_PrmImproper.__init__`. -/
def tol5 : ℚ := mkRat 1 (10 ^ 5)

/-- Python `round` to an integer: round half to even. -/
def roundHalfEven (q : ℚ) : ℤ :=
  let f := ⌊q⌋
  let r := q - (f : ℚ)
  if r < mkRat 1 2 then f
  else if mkRat 1 2 < r then f + 1
  else if f % 2 = 0 then f else f + 1

/-- Python `round(q, 4)` as used on Lennard-Jones values in `get_string`. -/
def pyRound4 (q : ℚ) : ℚ := mkRat (roundHalfEven (q * 10 ^ 4)) (10 ^ 4)

/-- Python fixed-point formatting `"{:.prec f}".format(q)` (on the exact
rational model of the float). -/
def fmtFixed (prec : ℕ) (q : ℚ) : String :=
  let n : ℤ := roundHalfEven (q * 10 ^ prec)
  let sign : String := if n < 0 then "-" else ""
  let m : ℕ := n.natAbs
  let ip : ℕ := m / 10 ^ prec
  let fp : ℕ := m % 10 ^ prec
  let fs : String := Nat.repr fp
  let pad : String := String.mk (List.replicate (prec - fs.length) '0')
  sign ++ Nat.repr ip ++ "." ++ pad ++ fs

/-- Python `sep.join(l)` for comma-style separators. -/
def joinSep (sep : String) : List String → String
  | [] => ""
  | [x] => x
  | x :: y :: r => x ++ sep ++ joinSep sep (y :: r)

/-! ## Parameter record classes -/

/-- Model of `_PrmAtom` (lines 1054-1112). -/
structure PrmAtom where
  atom_type : String
  prm_id : String
  lj_A : Option ℚ
  lj_B : Option ℚ
  lj_R : Option ℚ
  lj_eps : Option ℚ
  mass : ℚ
  comment : Option String
deriving DecidableEq

/-- Model of `_PrmAtom.__init__`. -/
def mkPrmAtom (atom_type : String) (mass : ℚ) (lj_A lj_B lj_R lj_eps : Option ℚ)
    (comment : Option String) : PrmAtom :=
  { atom_type := atom_type, prm_id := atomGetId atom_type,
    lj_A := lj_A, lj_B := lj_B, lj_R := lj_R, lj_eps := lj_eps,
    mass := mass, comment := comment }

/-- Model of `_PrmAtom.strval` (the source branches on `lj_A != None` and
formats with `"{:.3f}"`). -/
def PrmAtom.strval (a : PrmAtom) : String :=
  let prms : String :=
    match a.lj_A with
    | some x => "lj_A=" ++ fmtFixed 3 x ++ ", lj_B=" ++ fmtFixed 3 (a.lj_B.getD 0)
    | none => "lj_R=" ++ fmtFixed 3 (a.lj_R.getD 0) ++ ", lj_eps="
        ++ fmtFixed 3 (a.lj_eps.getD 0)
  prms ++ ", mass=" ++ fmtFixed 3 a.mass

/-- Model of `str(_PrmAtom)` via `__repr__`. -/
def PrmAtom.reprStr (a : PrmAtom) : String :=
  "_PrmAtom(" ++ a.prm_id ++ ", " ++ a.strval ++ ")"

/-- Model of `_PrmBond` (lines 1115-1144): `__init__` computes the id and
stores `atom_types = prm_id.split()`. -/
structure PrmBond where
  fc : ℚ
  r0 : ℚ
  prm_id : String
  atom_types : List String
  comment : Option String
deriving DecidableEq

/-- Model of `_PrmBond.__init__`. -/
def mkPrmBond (atom_types : List String) (fc r0 : ℚ) (comment : Option String) :
    PrmBond :=
  { fc := fc, r0 := r0, prm_id := bondGetId atom_types,
    atom_types := pySplit (bondGetId atom_types), comment := comment }

/-- Model of `str(_PrmBond)` via `__repr__`. -/
def PrmBond.reprStr (b : PrmBond) : String :=
  "_PrmBond(" ++ b.prm_id ++ ", fc=" ++ fmtFixed 3 b.fc ++ ", r0="
    ++ fmtFixed 3 b.r0 ++ ")"

/-- Model of `_PrmAngle` (lines 1147-1174). -/
structure PrmAngle where
  fc : ℚ
  theta0 : ℚ
  prm_id : String
  atom_types : List String
  comment : Option String
deriving DecidableEq

/-- Model of `_PrmAngle.__init__`. -/
def mkPrmAngle (atom_types : List String) (fc theta0 : ℚ) (comment : Option String) :
    PrmAngle :=
  { fc := fc, theta0 := theta0, prm_id := angleGetId atom_types,
    atom_types := pySplit (angleGetId atom_types), comment := comment }

/-- Model of `str(_PrmAngle)` via `__repr__` (including the stray closing
parenthesis the source emits in `strval`). -/
def PrmAngle.reprStr (a : PrmAngle) : String :=
  "_PrmAngle(" ++ a.prm_id ++ ", fc=" ++ fmtFixed 3 a.fc ++ ", th0="
    ++ fmtFixed 3 a.theta0 ++ "))"

/-- Model of `_PrmTorsion` (lines 1177-1264): the four parallel Fourier-term
lists are kept exactly as in the source. -/
structure PrmTorsion where
  is_generic : Bool
  fcs : List ℚ
  multiplicities : List ℚ
  phases : List ℚ
  npaths : List ℚ
  prm_id : String
  atom_types : List String
  comment : Option String
deriving DecidableEq

/-- Model of `_PrmTorsion.__init__`. -/
def mkPrmTorsion (atom_types : List String) (comment : Option String) : PrmTorsion :=
  { is_generic := decide ("?" ∈ atom_types), fcs := [], multiplicities := [],
    phases := [], npaths := [], prm_id := torsionGetId atom_types,
    atom_types := pySplit (torsionGetId atom_types), comment := comment }

/-- Model of `_PrmTorsion.add_prm` (lines 1227-1249); `none` models the
`ValueError` raised on a duplicate multiplicity. -/
def PrmTorsion.addPrm (t : PrmTorsion) (fc multiplicity phase npaths : ℚ) :
    Option PrmTorsion :=
  if t.multiplicities.any
      (fun mult => decide (abs (abs multiplicity - abs mult) < tol7)) then
    none
  else
    some { t with
            multiplicities := t.multiplicities ++
              [if |phase| < tol7 ∨ |phase - 180| < tol7 then |multiplicity|
               else multiplicity],
            fcs := t.fcs ++ [fc],
            phases := t.phases ++ [phase],
            npaths := t.npaths ++ [npaths] }

/-- Python `zip` over the four parallel lists (truncating). -/
def zip4 : List ℚ → List ℚ → List ℚ → List ℚ → List (ℚ × ℚ × ℚ × ℚ)
  | a :: as, b :: bs, c :: cs, d :: ds => (a, b, c, d) :: zip4 as bs cs ds
  | _, _, _, _ => []

/-- Comparator for `sorted(..., key=lambda x: x[1])`. -/
def leMult (x y : ℚ × ℚ × ℚ × ℚ) : Bool := decide (x.2.1 ≤ y.2.1)

/-- Model of `_PrmTorsion.get_prms` (lines 1251-1264): the term tuples
sorted by multiplicity, ascending. -/
def PrmTorsion.getPrms (t : PrmTorsion) : List (ℚ × ℚ × ℚ × ℚ) :=
  sortI leMult (zip4 t.fcs t.multiplicities t.phases t.npaths)

/-- Model of `_PrmTorsion.strval`. -/
def PrmTorsion.strval (t : PrmTorsion) : String :=
  let ps := t.getPrms
  "fcs=(" ++ joinSep ", " (ps.map fun p => fmtFixed 4 p.1)
    ++ "), multiplicities=(" ++ joinSep "," (ps.map fun p => fmtFixed 1 p.2.1)
    ++ "), phi0=(" ++ joinSep "," (ps.map fun p => fmtFixed 1 p.2.2.1)
    ++ "), npaths=(" ++ joinSep "," (ps.map fun p => fmtFixed 1 p.2.2.2) ++ ")"

/-- Model of `str(_PrmTorsion)` via `__repr__` (which delegates to
`strval`, hence compares the sorted term lists). -/
def PrmTorsion.reprStr (t : PrmTorsion) : String :=
  "_PrmTorsion(" ++ t.prm_id ++ ", " ++ t.strval ++ ")"

/-- Error kinds of the module (`QPrmError` sites and the `ValueError` of
`add_prm`). -/
inductive QErr where
  | unsupportedMultiplicity
  | threeWildcards
  | duplicateParameter
  | mergeConflict
  | optionsConflict
deriving DecidableEq

/-- Model of `_PrmImproper` (lines 1267-1315). -/
structure PrmImproper where
  is_generic : Bool
  fc : ℚ
  phi0 : ℚ
  multiplicity : ℚ
  prm_id : String
  atom_types : List String
  comment : Option String
deriving DecidableEq

/-- Model of `_PrmImproper.__init__`: the multiplicity test is the
source's literal `abs(multiplicity) - 2.0 > 0.00001`, and `get_id`
raises when no concrete peripheral is present. -/
def mkPrmImproper (center_atom_type : String) (other_atom_types : List String)
    (fc phi0 : ℚ) (multiplicity : ℚ) (comment : Option String) :
    Except QErr PrmImproper :=
  if tol5 < |multiplicity| - 2 then .error .unsupportedMultiplicity
  else
    match improperGetIdTokens center_atom_type other_atom_types with
    | none => .error .threeWildcards
    | some toks =>
      .ok { is_generic := decide ("?" ∈ other_atom_types), fc := fc, phi0 := phi0,
            multiplicity := multiplicity, prm_id := joinT toks,
            atom_types := pySplit (joinT toks), comment := comment }

/-- Model of `str(_PrmImproper)` via `__repr__`. -/
def PrmImproper.reprStr (i : PrmImproper) : String :=
  "_PrmImproper(" ++ i.prm_id ++ ", fc=" ++ fmtFixed 3 i.fc ++ ", phi0="
    ++ fmtFixed 3 i.phi0 ++ ")"

/-! ## The parameter store (`QPrm`) and the merge operation (`_add_prm`) -/

/-- Tagged union over the five record classes (the `isinstance` dispatch
of `_add_prm`). -/
inductive Prm where
  | atom (a : PrmAtom)
  | bond (b : PrmBond)
  | angle (a : PrmAngle)
  | torsion (t : PrmTorsion)
  | improper (i : PrmImproper)
deriving DecidableEq

/-- Identity of a wrapped record (`prm.prm_id`). -/
def Prm.prmId : Prm → String
  | .atom a => a.prm_id
  | .bond b => b.prm_id
  | .angle a => a.prm_id
  | .torsion t => t.prm_id
  | .improper i => i.prm_id

/-- Canonical string representation (`str(prm)`, via each class's
`__repr__`) used by `_add_prm` to decide duplicate vs. conflict. -/
def Prm.reprStr : Prm → String
  | .atom a => a.reprStr
  | .bond b => b.reprStr
  | .angle a => a.reprStr
  | .torsion t => t.reprStr
  | .improper i => i.reprStr

/-- Force-field type tag of a store. -/
inductive FFType where
  | oplsaa
  | amber
deriving DecidableEq

/-- The two scaling conventions (`force_fields` table); only the van der
Waals factor is consumed by the serializer.  The oplsaa value is the
binary64 reading of `1/2**0.5`. -/
def scaling14vdw : FFType → ℚ
  | .oplsaa => mkRat 6369051672525773 (2 ^ 53)
  | .amber => mkRat 1 2

/-- Ordered association list standing in for an insertion-ordered
`OrderedDict`: first-match lookup. -/
def lookupD {α : Type} (d : List (String × α)) (k : String) : Option α :=
  match d with
  | [] => none
  | (k', v) :: r => if k' = k then some v else lookupD r k

/-- Assignment `d[k] = v` on an insertion-ordered mapping: replaces in
place when the key exists, appends otherwise. -/
def dictSet {α : Type} (d : List (String × α)) (k : String) (v : α) :
    List (String × α) :=
  if (lookupD d k).isSome then
    d.map (fun p => if p.1 = k then (k, v) else p)
  else d ++ [(k, v)]

/-- Model of `QPrm` (constructor, lines 87-103): the seven mappings plus
the force-field tag and error policy. -/
structure QPrm where
  ff_type : FFType
  ignore_errors : Bool
  options : List (String × String)
  atom_types : List (String × Prm)
  bonds : List (String × Prm)
  angles : List (String × Prm)
  generic_torsions : List (String × Prm)
  torsions : List (String × Prm)
  generic_impropers : List (String × Prm)
  impropers : List (String × Prm)
deriving DecidableEq

/-- A fresh store (`QPrm.__init__`). -/
def emptyQPrm (ff : FFType) (ignore : Bool) : QPrm :=
  { ff_type := ff, ignore_errors := ignore, options := [], atom_types := [],
    bonds := [], angles := [], generic_torsions := [], torsions := [],
    generic_impropers := [], impropers := [] }

/-- Result of one merge: inserted fresh, replaced an identical-looking
record (the "duplicate, ignored" log), or overwrote a conflicting one
(returning the old record for audit). -/
inductive AddRes where
  | inserted
  | duplicate
  | overwritten (old : Prm)
deriving DecidableEq

/-- Core of `_add_prm` (lines 897-911) acting on one sub-table: compare
string representations, raise (`mergeConflict`) or log depending on the
policy, then store the incoming record. -/
def addToDict (ignore_errors : Bool) (d : List (String × Prm)) (p : Prm) :
    Except QErr (List (String × Prm) × AddRes) :=
  match lookupD d p.prmId with
  | none => .ok (dictSet d p.prmId p, .inserted)
  | some old =>
    if p.reprStr ≠ old.reprStr then
      if ignore_errors then .ok (dictSet d p.prmId p, .overwritten old)
      else .error .mergeConflict
    else .ok (dictSet d p.prmId p, .duplicate)

/-- The sub-table `_add_prm` selects for a record: generic torsions and
impropers go to their own mappings (lines 877-895). -/
def classTable (qp : QPrm) : Prm → List (String × Prm)
  | .atom _ => qp.atom_types
  | .bond _ => qp.bonds
  | .angle _ => qp.angles
  | .torsion t => if t.is_generic then qp.generic_torsions else qp.torsions
  | .improper i => if i.is_generic then qp.generic_impropers else qp.impropers

/-- Store an updated sub-table back into the store, at the slot the
record's class selects. -/
def setClassTable (qp : QPrm) : Prm → List (String × Prm) → QPrm
  | .atom _, d => { qp with atom_types := d }
  | .bond _, d => { qp with bonds := d }
  | .angle _, d => { qp with angles := d }
  | .torsion t, d =>
    if t.is_generic then { qp with generic_torsions := d }
    else { qp with torsions := d }
  | .improper i, d =>
    if i.is_generic then { qp with generic_impropers := d }
    else { qp with impropers := d }

/-- Model of `QPrm._add_prm` (lines 872-911): select the sub-table by
class, then merge into it. -/
def QPrm.addPrm (qp : QPrm) (p : Prm) : Except QErr (QPrm × AddRes) :=
  (addToDict qp.ignore_errors (classTable qp p) p).map
    (fun r => (setClassTable qp p r.1, r.2))

/-! ## The native-format file model and `read_prm` -/

/-- One tokenized `[atom_types]` line: name plus the six numeric columns;
`read_prm` consumes columns 1, 3 and 6 (`parms[1]`, `parms[3]`,
`parms[6]`). -/
structure AtomLine where
  name : String
  c1 : ℚ
  c2 : ℚ
  c3 : ℚ
  c4 : ℚ
  c5 : ℚ
  c6 : ℚ
  comment : Option String
deriving DecidableEq

/-- One tokenized `[bonds]` line. -/
structure BondLine where
  a1 : String
  a2 : String
  fc : ℚ
  r0 : ℚ
  comment : Option String
deriving DecidableEq

/-- One tokenized `[angles]` line. -/
structure AngleLine where
  a1 : String
  a2 : String
  a3 : String
  fc : ℚ
  theta0 : ℚ
  comment : Option String
deriving DecidableEq

/-- One tokenized `[torsions]` line. -/
structure TorsionLine where
  a1 : String
  a2 : String
  a3 : String
  a4 : String
  fc : ℚ
  multiplicity : ℚ
  phase : ℚ
  npaths : ℚ
  comment : Option String
deriving DecidableEq

/-- One tokenized `[impropers]` line. -/
structure ImproperLine where
  a1 : String
  a2 : String
  a3 : String
  a4 : String
  fc : ℚ
  phi0 : ℚ
  comment : Option String
deriving DecidableEq

/-- A native-format parameter file after tokenization and comment
stripping, with its sections in canonical order. -/
structure PrmFile where
  options : List (String × String)
  atomLines : List AtomLine
  bondLines : List BondLine
  angleLines : List AngleLine
  torsionLines : List TorsionLine
  improperLines : List ImproperLine
deriving DecidableEq

/-- The `[options]` loop of `read_prm` (lines 151-164): conflicting
values for a key raise (or are logged away), the new value always wins. -/
def readOptions (ignore_errors : Bool) (opts : List (String × String)) :
    List (String × String) → Except QErr (List (String × String))
  | [] => .ok opts
  | (k, v) :: rest =>
    match lookupD opts k with
    | some v0 =>
      if v ≠ v0 ∧ ignore_errors = false then .error .optionsConflict
      else readOptions ignore_errors (dictSet opts k v) rest
    | none => readOptions ignore_errors (dictSet opts k v) rest

/-- The `[atom_types]` lines of `read_prm` (lines 167-188): oplsaa stores
the A/B pair, amber the R/epsilon pair. -/
def parseAtoms (ff : FFType) (ls : List AtomLine) : List PrmAtom :=
  ls.map fun l =>
    match ff with
    | .oplsaa => mkPrmAtom l.name l.c6 (some l.c1) (some l.c3) none none l.comment
    | .amber => mkPrmAtom l.name l.c6 none none (some l.c1) (some l.c3) l.comment

/-- The `[torsions]` loop of `read_prm` (lines 218-253): a line whose
identity equals the identity of the most recently created torsion is
folded into it, otherwise a new torsion is appended; a duplicate
multiplicity raises.  `acc` holds the torsions built so far, reversed. -/
def parseTorsionsGo (acc : List PrmTorsion) :
    List TorsionLine → Except QErr (List PrmTorsion)
  | [] => .ok acc.reverse
  | l :: rest =>
    match acc with
    | last :: acc' =>
      if (mkPrmTorsion [l.a1, l.a2, l.a3, l.a4] l.comment).prm_id = last.prm_id then
        match last.addPrm l.fc l.multiplicity l.phase l.npaths with
        | none => .error .duplicateParameter
        | some t' => parseTorsionsGo (t' :: acc') rest
      else
        match (mkPrmTorsion [l.a1, l.a2, l.a3, l.a4] l.comment).addPrm
            l.fc l.multiplicity l.phase l.npaths with
        | none => .error .duplicateParameter
        | some t' => parseTorsionsGo
            (t' :: last :: acc') rest
    | [] =>
      match (mkPrmTorsion [l.a1, l.a2, l.a3, l.a4] l.comment).addPrm
          l.fc l.multiplicity l.phase l.npaths with
      | none => .error .duplicateParameter
      | some t' => parseTorsionsGo [t'] rest

/-- The `[impropers]` lines of `read_prm` (lines 257-271): the second
token is the center atom; multiplicity defaults to 2. -/
def parseImpropers (ls : List ImproperLine) : Except QErr (List PrmImproper) :=
  ls.mapM fun l => mkPrmImproper l.a2 [l.a1, l.a3, l.a4] l.fc l.phi0 2 l.comment

/-- The final `_add_prm` loop shared by all readers (lines 277-283):
merge every record, collecting overwritten records and counting
"duplicate, ignored" log events. -/
def addAll (qp : QPrm) (dups : List Prm) (ndup : ℕ) :
    List Prm → Except QErr (QPrm × List Prm × ℕ)
  | [] => .ok (qp, dups.reverse, ndup)
  | p :: rest =>
    match qp.addPrm p with
    | .error e => .error e
    | .ok (qp', .inserted) => addAll qp' dups ndup rest
    | .ok (qp', .duplicate) => addAll qp' dups (ndup + 1) rest
    | .ok (qp', .overwritten old) => addAll qp' (old :: dups) ndup rest

/-- Model of `QPrm.read_prm` (lines 107-283) on a tokenized file: returns
the updated store, the list of overwritten (conflicting) records, and
the number of reported duplicates. -/
def QPrm.readPrm (qp : QPrm) (f : PrmFile) : Except QErr (QPrm × List Prm × ℕ) :=
  match readOptions qp.ignore_errors qp.options f.options with
  | .error e => .error e
  | .ok opts =>
    let qp1 : QPrm := { qp with options := opts }
    let atoms := parseAtoms qp.ff_type f.atomLines
    let bonds := f.bondLines.map fun l => mkPrmBond [l.a1, l.a2] l.fc l.r0 l.comment
    let angles := f.angleLines.map fun l =>
      mkPrmAngle [l.a1, l.a2, l.a3] l.fc l.theta0 l.comment
    match parseTorsionsGo [] f.torsionLines with
    | .error e => .error e
    | .ok torsions =>
      match parseImpropers f.improperLines with
      | .error e => .error e
      | .ok impropers =>
        addAll qp1 [] 0 (atoms.map Prm.atom ++ bonds.map Prm.bond
          ++ angles.map Prm.angle ++ torsions.map Prm.torsion
          ++ impropers.map Prm.improper)

/-! ## The canonical serializer (`QPrm.get_string`) -/

/-- Count of wildcard characters in an identity string. -/
def countQmark (s : String) : ℕ := s.data.count '?'

/-- Sort key for generic (wildcard) torsions and impropers: the identity
prefixed with one blank per wildcard, so that records with more
wildcards come first (lines 993-996 and 1014-1017). -/
def wildKey (s : String) : String :=
  String.mk (List.replicate (countQmark s) ' ') ++ s

/-- Values of a sub-table sorted by identity (`sorted(set(...), key=lambda
x: x.prm_id)`; the `set` is the identity on a table with unique keys). -/
def sortVals (d : List (String × Prm)) : List Prm :=
  sortI (fun x y => strLe (Prm.prmId x) (Prm.prmId y)) (d.map Prod.snd)

/-- Values of a generic sub-table in serializer order. -/
def sortValsWild (d : List (String × Prm)) : List Prm :=
  sortI (fun x y => strLe (wildKey (Prm.prmId x)) (wildKey (Prm.prmId y)))
    (d.map Prod.snd)

/-- The `[atom_types]` line printed for one atom record (lines 958-980):
amber prints R/epsilon columns verbatim, oplsaa prints the A/B values
rounded to four decimals together with the scaled 1-4 columns. -/
def atomLineOf (ff : FFType) (a : PrmAtom) : AtomLine :=
  match ff with
  | .amber =>
    { name := a.atom_type, c1 := a.lj_R.getD 0, c2 := 0, c3 := a.lj_eps.getD 0,
      c4 := a.lj_R.getD 0, c5 := a.lj_eps.getD 0 * scaling14vdw .amber,
      c6 := a.mass, comment := a.comment }
  | .oplsaa =>
    { name := a.atom_type, c1 := pyRound4 (a.lj_A.getD 0),
      c2 := pyRound4 (a.lj_A.getD 0), c3 := pyRound4 (a.lj_B.getD 0),
      c4 := pyRound4 (pyRound4 (a.lj_A.getD 0) * scaling14vdw .oplsaa),
      c5 := pyRound4 (pyRound4 (a.lj_B.getD 0) * scaling14vdw .oplsaa),
      c6 := a.mass, comment := a.comment }

/-- Model of `QPrm.get_string` (lines 918-1051) at the tokenized-file
level, printing every sub-table in its deterministic order. -/
def QPrm.getString (qp : QPrm) : PrmFile :=
  { options := qp.options
    atomLines := (sortVals qp.atom_types).filterMap fun p =>
      match p with
      | .atom a => some (atomLineOf qp.ff_type a)
      | _ => none
    bondLines := (sortVals qp.bonds).filterMap fun p =>
      match p with
      | .bond b =>
        match b.atom_types with
        | [x, y] => some { a1 := x, a2 := y, fc := b.fc, r0 := b.r0,
                           comment := b.comment }
        | _ => none
      | _ => none
    angleLines := (sortVals qp.angles).filterMap fun p =>
      match p with
      | .angle a =>
        match a.atom_types with
        | [x, y, z] => some { a1 := x, a2 := y, a3 := z, fc := a.fc,
                              theta0 := a.theta0, comment := a.comment }
        | _ => none
      | _ => none
    torsionLines := (sortValsWild qp.generic_torsions ++ sortVals qp.torsions).flatMap
      fun p =>
        match p with
        | .torsion t =>
          match t.atom_types with
          | [x, y, z, w] => t.getPrms.map fun pr =>
              { a1 := x, a2 := y, a3 := z, a4 := w, fc := pr.1,
                multiplicity := pr.2.1, phase := pr.2.2.1, npaths := pr.2.2.2,
                comment := t.comment }
          | _ => []
        | _ => []
    improperLines := (sortValsWild qp.generic_impropers
        ++ sortVals qp.impropers).filterMap fun p =>
      match p with
      | .improper i =>
        match i.atom_types with
        | [x, y, z, w] => some { a1 := x, a2 := y, a3 := z, a4 := w, fc := i.fc,
                                 phi0 := i.phi0, comment := i.comment }
        | _ => none
      | _ => none }

/-! ## The oplsaa FFLD Lennard-Jones conversion (`read_ffld`, lines 739-740) -/

/-- The `lj_A_i = (4 * epsilon * sigma**12)**0.5` conversion of
`QPrm.read_ffld`, over the reals. -/
noncomputable def ffld_lj_A (sigma epsilon : ℝ) : ℝ :=
  (4 * epsilon * sigma ^ (12 : ℕ)) ^ ((0.5 : ℝ))

/-- The `lj_B_i = (4 * epsilon * sigma**6)**0.5` conversion of
`QPrm.read_ffld`. -/
noncomputable def ffld_lj_B (sigma epsilon : ℝ) : ℝ :=
  (4 * epsilon * sigma ^ (6 : ℕ)) ^ ((0.5 : ℝ))

/-! ## Reachability of torsion records through the class interface -/

/-- Torsion records reachable through `_PrmTorsion.__init__` followed by
successful `add_prm` calls. -/
inductive TorsionReach : PrmTorsion → Prop where
  | init (atom_types : List String) (comment : Option String) :
      TorsionReach (mkPrmTorsion atom_types comment)
  | step (t : PrmTorsion) (fc m ph np : ℚ) (t' : PrmTorsion) :
      TorsionReach t → t.addPrm fc m ph np = some t' → TorsionReach t'

/-- Boolean success test on the improper constructor. -/
def isOkImp (e : Except QErr PrmImproper) : Bool :=
  match e with
  | .ok _ => true
  | .error _ => false

/-- Error projection of the improper constructor result. -/
def errImp (e : Except QErr PrmImproper) : Option QErr :=
  match e with
  | .ok _ => none
  | .error q => some q

instance {ε α : Type} [DecidableEq ε] [DecidableEq α] : DecidableEq (Except ε α) :=
  fun a b =>
  match a, b with
  | .error e, .error f =>
    if h : e = f then .isTrue (by rw [h]) else .isFalse (fun hc => h (Except.error.inj hc))
  | .error e, .ok y => .isFalse (fun hc => Except.noConfusion hc)
  | .ok x, .error f => .isFalse (fun hc => Except.noConfusion hc)
  | .ok x, .ok y =>
    if h : x = y then .isTrue (by rw [h]) else .isFalse (fun hc => h (Except.ok.inj hc))

/-- A concrete torsion with one Fourier term, used to instantiate the
torsion-invariant theorem. -/
def tExampleC6 : PrmTorsion :=
  match (mkPrmTorsion ["CT", "CT", "CT", "HC"] none).addPrm 3 1 0 1 with
  | some t => t
  | none => mkPrmTorsion [] none

/-- First record of the C3 scenario: bond CT/HC, fc 300, r0 1.090. -/
def b1ex : PrmBond := mkPrmBond ["CT", "HC"] 300 (mkRat 109 100) (some "first")

/-- Second record of the C3 scenario: same values read as HC/CT, with a
different provenance comment. -/
def b2ex : PrmBond := mkPrmBond ["HC", "CT"] 300 (mkRat 109 100) (some "second")

/-- A conflicting record: same bond, different force constant. -/
def b3ex : PrmBond := mkPrmBond ["HC", "CT"] 400 (mkRat 109 100) none

/-- Store holding `b1ex`, strict policy. -/
def qpC3a : QPrm :=
  match (emptyQPrm .oplsaa false).addPrm (.bond b1ex) with
  | .ok (qp, _) => qp
  | .error _ => emptyQPrm .oplsaa false

/-- Store holding `b1ex`, relaxed policy. -/
def qpC3r : QPrm :=
  match (emptyQPrm .oplsaa true).addPrm (.bond b1ex) with
  | .ok (qp, _) => qp
  | .error _ => emptyQPrm .oplsaa true

/-- Store after merging `b2ex` over `b1ex` (the duplicate case). -/
def qpC3b : QPrm :=
  match qpC3a.addPrm (.bond b2ex) with
  | .ok (qp, _) => qp
  | .error _ => qpC3a

/-- The two-line C3 file: the same bond read once as CT/HC and once as
HC/CT with identical values. -/
def fileC3 : PrmFile :=
  { options := [], atomLines := [],
    bondLines := [
      { a1 := "CT", a2 := "HC", fc := 300, r0 := mkRat 109 100, comment := none },
      { a1 := "HC", a2 := "CT", fc := 300, r0 := mkRat 109 100, comment := none }],
    angleLines := [], torsionLines := [], improperLines := [] }

/-- Store resulting from reading the C3 file into a fresh oplsaa store. -/
def qpC3read : QPrm :=
  match (emptyQPrm .oplsaa false).readPrm fileC3 with
  | .ok (qp, _, _) => qp
  | .error _ => emptyQPrm .oplsaa false

/-- A file holding one torsion with terms at multiplicities 1 and 2. -/
def torsFile (a b c d : String) (fc1 fc2 ph1 ph2 np1 np2 : ℚ) : PrmFile :=
  { options := [], atomLines := [], bondLines := [], angleLines := [],
    torsionLines := [
      { a1 := a, a2 := b, a3 := c, a4 := d, fc := fc1, multiplicity := 1,
        phase := ph1, npaths := np1, comment := none },
      { a1 := a, a2 := b, a3 := c, a4 := d, fc := fc2, multiplicity := 2,
        phase := ph2, npaths := np2, comment := none }],
    improperLines := [] }

/-- The torsion after folding the first term. -/
def tors1 (a b c d : String) (fc1 ph1 np1 : ℚ) : PrmTorsion :=
  { mkPrmTorsion [a, b, c, d] none with
    fcs := [fc1], multiplicities := [1], phases := [ph1], npaths := [np1] }

/-- The torsion after folding both terms. -/
def tors2 (a b c d : String) (fc1 fc2 ph1 ph2 np1 np2 : ℚ) : PrmTorsion :=
  { mkPrmTorsion [a, b, c, d] none with
    fcs := [fc1, fc2], multiplicities := [1, 2], phases := [ph1, ph2],
    npaths := [np1, np2] }

/-! ## Round trip (`get_string` then `read_prm`): definitions -/

/-- Index of the sub-table a record is merged into (the `isinstance`
dispatch of `_add_prm` together with the generic split). -/
def tableIdx : Prm → ℕ
  | .atom _ => 0
  | .bond _ => 1
  | .angle _ => 2
  | .torsion t => if t.is_generic then 3 else 4
  | .improper i => if i.is_generic then 5 else 6

/-- Insertion of a fresh record: append to the table of its class. -/
def insPrm (qp : QPrm) (p : Prm) : QPrm :=
  setClassTable qp p (classTable qp p ++ [(Prm.prmId p, p)])

/-- Folding fresh insertions over a record list. -/
def insAll (qp : QPrm) (ps : List Prm) : QPrm := ps.foldl insPrm qp

/-- The value change an atom record undergoes in one serialize/parse
cycle: amber atoms come back verbatim, oplsaa atoms come back with their
A/B Lennard-Jones values rounded to four decimals by the printer. -/
def roundAtom (ff : FFType) (a : PrmAtom) : PrmAtom :=
  match ff with
  | .amber => a
  | .oplsaa => { a with lj_A := some (pyRound4 (a.lj_A.getD 0)),
                        lj_B := some (pyRound4 (a.lj_B.getD 0)) }

/-- `roundAtom` lifted to the record union. -/
def prmRound (ff : FFType) : Prm → Prm
  | .atom a => .atom (roundAtom ff a)
  | p => p

/-- The representation change a torsion record undergoes in one
serialize/parse cycle: its four parallel term lists are re-ordered into
the ascending-multiplicity order the printer uses. -/
def sortTorsion (t : PrmTorsion) : PrmTorsion :=
  { t with fcs := t.getPrms.map (fun pr => pr.1),
           multiplicities := t.getPrms.map (fun pr => pr.2.1),
           phases := t.getPrms.map (fun pr => pr.2.2.1),
           npaths := t.getPrms.map (fun pr => pr.2.2.2) }

/-- `sortTorsion` lifted to the record union. -/
def prmSort : Prm → Prm
  | .torsion t => .torsion (sortTorsion t)
  | p => p

/-- The `[torsions]` lines `get_string` prints for one torsion record. -/
def torsionLinesOf (t : PrmTorsion) : List TorsionLine :=
  match t.atom_types with
  | [x, y, z, w] => t.getPrms.map fun pr =>
      { a1 := x, a2 := y, a3 := z, a4 := w, fc := pr.1,
        multiplicity := pr.2.1, phase := pr.2.2.1, npaths := pr.2.2.2,
        comment := t.comment }
  | _ => []

/-- Well-formedness of a stored atom record: the identity is the type
name, and the Lennard-Jones fields appropriate to the force field are
populated (the other pair is empty). -/
def atomWF (ff : FFType) (a : PrmAtom) : Prop :=
  a.prm_id = a.atom_type ∧
  match ff with
  | .oplsaa => a.lj_A.isSome = true ∧ a.lj_B.isSome = true
      ∧ a.lj_R = none ∧ a.lj_eps = none
  | .amber => a.lj_A = none ∧ a.lj_B = none
      ∧ a.lj_R.isSome = true ∧ a.lj_eps.isSome = true

/-- Well-formedness of a stored bond record: two atom types, identity
canonical, and the token list is the split of the identity. -/
def bondWF (b : PrmBond) : Prop :=
  b.atom_types.length = 2 ∧ b.prm_id = bondGetId b.atom_types ∧
  pySplit b.prm_id = b.atom_types

/-- Well-formedness of a stored angle record. -/
def angleWF (a : PrmAngle) : Prop :=
  a.atom_types.length = 3 ∧ a.prm_id = angleGetId a.atom_types ∧
  pySplit a.prm_id = a.atom_types

/-- Well-formedness of a stored torsion record: canonical identity and
token list, the generic flag matching the tokens, the four parallel term
lists of equal nonzero length, multiplicities pairwise distinct in
absolute value within the 1e-7 tolerance (the C6 invariant), and the
phase-based sign normalization `add_prm` performs already applied. -/
def torsionWF (t : PrmTorsion) : Prop :=
  t.atom_types.length = 4 ∧
  t.prm_id = torsionGetId t.atom_types ∧
  pySplit t.prm_id = t.atom_types ∧
  t.is_generic = decide ("?" ∈ t.atom_types) ∧
  t.fcs.length = t.multiplicities.length ∧
  t.phases.length = t.multiplicities.length ∧
  t.npaths.length = t.multiplicities.length ∧
  t.multiplicities ≠ [] ∧
  t.multiplicities.Pairwise
    (fun m m' => abs (abs m' - abs m) < tol7 → False) ∧
  ∀ pr ∈ List.zip t.multiplicities t.phases,
    (|pr.2| < tol7 ∨ |pr.2 - 180| < tol7) → pr.1 = |pr.1|

/-- Well-formedness of a stored improper record: multiplicity 2, the
4-token identity with the center second is a fixed point of `get_id`,
and the generic flag matches the peripheral tokens. -/
def improperWF (i : PrmImproper) : Prop :=
  i.multiplicity = 2 ∧
  i.prm_id = joinT i.atom_types ∧
  pySplit i.prm_id = i.atom_types ∧
  match i.atom_types with
  | [p1, c, p2, p3] =>
      improperGetIdTokens c [p1, p2, p3] = some i.atom_types ∧
      i.is_generic = decide ("?" ∈ ([p1, p2, p3] : List String))
  | _ => False

/-- Well-formedness of one sub-table: keys are the identities of the
stored records and are pairwise distinct. -/
def tableWF (d : List (String × Prm)) : Prop :=
  (d.map Prod.fst).Nodup ∧ ∀ pr ∈ d, pr.1 = Prm.prmId pr.2

/-- Well-formedness of a whole store: every sub-table is keyed by
identity without duplicates and holds records of its own class, each
satisfying its class invariant, with the generic flag matching the
table. -/
def storeWF (qp : QPrm) : Prop :=
  (qp.options.map Prod.fst).Nodup ∧
  tableWF qp.atom_types ∧ tableWF qp.bonds ∧ tableWF qp.angles ∧
  tableWF qp.torsions ∧ tableWF qp.generic_torsions ∧
  tableWF qp.impropers ∧ tableWF qp.generic_impropers ∧
  (∀ pr ∈ qp.atom_types, ∃ a, pr.2 = .atom a ∧ atomWF qp.ff_type a) ∧
  (∀ pr ∈ qp.bonds, ∃ b, pr.2 = .bond b ∧ bondWF b) ∧
  (∀ pr ∈ qp.angles, ∃ a, pr.2 = .angle a ∧ angleWF a) ∧
  (∀ pr ∈ qp.torsions, ∃ t, pr.2 = .torsion t ∧ torsionWF t
    ∧ t.is_generic = false) ∧
  (∀ pr ∈ qp.generic_torsions, ∃ t, pr.2 = .torsion t ∧ torsionWF t
    ∧ t.is_generic = true) ∧
  (∀ pr ∈ qp.impropers, ∃ i, pr.2 = .improper i ∧ improperWF i
    ∧ i.is_generic = false) ∧
  (∀ pr ∈ qp.generic_impropers, ∃ i, pr.2 = .improper i ∧ improperWF i
    ∧ i.is_generic = true)

/-- The `[atom_types]` printer arm of `get_string`. -/
def atomArm (ff : FFType) : Prm → Option AtomLine := fun p =>
  match p with
  | .atom a => some (atomLineOf ff a)
  | _ => none

/-- The `[bonds]` printer arm of `get_string`. -/
def bondArm : Prm → Option BondLine := fun p =>
  match p with
  | .bond b =>
    match b.atom_types with
    | [x, y] => some { a1 := x, a2 := y, fc := b.fc, r0 := b.r0,
                       comment := b.comment }
    | _ => none
  | _ => none

/-- The `[angles]` printer arm of `get_string`. -/
def angleArm : Prm → Option AngleLine := fun p =>
  match p with
  | .angle a =>
    match a.atom_types with
    | [x, y, z] => some { a1 := x, a2 := y, a3 := z, fc := a.fc,
                          theta0 := a.theta0, comment := a.comment }
    | _ => none
  | _ => none

/-- The `[torsions]` printer arm of `get_string`. -/
def torsArm : Prm → List TorsionLine := fun p =>
  match p with
  | .torsion t =>
    match t.atom_types with
    | [x, y, z, w] => t.getPrms.map fun pr =>
        { a1 := x, a2 := y, a3 := z, a4 := w, fc := pr.1,
          multiplicity := pr.2.1, phase := pr.2.2.1, npaths := pr.2.2.2,
          comment := t.comment }
    | _ => []
  | _ => []

/-- The `[impropers]` printer arm of `get_string`. -/
def improperArm : Prm → Option ImproperLine := fun p =>
  match p with
  | .improper i =>
    match i.atom_types with
    | [x, y, z, w] => some { a1 := x, a2 := y, a3 := z, a4 := w, fc := i.fc,
                             phi0 := i.phi0, comment := i.comment }
    | _ => none
  | _ => none

/-- Folding a list of Fourier terms into a torsion record through
`add_prm`, as the `[torsions]` reader does line by line. -/
def foldTerms (t0 : PrmTorsion) : List (ℚ × ℚ × ℚ × ℚ) → Option PrmTorsion
  | [] => some t0
  | p :: ps =>
    match t0.addPrm p.1 p.2.1 p.2.2.1 p.2.2.2 with
    | none => none
    | some t1 => foldTerms t1 ps

/-- One printed `[torsions]` line for the term tuple `pr`. -/
def lineOf (x y z w : String) (cmt : Option String) (pr : ℚ × ℚ × ℚ × ℚ) :
    TorsionLine :=
  { a1 := x, a2 := y, a3 := z, a4 := w, fc := pr.1, multiplicity := pr.2.1,
    phase := pr.2.2.1, npaths := pr.2.2.2, comment := cmt }

noncomputable instance (d : List (String × Prm)) : Decidable (tableWF d) := by
  unfold tableWF
  infer_instance

noncomputable instance (ff : FFType) (a : PrmAtom) : Decidable (atomWF ff a) := by
  unfold atomWF
  cases ff <;> infer_instance

noncomputable instance (b : PrmBond) : Decidable (bondWF b) := by
  unfold bondWF
  infer_instance

noncomputable instance (a : PrmAngle) : Decidable (angleWF a) := by
  unfold angleWF
  infer_instance

noncomputable instance (t : PrmTorsion) : Decidable (torsionWF t) := by
  unfold torsionWF
  infer_instance

noncomputable instance (i : PrmImproper) : Decidable (improperWF i) := by
  unfold improperWF
  rcases i.atom_types with _ | ⟨a, _ | ⟨b, _ | ⟨c, _ | ⟨d, _ | _⟩⟩⟩⟩ <;>
    infer_instance

/-- A concrete well-formed store with one record in every sub-table,
used to witness the round-trip theorem. -/
def qpW4 : QPrm :=
  { ff_type := .amber, ignore_errors := false,
    options := [("name", "Q-amber")],
    atom_types := [("CA",
      Prm.atom { atom_type := "CA", prm_id := "CA", lj_A := none, lj_B := none,
                 lj_R := some 2, lj_eps := some (mkRat 1 10), mass := 12,
                 comment := none })],
    bonds := [("CA CB",
      Prm.bond { fc := 300, r0 := mkRat 109 100, prm_id := "CA CB",
                 atom_types := ["CA", "CB"], comment := none })],
    angles := [("CA CB CC",
      Prm.angle { fc := 50, theta0 := 120, prm_id := "CA CB CC",
                  atom_types := ["CA", "CB", "CC"], comment := none })],
    generic_torsions := [("? CB CC ?",
      Prm.torsion { is_generic := true, fcs := [1], multiplicities := [3],
                    phases := [0], npaths := [1], prm_id := "? CB CC ?",
                    atom_types := ["?", "CB", "CC", "?"], comment := none })],
    torsions := [("CA CB CC CD",
      Prm.torsion { is_generic := false, fcs := [1, 2],
                    multiplicities := [1, 2], phases := [0, 180],
                    npaths := [1, 1], prm_id := "CA CB CC CD",
                    atom_types := ["CA", "CB", "CC", "CD"], comment := none })],
    generic_impropers := [("? CB CA ?",
      Prm.improper { is_generic := true, fc := 10, phi0 := 180,
                     multiplicity := 2, prm_id := "? CB CA ?",
                     atom_types := ["?", "CB", "CA", "?"], comment := none })],
    impropers := [("CA CB CC CD",
      Prm.improper { is_generic := false, fc := 10, phi0 := 180,
                     multiplicity := 2, prm_id := "CA CB CC CD",
                     atom_types := ["CA", "CB", "CC", "CD"],
                     comment := none })] }

/-! ## Basic facts about the string primitives -/

theorem string_mk_data (s : String) : String.mk s.data = s := rfl

theorem clLt_irrefl (l : List Char) : clLt l l = false := by
  induction l with
  | nil => rfl
  | cons a as ih => simp [clLt, ih]

theorem clLt_asymm : ∀ {a b : List Char}, clLt a b = true → clLt b a = false
  | [], [], h => by simp [clLt] at h
  | [], _ :: _, _ => rfl
  | _ :: _, [], h => by simp [clLt] at h
  | a :: as, b :: bs, h => by
    by_cases hab : a < b
    · simp [clLt, hab, asymm hab]
    · by_cases hba : b < a
      · simp [clLt, hab, hba] at h
      · have h' : clLt as bs = true := by simpa [clLt, hab, hba] using h
        simpa [clLt, hab, hba] using clLt_asymm h'

theorem clLt_connex : ∀ {a b : List Char}, clLt a b = false → clLt b a = false → a = b
  | [], [], _, _ => rfl
  | [], _ :: _, h, _ => by simp [clLt] at h
  | _ :: _, [], _, h => by simp [clLt] at h
  | a :: as, b :: bs, h, h' => by
    by_cases hab : a < b
    · simp [clLt, hab] at h
    · by_cases hba : b < a
      · simp [clLt, hba] at h'
      · have hab' : a = b := le_antisymm (le_of_not_lt hba) (le_of_not_lt hab)
        subst hab'
        have := clLt_connex (by simpa [clLt, hba] using h) (by simpa [clLt, hba] using h')
        simp [this]

theorem strLt_asymm {a b : String} (h : strLt a b = true) : strLt b a = false :=
  clLt_asymm h

theorem strLt_connex {a b : String} (h : strLt a b = false) (h' : strLt b a = false) :
    a = b := by
  have := clLt_connex h h'
  exact String.ext this

theorem clLt_trans : ∀ {a b c : List Char},
    clLt a b = true → clLt b c = true → clLt a c = true
  | [], b, c, h, h' => by
    cases c with
    | nil =>
      cases b with
      | nil => simp [clLt] at h'
      | cons y ys => simp [clLt] at h'
    | cons z zs => rfl
  | x :: xs, b, c, h, h' => by
    cases b with
    | nil => simp [clLt] at h
    | cons y ys =>
      cases c with
      | nil => simp [clLt] at h'
      | cons z zs =>
        by_cases hxy : x < y
        · by_cases hyz : y < z
          · simp [clLt, lt_trans hxy hyz]
          · by_cases hzy : z < y
            · simp [clLt, hyz, hzy] at h'
            · have : y = z := le_antisymm (le_of_not_lt hzy) (le_of_not_lt hyz)
              subst this
              simp [clLt, hxy]
        · by_cases hyx : y < x
          · simp [clLt, hxy, hyx] at h
          · have hxy' : x = y := le_antisymm (le_of_not_lt hyx) (le_of_not_lt hxy)
            subst hxy'
            have hx : clLt xs ys = true := by simpa [clLt, hyx] using h
            by_cases hyz : x < z
            · simp [clLt, hyz]
            · by_cases hzy : z < x
              · simp [clLt, hyz, hzy] at h'
              · have : x = z := le_antisymm (le_of_not_lt hzy) (le_of_not_lt hyz)
                subst this
                have hy : clLt ys zs = true := by simpa [clLt, hzy] using h'
                simpa [clLt, hzy] using clLt_trans hx hy

theorem strLe_trans {a b c : String} (h : strLe a b = true) (h' : strLe b c = true) :
    strLe a c = true := by
  unfold strLe at h h' ⊢
  rcases hca : strLt c a with _ | _
  · rfl
  · exfalso
    have hba : strLt b a = false := by simpa using h
    have hcb : strLt c b = false := by simpa using h'
    rcases hab : strLt a b with _ | _
    · have hab' : a = b := strLt_connex hab hba
      subst hab'
      rw [hca] at hcb
      exact absurd hcb (by simp)
    · have hcb' : strLt c b = true := clLt_trans hca hab
      rw [hcb'] at hcb
      exact absurd hcb (by simp)

theorem strLe_total (a b : String) : strLe a b = true ∨ strLe b a = true := by
  unfold strLe
  rcases h : strLt b a with _ | _
  · left; rfl
  · right; simp [strLt_asymm h]

theorem strLe_antisymm {a b : String} (h : strLe a b = true) (h' : strLe b a = true) :
    a = b := by
  unfold strLe at h h'
  exact strLt_connex (by simpa using h') (by simpa using h)

theorem insertS_perm (le : α → α → Bool) (x : α) :
    ∀ l : List α, (insertS le x l).Perm (x :: l)
  | [] => List.Perm.refl _
  | y :: ys => by
    by_cases h : le x y
    · simp [insertS, h]
    · simp only [insertS, h, if_neg, Bool.false_eq_true, not_false_iff]
      exact ((insertS_perm le x ys).cons y).trans (List.Perm.swap x y ys)

theorem sortI_perm (le : α → α → Bool) : ∀ l : List α, (sortI le l).Perm l
  | [] => List.Perm.refl _
  | x :: xs =>
    ((insertS_perm le x (sortI le xs)).trans ((sortI_perm le xs).cons x))

theorem mem_insertS (le : α → α → Bool) (x : α) :
    ∀ {l : List α} {a : α}, a ∈ insertS le x l ↔ a = x ∨ a ∈ l := by
  intro l a
  constructor
  · intro h
    have := (insertS_perm le x l).mem_iff.mp h
    simpa using this
  · intro h
    apply (insertS_perm le x l).mem_iff.mpr
    simpa using h

theorem insertS_sorted (le : α → α → Bool) (hto : ∀ a b, le a b = true ∨ le b a = true)
    (htr : ∀ a b c, le a b = true → le b c = true → le a c = true)
    (x : α) : ∀ {l : List α}, l.Pairwise (fun a b => le a b = true) →
    (insertS le x l).Pairwise (fun a b => le a b = true)
  | [], _ => by simp [insertS]
  | y :: ys, h => by
    rcases List.pairwise_cons.mp h with ⟨hy, hys⟩
    by_cases hxy : le x y
    · simp only [insertS, hxy, if_pos]
      refine List.pairwise_cons.mpr ⟨?_, h⟩
      intro b hb
      rcases List.mem_cons.mp hb with rfl | hb
      · exact hxy
      · exact htr x y b hxy (hy b hb)
    · have hyx : le y x = true := by
        rcases hto x y with hh | hh
        · exact absurd hh hxy
        · exact hh
      simp only [insertS, hxy, if_neg, Bool.false_eq_true, not_false_iff]
      refine List.pairwise_cons.mpr ⟨?_, insertS_sorted le hto htr x hys⟩
      intro b hb
      rcases (mem_insertS le x).mp hb with rfl | hb
      · exact hyx
      · exact hy b hb

theorem sortI_sorted (le : α → α → Bool) (hto : ∀ a b, le a b = true ∨ le b a = true)
    (htr : ∀ a b c, le a b = true → le b c = true → le a c = true) :
    ∀ l : List α, (sortI le l).Pairwise (fun a b => le a b = true)
  | [] => by simp [sortI]
  | x :: xs => insertS_sorted le hto htr x (sortI_sorted le hto htr xs)

theorem sortI_of_sorted (le : α → α → Bool) :
    ∀ {l : List α}, l.Pairwise (fun a b => le a b = true) → sortI le l = l
  | [], _ => rfl
  | x :: xs, h => by
    rcases List.pairwise_cons.mp h with ⟨hx, hxs⟩
    have ih := sortI_of_sorted le hxs
    show insertS le x (sortI le xs) = x :: xs
    rw [ih]
    cases xs with
    | nil => rfl
    | cons y ys => simp [insertS, hx y (List.mem_cons_self y ys)]

theorem sorted_perm_eq (le : α → α → Bool)
    (hanti : ∀ a b, le a b = true → le b a = true → a = b)
    {l₁ l₂ : List α} (hp : l₁.Perm l₂)
    (h₁ : l₁.Pairwise (fun a b => le a b = true))
    (h₂ : l₂.Pairwise (fun a b => le a b = true)) : l₁ = l₂ := by
  haveI : IsAntisymm α (fun a b => le a b = true) := ⟨hanti⟩
  exact List.eq_of_perm_of_sorted hp h₁ h₂

theorem sortI_eq_of_perm (le : α → α → Bool)
    (hto : ∀ a b, le a b = true ∨ le b a = true)
    (htr : ∀ a b c, le a b = true → le b c = true → le a c = true)
    (hanti : ∀ a b, le a b = true → le b a = true → a = b)
    {l₁ l₂ : List α} (hp : l₁.Perm l₂) : sortI le l₁ = sortI le l₂ :=
  sorted_perm_eq le hanti
    ((sortI_perm le l₁).trans (hp.trans (sortI_perm le l₂).symm))
    (sortI_sorted le hto htr l₁) (sortI_sorted le hto htr l₂)

theorem sortI_idem (le : α → α → Bool) (hto : ∀ a b, le a b = true ∨ le b a = true)
    (htr : ∀ a b c, le a b = true → le b c = true → le a c = true)
    (l : List α) : sortI le (sortI le l) = sortI le l :=
  sortI_of_sorted le (sortI_sorted le hto htr l)

/-! ## Join and split: inverse properties -/

theorem splitGo_token : ∀ (t : List Char) (acc rest : List Char),
    (∀ c ∈ t, c ≠ ' ') → splitGo acc (t ++ rest) = splitGo (t.reverse ++ acc) rest
  | [], acc, rest, _ => by simp
  | c :: t', acc, rest, h => by
    have hc : c ≠ ' ' := h c (List.mem_cons_self c t')
    have ih := splitGo_token t' (c :: acc) rest (fun x hx => h x (List.mem_cons_of_mem c hx))
    have hXY : (c :: t').reverse ++ acc = t'.reverse ++ c :: acc := by simp
    rw [hXY, ← ih]
    show splitGo acc (c :: (t' ++ rest)) = _
    show (if c = ' ' then
        if acc = [] then splitGo [] (t' ++ rest)
        else acc.reverse :: splitGo [] (t' ++ rest)
      else splitGo (c :: acc) (t' ++ rest)) = splitGo (c :: acc) (t' ++ rest)
    rw [if_neg hc]

theorem splitGo_join : ∀ l : List (List Char),
    (∀ t ∈ l, t ≠ [] ∧ ∀ c ∈ t, c ≠ ' ') → splitGo [] (joinC l) = l
  | [], _ => rfl
  | [t], h => by
    rcases h t (List.mem_singleton.mpr rfl) with ⟨hne, hc⟩
    show splitGo [] t = [t]
    have := splitGo_token t [] [] hc
    simp only [List.append_nil] at this
    rw [this]
    simp [splitGo, hne]
  | t :: u :: ts, h => by
    rcases h t (List.mem_cons_self t (u :: ts)) with ⟨hne, hc⟩
    show splitGo [] (t ++ ' ' :: joinC (u :: ts)) = t :: u :: ts
    rw [splitGo_token t [] (' ' :: joinC (u :: ts)) hc]
    simp only [List.append_nil, splitGo, if_pos rfl]
    have hne' : t.reverse ≠ [] := by simpa using hne
    rw [if_neg hne']
    have ih := splitGo_join (u :: ts) (fun x hx => h x (List.mem_cons_of_mem t hx))
    simp [ih]

theorem pySplit_joinT (l : List String) (h : ∀ s ∈ l, goodName s) :
    pySplit (joinT l) = l := by
  unfold pySplit joinT
  have : splitGo [] (joinC (l.map String.data)) = l.map String.data := by
    apply splitGo_join
    intro t ht
    rcases List.mem_map.mp ht with ⟨s, hs, rfl⟩
    rcases h s hs with ⟨hne, hg⟩
    exact ⟨hne, fun c hc => ne_of_gt (hg c hc)⟩
  rw [show (String.mk (joinC (l.map String.data))).data = joinC (l.map String.data) from rfl,
      this]
  have hid : (String.mk ∘ String.data) = id := funext fun s => rfl
  rw [List.map_map, hid, List.map_id]

theorem slistLt_asymm : ∀ {a b : List String}, slistLt a b = true → slistLt b a = false
  | [], [], h => by simp [slistLt] at h
  | [], _ :: _, _ => rfl
  | _ :: _, [], h => by simp [slistLt] at h
  | x :: xs, y :: ys, h => by
    rcases hxy : strLt x y with _ | _
    · rcases hyx : strLt y x with _ | _
      · have h' : slistLt xs ys = true := by simpa [slistLt, hxy, hyx] using h
        simp [slistLt, hxy, hyx, slistLt_asymm h']
      · simp [slistLt, hxy, hyx] at h
    · simp [slistLt, hxy, strLt_asymm hxy]

/-- The two-argument `min` of a list against its own reverse is a fixed point
of the same operation: canonical identities are idempotent. -/
theorem pyMin2_rev_fix (l : List String) :
    pyMin2 slistLt (pyMin2 slistLt l l.reverse)
      (pyMin2 slistLt l l.reverse).reverse = pyMin2 slistLt l l.reverse := by
  unfold pyMin2
  rcases h : slistLt l.reverse l with _ | _
  · simp [h]
  · have h2 : slistLt l l.reverse = false := slistLt_asymm h
    simp [h, List.reverse_reverse, h2]

/-- Comparing space-joined token strings agrees with comparing the token
lists, provided every token is a good (nonempty, blank-free) name. -/
theorem strLt_joinT : ∀ (l m : List String), (∀ s ∈ l, goodName s) →
    (∀ s ∈ m, goodName s) → strLt (joinT l) (joinT m) = slistLt l m := by
  have key : ∀ (x y cs ds : List Char),
      (∀ c ∈ x, ' ' < c) → (∀ c ∈ y, ' ' < c) →
      (cs = [] ∨ ∃ cs', cs = ' ' :: cs') → (ds = [] ∨ ∃ ds', ds = ' ' :: ds') →
      clLt (x ++ cs) (y ++ ds) =
        if clLt x y then true else if clLt y x then false else clLt cs ds := by
    intro x
    induction x with
    | nil =>
      intro y cs ds _ hy hcs hds
      cases y with
      | nil => simp [clLt]
      | cons b bs =>
        simp only [List.nil_append, List.cons_append, clLt]
        rcases hcs with rfl | ⟨cs', rfl⟩
        · simp [clLt]
        · have hb : ' ' < b := hy b (List.mem_cons_self b bs)
          simp [clLt, hb, asymm hb]
    | cons a as ih =>
      intro y cs ds hx hy hcs hds
      cases y with
      | nil =>
        simp only [List.cons_append, List.nil_append, clLt]
        rcases hds with rfl | ⟨ds', rfl⟩
        · simp [clLt]
        · have ha : ' ' < a := hx a (List.mem_cons_self a as)
          simp [clLt, ha, asymm ha]
      | cons b bs =>
        simp only [List.cons_append, clLt]
        by_cases hab : a < b
        · simp [hab]
        · by_cases hba : b < a
          · simp [hab, hba]
          · have : a = b := le_antisymm (le_of_not_lt hba) (le_of_not_lt hab)
            subst this
            have hred : ∀ p q : List Char, clLt (a :: p) (a :: q) = clLt p q := by
              intro p q
              show (if a < a then true else if a < a then false else clLt p q) = clLt p q
              rw [if_neg (lt_irrefl a)]
              rw [if_neg (lt_irrefl a)]
            show clLt ((a :: as) ++ cs) ((a :: bs) ++ ds) = _
            rw [show (a :: as) ++ cs = a :: (as ++ cs) from rfl,
              show (a :: bs) ++ ds = a :: (bs ++ ds) from rfl]
            simp only [hred]
            have hcond : ∀ p q : List Char,
                (if a < a then true else if a < a then false else clLt p q) = clLt p q := by
              intro p q
              rw [if_neg (lt_irrefl a)]
              rw [if_neg (lt_irrefl a)]
            simp only [hcond]
            exact ih bs cs ds (fun c hc => hx c (List.mem_cons_of_mem a hc))
              (fun c hc => hy c (List.mem_cons_of_mem a hc)) hcs hds
  have datum : ∀ l : List String, (joinT l).data = joinC (l.map String.data) :=
    fun l => rfl
  intro l m hl hm
  show clLt (joinT l).data (joinT m).data = slistLt l m
  rw [datum, datum]
  induction l generalizing m with
  | nil =>
    cases m with
    | nil => rfl
    | cons y ys =>
      rcases hm y (List.mem_cons_self y ys) with ⟨hne, _⟩
      have : ∃ c cs, joinC ((y :: ys).map String.data) = c :: cs := by
        cases hd : y.data with
        | nil => exact absurd hd hne
        | cons c cs =>
          cases ys with
          | nil => exact ⟨c, cs, by simp [joinC, hd]⟩
          | cons u us => exact ⟨c, cs ++ ' ' :: joinC ((u :: us).map String.data),
              by simp [joinC, hd]⟩
      rcases this with ⟨c, cs, hj⟩
      rw [hj]
      rfl
  | cons x xs ihl =>
    cases m with
    | nil =>
      rcases hl x (List.mem_cons_self x xs) with ⟨hne, _⟩
      have : ∃ c cs, joinC ((x :: xs).map String.data) = c :: cs := by
        cases hd : x.data with
        | nil => exact absurd hd hne
        | cons c cs =>
          cases xs with
          | nil => exact ⟨c, cs, by simp [joinC, hd]⟩
          | cons u us => exact ⟨c, cs ++ ' ' :: joinC ((u :: us).map String.data),
              by simp [joinC, hd]⟩
      rcases this with ⟨c, cs, hj⟩
      rw [hj]
      rfl
    | cons y ys =>
      have hx' : ∀ c ∈ x.data, ' ' < c := (hl x (List.mem_cons_self x xs)).2
      have hy' : ∀ c ∈ y.data, ' ' < c := (hm y (List.mem_cons_self y ys)).2
      have hxs : ∀ s ∈ xs, goodName s := fun s hs => hl s (List.mem_cons_of_mem x hs)
      have hys : ∀ s ∈ ys, goodName s := fun s hs => hm s (List.mem_cons_of_mem y hs)
      have hxself : joinC ((x :: xs).map String.data) = x.data ++
          (if xs = [] then [] else ' ' :: joinC (xs.map String.data)) := by
        cases xs with
        | nil => simp [joinC]
        | cons u us => simp [joinC]
      have hyself : joinC ((y :: ys).map String.data) = y.data ++
          (if ys = [] then [] else ' ' :: joinC (ys.map String.data)) := by
        cases ys with
        | nil => simp [joinC]
        | cons u us => simp [joinC]
      rw [hxself, hyself]
      rw [key x.data y.data _ _ hx' hy'
        (by cases xs with
            | nil => left; simp
            | cons u us =>
              right
              refine ⟨joinC ((u :: us).map String.data), ?_⟩
              simp
            )
        (by cases ys with
            | nil => left; simp
            | cons u us =>
              right
              refine ⟨joinC ((u :: us).map String.data), ?_⟩
              simp
            )]
      have hslist : slistLt (x :: xs) (y :: ys) =
          (if clLt x.data y.data then true else if clLt y.data x.data then false
            else slistLt xs ys) := rfl
      rw [hslist]
      have harms : clLt (if xs = [] then [] else ' ' :: joinC (xs.map String.data))
          (if ys = [] then [] else ' ' :: joinC (ys.map String.data)) = slistLt xs ys := by
        cases xs with
        | nil =>
          cases ys with
          | nil => rfl
          | cons v vs =>
            simp only [if_pos rfl, List.cons_ne_nil, if_neg, not_false_iff]
            rfl
        | cons u us =>
          cases ys with
          | nil =>
            simp only [if_pos rfl, List.cons_ne_nil, if_neg, not_false_iff]
            rfl
          | cons v vs =>
            simp only [List.cons_ne_nil, if_neg, not_false_iff]
            show clLt (' ' :: joinC ((u :: us).map String.data))
                (' ' :: joinC ((v :: vs).map String.data)) = slistLt (u :: us) (v :: vs)
            unfold clLt
            rw [if_neg (lt_irrefl ' '), if_neg (lt_irrefl ' ')]
            exact ihl (v :: vs) hxs hys
      rw [harms]

/-! ## Identity lemmas -/

theorem slistLt_connex : ∀ {a b : List String},
    slistLt a b = false → slistLt b a = false → a = b
  | [], [], _, _ => rfl
  | [], _ :: _, h, _ => by simp [slistLt] at h
  | _ :: _, [], _, h => by simp [slistLt] at h
  | x :: xs, y :: ys, h, h' => by
    rcases hxy : strLt x y with _ | _
    · rcases hyx : strLt y x with _ | _
      · have hxy' : x = y := strLt_connex hxy hyx
        subst hxy'
        have h1 : slistLt xs ys = false := by simpa [slistLt, hxy] using h
        have h2 : slistLt ys xs = false := by simpa [slistLt, hxy] using h'
        rw [slistLt_connex h1 h2]
      · simp [slistLt, hyx] at h'
    · simp [slistLt, hxy] at h

theorem pyMin2_slist_comm (a b : List String) :
    pyMin2 slistLt a b = pyMin2 slistLt b a := by
  unfold pyMin2
  rcases hba : slistLt b a with _ | _
  · rcases hab : slistLt a b with _ | _
    · exact slistLt_connex hab hba
    · simp [slistLt_asymm hab]
  · simp [slistLt_asymm hba]

theorem torsionGetId_reverse (l : List String) :
    torsionGetId l.reverse = torsionGetId l := by
  unfold torsionGetId
  rw [List.reverse_reverse, pyMin2_slist_comm]

theorem angleGetId_reverse (l : List String) :
    angleGetId l.reverse = angleGetId l := by
  unfold angleGetId
  rw [List.reverse_reverse, pyMin2_slist_comm]

theorem pyMin2_mem (lt : α → α → Bool) (a b : α) :
    pyMin2 lt a b = a ∨ pyMin2 lt a b = b := by
  unfold pyMin2
  rcases lt b a with _ | _ <;> simp

theorem joinT_single (x : String) : joinT [x] = x := rfl

theorem joinT_cons (x : String) (l : List String) (h : l ≠ []) :
    joinT (x :: l) = x ++ " " ++ joinT l := by
  apply String.ext
  cases l with
  | nil => exact absurd rfl h
  | cons y ys =>
    show joinC (x.data :: (y :: ys).map String.data) =
      ((x ++ " ") ++ joinT (y :: ys)).data
    rw [String.data_append, String.data_append]
    show x.data ++ ' ' :: joinC ((y :: ys).map String.data) =
      (x.data ++ [' ']) ++ joinC ((y :: ys).map String.data)
    simp

theorem joinT_pair (x y : String) : joinT [x, y] = x ++ " " ++ y := by
  rw [joinT_cons x [y] (by simp), joinT_single]

theorem joinT_triple (x y z : String) : joinT [x, y, z] = x ++ " " ++ (y ++ " " ++ z) := by
  rw [joinT_cons x [y, z] (by simp), joinT_pair]

theorem joinT_quad (x y z w : String) :
    joinT [x, y, z, w] = x ++ " " ++ (y ++ " " ++ (z ++ " " ++ w)) := by
  rw [joinT_cons x [y, z, w] (by simp), joinT_triple]

theorem pyStrMin_joinT (l m : List String) (hl : ∀ s ∈ l, goodName s)
    (hm : ∀ s ∈ m, goodName s) :
    pyStrMin (joinT l) (joinT m) = joinT (pyMin2 slistLt l m) := by
  unfold pyStrMin pyMin2
  rw [strLt_joinT m l hm hl]
  rcases slistLt m l with _ | _ <;> simp

theorem sortI_strLe_good {l : List String} (h : ∀ s ∈ l, goodName s) :
    ∀ s ∈ sortI strLe l, goodName s :=
  fun s hs => h s ((sortI_perm strLe l).mem_iff.mp hs)

theorem bondGetId_split {l : List String} (h : ∀ s ∈ l, goodName s) :
    pySplit (bondGetId l) = sortI strLe l :=
  pySplit_joinT (sortI strLe l) (sortI_strLe_good h)

theorem bondGetId_idem {l : List String} (h : ∀ s ∈ l, goodName s) :
    bondGetId (pySplit (bondGetId l)) = bondGetId l := by
  rw [bondGetId_split h]
  unfold bondGetId
  rw [sortI_idem strLe strLe_total (fun a b c => strLe_trans) l]

theorem pyMin2_rev_good {l : List String} (h : ∀ s ∈ l, goodName s) :
    ∀ s ∈ pyMin2 slistLt l l.reverse, goodName s := by
  intro s hs
  rcases pyMin2_mem slistLt l l.reverse with he | he
  · exact h s (he ▸ hs)
  · exact h s (List.mem_reverse.mp (he ▸ hs))

theorem torsionGetId_split {l : List String} (h : ∀ s ∈ l, goodName s) :
    pySplit (torsionGetId l) = pyMin2 slistLt l l.reverse :=
  pySplit_joinT (pyMin2 slistLt l l.reverse) (pyMin2_rev_good h)

theorem torsionGetId_idem {l : List String} (h : ∀ s ∈ l, goodName s) :
    torsionGetId (pySplit (torsionGetId l)) = torsionGetId l := by
  rw [torsionGetId_split h]
  show joinT (pyMin2 slistLt (pyMin2 slistLt l l.reverse)
    (pyMin2 slistLt l l.reverse).reverse) = _
  rw [pyMin2_rev_fix l]
  rfl

theorem angleGetId_split {l : List String} (h : ∀ s ∈ l, goodName s) :
    pySplit (angleGetId l) = pyMin2 slistLt l l.reverse :=
  pySplit_joinT (pyMin2 slistLt l l.reverse) (pyMin2_rev_good h)

theorem angleGetId_idem {l : List String} (h : ∀ s ∈ l, goodName s) :
    angleGetId (pySplit (angleGetId l)) = angleGetId l := by
  rw [angleGetId_split h]
  show joinT (pyMin2 slistLt (pyMin2 slistLt l l.reverse)
    (pyMin2 slistLt l l.reverse).reverse) = _
  rw [pyMin2_rev_fix l]
  rfl

theorem filter_sortI (p : String → Bool) (l : List String) :
    (sortI strLe l).filter p = sortI strLe (l.filter p) := by
  apply sorted_perm_eq strLe (fun a b => strLe_antisymm)
  · exact ((sortI_perm strLe l).filter p).trans (sortI_perm strLe (l.filter p)).symm
  · exact (sortI_sorted strLe strLe_total (fun a b c => strLe_trans) l).filter p
  · exact sortI_sorted strLe strLe_total (fun a b c => strLe_trans) (l.filter p)

theorem improperGetIdTokens_perm (center : String) {others others' : List String}
    (hp : others.Perm others') :
    improperGetIdTokens center others = improperGetIdTokens center others' := by
  unfold improperGetIdTokens
  rw [sortI_eq_of_perm strLe strLe_total (fun a b c => strLe_trans)
    (fun a b => strLe_antisymm) hp]

theorem improperTokens_spec (center : String) (others : List String)
    (h3 : others.length = 3) (hconc : ∃ s ∈ others, s ≠ "?") :
    ∃ p1 p2 p3, improperGetIdTokens center others = some [p1, center, p2, p3] ∧
      [p1, p2, p3].Perm others ∧
      [p1, p2, p3].filter (fun x => decide (x ≠ "?")) =
        sortI strLe (others.filter (fun x => decide (x ≠ "?"))) := by
  have hperm : (sortI strLe others).Perm others := sortI_perm strLe others
  have hlen : (sortI strLe others).length = 3 := by rw [hperm.length_eq, h3]
  have hsplit : ((sortI strLe others).filter (fun x => decide (x ≠ "?")) ++
      (sortI strLe others).filter (fun x => !(decide (x ≠ "?")))).Perm
      (sortI strLe others) :=
    List.filter_append_perm _ (sortI strLe others)
  have hqall : ∀ x ∈ (sortI strLe others).filter (fun x => !(decide (x ≠ "?"))),
      x = "?" := by
    intro x hx
    have := (List.mem_filter.mp hx).2
    simpa using this
  have hatsall : ∀ x ∈ (sortI strLe others).filter (fun x => decide (x ≠ "?")),
      x ≠ "?" := by
    intro x hx
    have := (List.mem_filter.mp hx).2
    simpa using this
  have hlen2 : ((sortI strLe others).filter (fun x => decide (x ≠ "?"))).length +
      ((sortI strLe others).filter (fun x => !(decide (x ≠ "?")))).length = 3 := by
    have := hsplit.length_eq
    simpa [List.length_append] using this.trans hlen
  have hfilter : (sortI strLe others).filter (fun x => decide (x ≠ "?")) =
      sortI strLe (others.filter (fun x => decide (x ≠ "?"))) :=
    filter_sortI _ others
  have hne : (sortI strLe others).filter (fun x => decide (x ≠ "?")) ≠ [] := by
    rcases hconc with ⟨s, hs, hsq⟩
    intro hempty
    have hmem : s ∈ (sortI strLe others).filter (fun x => decide (x ≠ "?")) :=
      List.mem_filter.mpr ⟨hperm.mem_iff.mpr hs, by simpa using hsq⟩
    rw [hempty] at hmem
    exact absurd hmem (List.not_mem_nil s)
  rcases hats : (sortI strLe others).filter (fun x => decide (x ≠ "?")) with
    _ | ⟨a, _ | ⟨b, _ | ⟨c, _ | ⟨d, rest⟩⟩⟩⟩
  · exact absurd hats hne
  · -- one concrete peripheral: two wildcards fill the outer slots
    refine ⟨"?", a, "?", ?_, ?_, ?_⟩
    · unfold improperGetIdTokens
      rw [hats]
    · have hq2 : ((sortI strLe others).filter
          (fun x => !(decide (x ≠ "?")))).length = 2 := by
        rw [hats] at hlen2
        simp only [List.length_cons, List.length_nil] at hlen2
        omega
      have hqs : (sortI strLe others).filter (fun x => !(decide (x ≠ "?")))
          = ["?", "?"] := by
        rcases hq : (sortI strLe others).filter (fun x => !(decide (x ≠ "?"))) with
          _ | ⟨x, _ | ⟨y, _ | ⟨z, r⟩⟩⟩
        · rw [hq] at hq2; simp at hq2
        · rw [hq] at hq2; simp at hq2
        · have hx : x = "?" := hqall x (by rw [hq]; exact List.mem_cons_self _ _)
          have hy : y = "?" := hqall y (by rw [hq]; simp)
          rw [hx, hy]
        · rw [hq] at hq2; simp at hq2
      have := hsplit
      rw [hats, hqs] at this
      have hperm2 : ["?", a, "?"].Perm ([a] ++ ["?", "?"]) := by
        refine (List.Perm.swap a "?" ["?"]).trans ?_
        exact List.Perm.refl _
      exact (hperm2.trans this).trans hperm
    · have hpa : a ≠ "?" := hatsall a (by rw [hats]; exact List.mem_cons_self _ _)
      rw [← hfilter, hats]
      simp [hpa]
  · -- two concrete peripherals: one wildcard fills the first slot
    refine ⟨"?", a, b, ?_, ?_, ?_⟩
    · unfold improperGetIdTokens
      rw [hats]
    · have hq1 : ((sortI strLe others).filter
          (fun x => !(decide (x ≠ "?")))).length = 1 := by
        rw [hats] at hlen2
        simp only [List.length_cons, List.length_nil] at hlen2
        omega
      have hqs : (sortI strLe others).filter (fun x => !(decide (x ≠ "?")))
          = ["?"] := by
        rcases hq : (sortI strLe others).filter (fun x => !(decide (x ≠ "?"))) with
          _ | ⟨x, _ | ⟨y, r⟩⟩
        · rw [hq] at hq1; simp at hq1
        · have hx : x = "?" := hqall x (by rw [hq]; exact List.mem_cons_self _ _)
          rw [hx]
        · rw [hq] at hq1; simp at hq1
      have := hsplit
      rw [hats, hqs] at this
      have hperm2 : ["?", a, b].Perm ([a, b] ++ ["?"]) := by
        refine (List.Perm.swap a "?" [b]).trans ?_
        exact ((List.Perm.swap b "?" []).cons a)
      exact (hperm2.trans this).trans hperm
    · have hpa : a ≠ "?" := hatsall a (by rw [hats]; exact List.mem_cons_self _ _)
      have hpb : b ≠ "?" := hatsall b (by rw [hats]; simp)
      rw [← hfilter, hats]
      simp [hpa, hpb]
  · -- three concrete peripherals
    refine ⟨a, b, c, ?_, ?_, ?_⟩
    · unfold improperGetIdTokens
      rw [hats]
    · have hsub : ((sortI strLe others).filter
          (fun x => decide (x ≠ "?"))).Sublist (sortI strLe others) :=
        List.filter_sublist _
      have heq : (sortI strLe others).filter (fun x => decide (x ≠ "?"))
          = sortI strLe others := by
        apply hsub.eq_of_length
        rw [hats, hlen]
        rfl
      rw [← hats, heq]
      exact hperm
    · have hpa : a ≠ "?" := hatsall a (by rw [hats]; exact List.mem_cons_self _ _)
      have hpb : b ≠ "?" := hatsall b (by rw [hats]; simp)
      have hpc : c ≠ "?" := hatsall c (by rw [hats]; simp)
      rw [← hfilter, hats]
      simp [hpa, hpb, hpc]
  · -- four or more concrete peripherals: impossible for a length-3 input
    exfalso
    rw [hats] at hlen2
    simp only [List.length_cons, List.length_nil] at hlen2
    omega

theorem bondGetId_pair (x y : String) :
    bondGetId [x, y] = if strLe x y = true then x ++ " " ++ y else y ++ " " ++ x := by
  have hins : insertS strLe x [y] = if strLe x y = true then [x, y] else [y, x] := by
    show (if strLe x y then x :: [y] else y :: insertS strLe x []) = _
    rcases strLe x y with _ | _ <;> rfl
  show joinT (insertS strLe x (insertS strLe y [])) = _
  show joinT (insertS strLe x [y]) = _
  rw [hins]
  rcases strLe x y with _ | _
  · simp [joinT_pair]
  · simp [joinT_pair]

/-- Claim C1: the bond identity is the two names sorted and joined with a
blank (hence symmetric in its arguments), and the angle and torsion
identities are invariant under reversal and equal (for tokenized names)
to the lexicographically smaller of the forward and reversed sequences
joined with blanks. -/
theorem claim_C1 :
    (∀ a b : String, bondGetId [a, b] = bondGetId [b, a]
      ∧ (strLe a b = true → bondGetId [a, b] = a ++ " " ++ b)
      ∧ (strLe b a = true → bondGetId [a, b] = b ++ " " ++ a))
    ∧ (∀ a b c : String, angleGetId [a, b, c] = angleGetId [c, b, a]
      ∧ (goodName a → goodName b → goodName c →
          angleGetId [a, b, c] = pyStrMin (a ++ " " ++ (b ++ " " ++ c))
            (c ++ " " ++ (b ++ " " ++ a))))
    ∧ (∀ a b c d : String, torsionGetId [a, b, c, d] = torsionGetId [d, c, b, a]
      ∧ (goodName a → goodName b → goodName c → goodName d →
          torsionGetId [a, b, c, d] =
            pyStrMin (a ++ " " ++ (b ++ " " ++ (c ++ " " ++ d)))
              (d ++ " " ++ (c ++ " " ++ (b ++ " " ++ a))))) := by
  refine ⟨?_, ?_, ?_⟩
  · intro a b
    refine ⟨?_, ?_, ?_⟩
    · rw [bondGetId_pair, bondGetId_pair]
      rcases hab : strLe a b with _ | _
      · rcases hba : strLe b a with _ | _
        · rcases strLe_total a b with h | h
          · rw [h] at hab; exact absurd hab (by simp)
          · rw [h] at hba; exact absurd hba (by simp)
        · simp
      · rcases hba : strLe b a with _ | _
        · simp
        · rw [strLe_antisymm hab hba]
    · intro h
      rw [bondGetId_pair, if_pos h]
    · intro h
      rw [bondGetId_pair]
      rcases hab : strLe a b with _ | _
      · simp
      · rw [strLe_antisymm hab h]
        simp
  · intro a b c
    constructor
    · rw [show ([a, b, c] : List String) = [c, b, a].reverse from rfl,
        angleGetId_reverse]
    · intro ha hb hc
      have hl : ∀ s ∈ ([a, b, c] : List String), goodName s := by
        intro s hs
        simp only [List.mem_cons, List.not_mem_nil, or_false] at hs
        rcases hs with rfl | rfl | rfl
        · exact ha
        · exact hb
        · exact hc
      have hm : ∀ s ∈ ([c, b, a] : List String), goodName s := by
        intro s hs
        simp only [List.mem_cons, List.not_mem_nil, or_false] at hs
        rcases hs with rfl | rfl | rfl
        · exact hc
        · exact hb
        · exact ha
      have : angleGetId [a, b, c] =
          joinT (pyMin2 slistLt [a, b, c] [c, b, a]) := rfl
      rw [this, ← pyStrMin_joinT [a, b, c] [c, b, a] hl hm,
        joinT_triple, joinT_triple]
  · intro a b c d
    constructor
    · rw [show ([a, b, c, d] : List String) = [d, c, b, a].reverse from rfl,
        torsionGetId_reverse]
    · intro ha hb hc hd
      have hl : ∀ s ∈ ([a, b, c, d] : List String), goodName s := by
        intro s hs
        simp only [List.mem_cons, List.not_mem_nil, or_false] at hs
        rcases hs with rfl | rfl | rfl | rfl
        · exact ha
        · exact hb
        · exact hc
        · exact hd
      have hm : ∀ s ∈ ([d, c, b, a] : List String), goodName s := by
        intro s hs
        simp only [List.mem_cons, List.not_mem_nil, or_false] at hs
        rcases hs with rfl | rfl | rfl | rfl
        · exact hd
        · exact hc
        · exact hb
        · exact ha
      have : torsionGetId [a, b, c, d] =
          joinT (pyMin2 slistLt [a, b, c, d] [d, c, b, a]) := rfl
      rw [this, ← pyStrMin_joinT [a, b, c, d] [d, c, b, a] hl hm,
        joinT_quad, joinT_quad]

/-- Witness for C1 at concrete atom-type names. -/
theorem claim_C1_witness :
    (goodName "CA" ∧ goodName "OS" ∧ goodName "CT") ∧
    angleGetId ["CA", "OS", "CT"] =
      pyStrMin ("CA" ++ " " ++ ("OS" ++ " " ++ "CT"))
        ("CT" ++ " " ++ ("OS" ++ " " ++ "CA")) :=
  ⟨⟨by decide, by decide, by decide⟩,
    (claim_C1.2.1 "CA" "OS" "CT").2 (by decide) (by decide) (by decide)⟩

/-- Claim C6: `add_prm` fails exactly when the new multiplicity matches
an existing one in absolute value within `1e-7`, and reachable torsions
have pairwise-distinct absolute multiplicities at that tolerance. -/
theorem claim_C6 (t : PrmTorsion) :
    (∀ fc m ph np : ℚ, t.addPrm fc m ph np = none ↔
      ∃ m' ∈ t.multiplicities, abs (abs m - abs m') < tol7)
    ∧ (TorsionReach t →
      t.multiplicities.Pairwise (fun x y => tol7 ≤ abs (abs x - abs y))) := by
  constructor
  · intro fc m ph np
    unfold PrmTorsion.addPrm
    rcases h : t.multiplicities.any
        (fun mult => decide (abs (abs m - abs mult) < tol7)) with _ | _
    · constructor
      · intro hcontra
        exact absurd hcontra (by simp)
      · intro ⟨m', hm', hlt⟩
        rw [List.any_eq_false] at h
        exact absurd (by simpa using hlt) (by simpa using h m' hm')
    · constructor
      · intro _
        rw [List.any_eq_true] at h
        rcases h with ⟨m', hm', hdec⟩
        exact ⟨m', hm', by simpa using hdec⟩
      · intro _
        rfl
  · intro hr
    induction hr with
    | init ats c => simp [mkPrmTorsion]
    | step t fc m ph np t' ht hstep ih =>
      unfold PrmTorsion.addPrm at hstep
      simp at hstep
      rcases hstep with ⟨hall, heq⟩
      rw [← heq]
      show (t.multiplicities ++
        [if |ph| < tol7 ∨ |ph - 180| < tol7 then |m| else m]).Pairwise _
      rw [List.pairwise_append]
      refine ⟨ih, by simp, ?_⟩
      intro x hx y hy
      have habs : abs y = abs m := by
        rcases List.mem_singleton.mp hy with rfl
        rcases hcond : (decide (|ph| < tol7 ∨ |ph - 180| < tol7) : Bool) with _ | _
        · have hcond' : ¬ (|ph| < tol7 ∨ |ph - 180| < tol7) := by simpa using hcond
          rw [if_neg hcond']
        · have hcond' : |ph| < tol7 ∨ |ph - 180| < tol7 := by simpa using hcond
          rw [if_pos hcond', abs_abs]
      rw [habs, abs_sub_comm]
      exact hall x hx

unseal Rat.mul Rat.add Rat.sub Rat.inv Rat.ofScientific in
/-- Witness for C6: a concrete torsion reached by one `add_prm` call. -/
theorem claim_C6_witness :
    tExampleC6.multiplicities.Pairwise (fun x y => tol7 ≤ abs (abs x - abs y)) :=
  (claim_C6 tExampleC6).2
    (TorsionReach.step (mkPrmTorsion ["CT", "CT", "CT", "HC"] none) 3 1 0 1
      tExampleC6 (TorsionReach.init _ _) (by decide))

unseal Rat.mul Rat.add Rat.sub Rat.inv Rat.ofScientific in
/-- Claim C7 (code behaviour at the improper multiplicity check): the
source tests `abs(multiplicity) - 2.0 > 0.00001`, which accepts the
multiplicities 1, 0 and -2 that the documented rule "only multiplicity 2
is supported" should reject; only magnitudes above 2.00001 are
rejected. -/
theorem claim_C7 :
    isOkImp (mkPrmImproper "CB" ["CA", "CC", "N2"] 1 0 1 none) = true
    ∧ isOkImp (mkPrmImproper "CB" ["CA", "CC", "N2"] 1 0 0 none) = true
    ∧ isOkImp (mkPrmImproper "CB" ["CA", "CC", "N2"] 1 0 (-2) none) = true
    ∧ isOkImp (mkPrmImproper "CB" ["CA", "CC", "N2"] 1 0 2 none) = true
    ∧ errImp (mkPrmImproper "CB" ["CA", "CC", "N2"] 1 0 3 none)
        = some QErr.unsupportedMultiplicity := by
  refine ⟨by decide, by decide, by decide, by decide, by decide⟩

unseal Rat.mul Rat.add Rat.sub Rat.inv Rat.ofScientific in
/-- Counterexample to C8 as stated: for an all-wildcard peripheral set
there is no identity at all; the constructor aborts. -/
theorem claim_C8_counterexample :
    improperGetIdTokens "CT" ["?", "?", "?"] = none
    ∧ errImp (mkPrmImproper "CT" ["?", "?", "?"] 1 0 2 none)
        = some QErr.threeWildcards := by
  refine ⟨by decide, by decide⟩

/-- Claim C8 (amended): for any center and any three peripherals at least
one of which is concrete, the identity is a 4-token key with the center
fixed second; it is invariant under every permutation of the
peripherals; the peripheral slots are a permutation of the given
peripherals; and the concrete peripherals appear sorted. -/
theorem claim_C8 (center : String) (others : List String) (h3 : others.length = 3)
    (hconc : ∃ s ∈ others, s ≠ "?") :
    ∃ p1 p2 p3, improperGetIdTokens center others = some [p1, center, p2, p3] ∧
      (∀ others', others.Perm others' →
        improperGetIdTokens center others' = some [p1, center, p2, p3]) ∧
      [p1, p2, p3].Perm others ∧
      [p1, p2, p3].filter (fun x => decide (x ≠ "?")) =
        sortI strLe (others.filter (fun x => decide (x ≠ "?"))) := by
  rcases improperTokens_spec center others h3 hconc with ⟨p1, p2, p3, hid, hperm, hsort⟩
  refine ⟨p1, p2, p3, hid, ?_, hperm, hsort⟩
  intro others' hp
  rw [← improperGetIdTokens_perm center hp]
  exact hid

/-- Witness for C8 at a concrete improper with one wildcard. -/
theorem claim_C8_witness :
    ∃ p1 p2 p3, improperGetIdTokens "CT" ["OH", "?", "CA"] = some [p1, "CT", p2, p3] ∧
      (∀ others', (["OH", "?", "CA"] : List String).Perm others' →
        improperGetIdTokens "CT" others' = some [p1, "CT", p2, p3]) ∧
      [p1, p2, p3].Perm ["OH", "?", "CA"] ∧
      [p1, p2, p3].filter (fun x => decide (x ≠ "?")) =
        sortI strLe ((["OH", "?", "CA"] : List String).filter
          (fun x => decide (x ≠ "?"))) :=
  claim_C8 "CT" ["OH", "?", "CA"] (by decide) (by decide)

/-- Claim C10: every bonded record stores as `atom_types` exactly the
token list of its canonical identity (a permutation of the input names,
not the input ordering): the original ordering is not retained, as the
final concrete conjunct shows. -/
theorem claim_C10 :
    (∀ (a b : String) (fc r0 : ℚ) (cm : Option String), goodName a → goodName b →
      (mkPrmBond [a, b] fc r0 cm).atom_types
          = pySplit (mkPrmBond [a, b] fc r0 cm).prm_id
        ∧ (mkPrmBond [a, b] fc r0 cm).atom_types.Perm [a, b])
    ∧ (∀ (a b c : String) (fc th : ℚ) (cm : Option String),
        goodName a → goodName b → goodName c →
        (mkPrmAngle [a, b, c] fc th cm).atom_types
            = pySplit (mkPrmAngle [a, b, c] fc th cm).prm_id
          ∧ (mkPrmAngle [a, b, c] fc th cm).atom_types.Perm [a, b, c])
    ∧ (∀ (a b c d : String) (cm : Option String),
        goodName a → goodName b → goodName c → goodName d →
        (mkPrmTorsion [a, b, c, d] cm).atom_types
            = pySplit (mkPrmTorsion [a, b, c, d] cm).prm_id
          ∧ (mkPrmTorsion [a, b, c, d] cm).atom_types.Perm [a, b, c, d])
    ∧ (∀ (center : String) (others : List String) (fc phi0 m : ℚ)
        (cm : Option String) (imp : PrmImproper),
        goodName center → (∀ s ∈ others, goodName s) → others.length = 3 →
        mkPrmImproper center others fc phi0 m cm = .ok imp →
        imp.atom_types = pySplit imp.prm_id
          ∧ imp.atom_types.Perm (center :: others))
    ∧ (mkPrmBond ["HC", "CT"] 300 (mkRat 109 100) none).atom_types = ["CT", "HC"]
      := by
  have goodQ : goodName "?" := by decide
  refine ⟨?_, ?_, ?_, ?_, ?_⟩
  · intro a b fc r0 cm ha hb
    have hl : ∀ s ∈ ([a, b] : List String), goodName s := by
      intro s hs
      simp only [List.mem_cons, List.not_mem_nil, or_false] at hs
      rcases hs with rfl | rfl
      · exact ha
      · exact hb
    exact ⟨rfl, by
      show (pySplit (bondGetId [a, b])).Perm [a, b]
      rw [bondGetId_split hl]
      exact sortI_perm strLe [a, b]⟩
  · intro a b c fc th cm ha hb hc
    have hl : ∀ s ∈ ([a, b, c] : List String), goodName s := by
      intro s hs
      simp only [List.mem_cons, List.not_mem_nil, or_false] at hs
      rcases hs with rfl | rfl | rfl
      · exact ha
      · exact hb
      · exact hc
    refine ⟨rfl, ?_⟩
    show (pySplit (angleGetId [a, b, c])).Perm [a, b, c]
    rw [angleGetId_split hl]
    rcases pyMin2_mem slistLt [a, b, c] [a, b, c].reverse with he | he
    · rw [he]
    · rw [he]
      exact List.reverse_perm [a, b, c]
  · intro a b c d cm ha hb hc hd
    have hl : ∀ s ∈ ([a, b, c, d] : List String), goodName s := by
      intro s hs
      simp only [List.mem_cons, List.not_mem_nil, or_false] at hs
      rcases hs with rfl | rfl | rfl | rfl
      · exact ha
      · exact hb
      · exact hc
      · exact hd
    refine ⟨rfl, ?_⟩
    show (pySplit (torsionGetId [a, b, c, d])).Perm [a, b, c, d]
    rw [torsionGetId_split hl]
    rcases pyMin2_mem slistLt [a, b, c, d] [a, b, c, d].reverse with he | he
    · rw [he]
    · rw [he]
      exact List.reverse_perm [a, b, c, d]
  · intro center others fc phi0 m cm imp hcen hoth h3 hok
    unfold mkPrmImproper at hok
    by_cases htest : tol5 < |m| - 2
    case pos =>
      rw [if_pos htest] at hok
      exact absurd hok (by simp)
    case neg =>
      rw [if_neg htest] at hok
      have hconc : ∃ s ∈ others, s ≠ "?" := by
        by_contra hno
        push_neg at hno
        have hall : ∀ s ∈ others, ¬ (s ≠ "?") := fun s hs => not_not.mpr (hno s hs)
        have hempty : others.filter (fun x => decide (x ≠ "?")) = [] := by
          rw [List.filter_eq_nil_iff]
          intro s hs
          simpa using hno s hs
        have : improperGetIdTokens center others = none := by
          unfold improperGetIdTokens
          rw [filter_sortI, hempty]
          rfl
        rw [this] at hok
        exact absurd hok (by simp)
      rcases improperTokens_spec center others h3 hconc with
        ⟨p1, p2, p3, hid, hperm, hsort⟩
      rw [hid] at hok
      have himp := Except.ok.inj hok
      have htoks : ∀ s ∈ ([p1, center, p2, p3] : List String), goodName s := by
        have hsub : ∀ x ∈ ([p1, p2, p3] : List String), goodName x := by
          intro x hx
          rcases hperm.mem_iff.mp hx with hx'
          by_cases hq : x = "?"
          · rw [hq]; exact goodQ
          · exact hoth x hx'
        intro s hs
        simp only [List.mem_cons, List.not_mem_nil, or_false] at hs
        rcases hs with rfl | rfl | rfl | rfl
        · exact hsub s (by simp)
        · exact hcen
        · exact hsub s (by simp)
        · exact hsub s (by simp)
      constructor
      · rw [← himp]
      · rw [← himp]
        show (pySplit (joinT [p1, center, p2, p3])).Perm (center :: others)
        rw [pySplit_joinT _ htoks]
        refine (List.Perm.swap center p1 [p2, p3]).trans ?_
        exact hperm.cons center
  · have h1 : strLe "HC" "CT" = false := by decide
    have h2 : strLe "CT" "HC" = true := by decide
    show pySplit (bondGetId ["HC", "CT"]) = ["CT", "HC"]
    rw [bondGetId_pair "HC" "CT", if_neg (by rw [h1]; simp)]
    have : ("CT" ++ " " ++ "HC" : String) = joinT ["CT", "HC"] := (joinT_pair _ _).symm
    rw [this, pySplit_joinT ["CT", "HC"] (by decide)]

/-- Witness for C10 at concrete names. -/
theorem claim_C10_witness :
    (mkPrmTorsion ["OS", "CT", "CT", "HC"] none).atom_types
        = pySplit (mkPrmTorsion ["OS", "CT", "CT", "HC"] none).prm_id
      ∧ (mkPrmTorsion ["OS", "CT", "CT", "HC"] none).atom_types.Perm
          ["OS", "CT", "CT", "HC"] :=
  claim_C10.2.2.1 "OS" "CT" "CT" "HC" none (by decide) (by decide) (by decide)
    (by decide)

theorem lookupD_cons {α : Type} (a k : String) (w : α) (tl : List (String × α)) :
    lookupD ((a, w) :: tl) k = if a = k then some w else lookupD tl k := rfl

theorem lookupD_map_set {α : Type} (d : List (String × α)) (k : String) (v : α) :
    lookupD (d.map (fun p => if p.1 = k then (k, v) else p)) k =
      if (lookupD d k).isSome then some v else none := by
  induction d with
  | nil => rfl
  | cons hd tl ih =>
    rcases hd with ⟨k0, w⟩
    show lookupD ((if k0 = k then (k, v) else (k0, w)) ::
      tl.map (fun p => if p.1 = k then (k, v) else p)) k =
      if (lookupD ((k0, w) :: tl) k).isSome then some v else none
    by_cases h0 : k0 = k
    · subst h0
      simp [lookupD_cons]
    · rw [if_neg h0, lookupD_cons, if_neg h0, lookupD_cons, if_neg h0, ih]

theorem lookupD_map_set_ne {α : Type} (d : List (String × α)) (k k' : String) (v : α)
    (h : k' ≠ k) :
    lookupD (d.map (fun p => if p.1 = k then (k, v) else p)) k' = lookupD d k' := by
  induction d with
  | nil => rfl
  | cons hd tl ih =>
    rcases hd with ⟨k0, w⟩
    show lookupD ((if k0 = k then (k, v) else (k0, w)) ::
      tl.map (fun p => if p.1 = k then (k, v) else p)) k' = lookupD ((k0, w) :: tl) k'
    by_cases h0 : k0 = k
    · subst h0
      rw [if_pos rfl, lookupD_cons, lookupD_cons, if_neg (Ne.symm h),
        if_neg (Ne.symm h)]
      exact ih
    · rw [if_neg h0, lookupD_cons, lookupD_cons, ih]

theorem lookupD_append_none {α : Type} (d : List (String × α)) (k : String) (v : α)
    (h : lookupD d k = none) : lookupD (d ++ [(k, v)]) k = some v := by
  induction d with
  | nil => simp [lookupD]
  | cons hd tl ih =>
    rcases hd with ⟨k', w⟩
    have h' : (if k' = k then some w else lookupD tl k) = none := h
    show (if k' = k then some w else lookupD (tl ++ [(k, v)]) k) = some v
    by_cases hk : k' = k
    · rw [if_pos hk] at h'
      exact absurd h' (by simp)
    · rw [if_neg hk] at h'
      rw [if_neg hk]
      exact ih h'

theorem lookupD_append_ne {α : Type} (d : List (String × α)) (k k' : String) (v : α)
    (h : k' ≠ k) : lookupD (d ++ [(k, v)]) k' = lookupD d k' := by
  induction d with
  | nil => simp [lookupD, if_neg (Ne.symm h)]
  | cons hd tl ih =>
    rcases hd with ⟨k0, w⟩
    show (if k0 = k' then some w else lookupD (tl ++ [(k, v)]) k') =
      (if k0 = k' then some w else lookupD tl k')
    by_cases h0 : k0 = k'
    · rw [if_pos h0, if_pos h0]
    · rw [if_neg h0, if_neg h0, ih]

theorem lookupD_dictSet {α : Type} (d : List (String × α)) (k : String) (v : α) :
    lookupD (dictSet d k v) k = some v := by
  unfold dictSet
  rcases h : lookupD d k with _ | w
  · show lookupD (d ++ [(k, v)]) k = some v
    exact lookupD_append_none d k v h
  · show lookupD (d.map (fun p => if p.1 = k then (k, v) else p)) k = some v
    rw [lookupD_map_set, h]
    rfl

theorem lookupD_dictSet_ne {α : Type} (d : List (String × α)) (k k' : String) (v : α)
    (h : k' ≠ k) : lookupD (dictSet d k v) k' = lookupD d k' := by
  unfold dictSet
  rcases hs : (lookupD d k).isSome with _ | _
  · show lookupD (d ++ [(k, v)]) k' = lookupD d k'
    exact lookupD_append_ne d k k' v h
  · show lookupD (d.map (fun p => if p.1 = k then (k, v) else p)) k' = lookupD d k'
    exact lookupD_map_set_ne d k k' v h

theorem dictSet_length_of_mem {α : Type} (d : List (String × α)) (k : String) (v : α)
    (h : (lookupD d k).isSome = true) : (dictSet d k v).length = d.length := by
  unfold dictSet
  rw [if_pos h, List.length_map]

theorem classTable_set (qp : QPrm) (p : Prm) (d : List (String × Prm)) :
    classTable (setClassTable qp p d) p = d := by
  cases p with
  | atom a => rfl
  | bond b => rfl
  | angle a => rfl
  | torsion t =>
    by_cases hg : t.is_generic <;> simp [classTable, setClassTable, hg]
  | improper i =>
    by_cases hg : i.is_generic <;> simp [classTable, setClassTable, hg]

theorem addToDict_conflict (ig : Bool) (d : List (String × Prm)) (p old : Prm)
    (hlook : lookupD d p.prmId = some old) (hdiff : p.reprStr ≠ old.reprStr) :
    addToDict ig d p = if ig then .ok (dictSet d p.prmId p, .overwritten old)
      else .error .mergeConflict := by
  unfold addToDict
  rw [hlook]
  show (if p.reprStr ≠ old.reprStr then _ else _) = _
  rw [if_pos hdiff]

theorem addToDict_dup (ig : Bool) (d : List (String × Prm)) (p old : Prm)
    (hlook : lookupD d p.prmId = some old) (heq : p.reprStr = old.reprStr) :
    addToDict ig d p = .ok (dictSet d p.prmId p, .duplicate) := by
  unfold addToDict
  rw [hlook]
  show (if p.reprStr ≠ old.reprStr then _ else _) = _
  rw [if_neg (not_ne_iff.mpr heq)]

theorem addToDict_insert (ig : Bool) (d : List (String × Prm)) (p : Prm)
    (hlook : lookupD d p.prmId = none) :
    addToDict ig d p = .ok (dictSet d p.prmId p, .inserted) := by
  unfold addToDict
  rw [hlook]

/-- Claim C2: merging a record whose identity is present with a
different canonical string representation aborts with a merge conflict
under the strict policy, and under the relaxed policy stores the
incoming record and returns the previously stored record for audit. -/
theorem claim_C2 (qp : QPrm) (p old : Prm)
    (hlook : lookupD (classTable qp p) p.prmId = some old)
    (hdiff : p.reprStr ≠ old.reprStr) :
    (qp.ignore_errors = false → qp.addPrm p = .error .mergeConflict)
    ∧ (qp.ignore_errors = true → ∃ qp', qp.addPrm p = .ok (qp', .overwritten old)
        ∧ lookupD (classTable qp' p) p.prmId = some p) := by
  constructor
  · intro hig
    unfold QPrm.addPrm
    rw [addToDict_conflict _ _ _ _ hlook hdiff, hig]
    rfl
  · intro hig
    refine ⟨setClassTable qp p (dictSet (classTable qp p) p.prmId p), ?_, ?_⟩
    · unfold QPrm.addPrm
      rw [addToDict_conflict _ _ _ _ hlook hdiff, hig]
      rfl
    · rw [classTable_set]
      exact lookupD_dictSet _ _ _

unseal Rat.mul Rat.add Rat.sub Rat.inv Rat.ofScientific in
/-- Witness for C2: a CT-HC bond with force constant 300 against a
stored record with force constant 400, under both policies. -/
theorem claim_C2_witness :
    (qpC3a.addPrm (Prm.bond b3ex) = Except.error QErr.mergeConflict)
    ∧ (∃ qp', qpC3r.addPrm (Prm.bond b3ex) = .ok (qp', .overwritten (Prm.bond b1ex))
        ∧ lookupD (classTable qp' (Prm.bond b3ex)) (Prm.bond b3ex).prmId
            = some (Prm.bond b3ex)) :=
  ⟨(claim_C2 qpC3a (Prm.bond b3ex) (Prm.bond b1ex) (by decide) (by decide)).1 rfl,
    (claim_C2 qpC3r (Prm.bond b3ex) (Prm.bond b1ex) (by decide) (by decide)).2 rfl⟩

unseal Rat.mul Rat.add Rat.sub Rat.inv Rat.ofScientific in
/-- Counterexample to C3 as stated: merging an equal-representation
record replaces the stored record with the incoming one (the source
always executes `prm_dict[prm.prm_id] = prm`), so when the two records
differ in a field outside the representation (here the comment), the
previously stored record is not kept. -/
theorem claim_C3_counterexample :
    (Prm.bond b1ex).reprStr = (Prm.bond b2ex).reprStr
    ∧ Prm.bond b2ex ≠ Prm.bond b1ex
    ∧ qpC3a.addPrm (Prm.bond b2ex) = .ok (qpC3b, .duplicate)
    ∧ lookupD qpC3b.bonds "CT HC" = some (Prm.bond b2ex)
    ∧ lookupD qpC3b.bonds "CT HC" ≠ some (Prm.bond b1ex) := by
  refine ⟨by decide, by decide, by decide, by decide, by decide⟩

unseal Rat.mul Rat.add Rat.sub Rat.inv Rat.ofScientific in
/-- Claim C3 (amended): merging a record whose canonical representation
equals the stored one's is reported as a duplicate and the incoming
record replaces the stored one in place, leaving the canonical
representation at that identity, the table size and the key set
unchanged; reading the CT/HC bond twice (once per orientation, equal
values) yields one stored record under "CT HC" and exactly one reported
duplicate, with no conflict audit records. -/
theorem claim_C3 :
    (∀ (qp : QPrm) (p old : Prm),
      lookupD (classTable qp p) p.prmId = some old →
      p.reprStr = old.reprStr →
      ∃ qp', qp.addPrm p = .ok (qp', .duplicate)
        ∧ lookupD (classTable qp' p) p.prmId = some p
        ∧ (∀ q, lookupD (classTable qp' p) p.prmId = some q →
            q.reprStr = old.reprStr)
        ∧ (classTable qp' p).length = (classTable qp p).length
        ∧ ∀ k, (lookupD (classTable qp' p) k).isSome
            = (lookupD (classTable qp p) k).isSome)
    ∧ (∃ qp2 b, (emptyQPrm .oplsaa false).readPrm fileC3 = .ok (qp2, [], 1)
        ∧ qp2.bonds = [("CT HC", Prm.bond b)]
        ∧ b.fc = 300 ∧ b.r0 = mkRat 109 100 ∧ b.prm_id = "CT HC") := by
  constructor
  · intro qp p old hlook heq
    refine ⟨setClassTable qp p (dictSet (classTable qp p) p.prmId p), ?_, ?_, ?_, ?_, ?_⟩
    · unfold QPrm.addPrm
      rw [addToDict_dup _ _ _ _ hlook heq]
      rfl
    · rw [classTable_set]
      exact lookupD_dictSet _ _ _
    · intro q hq
      rw [classTable_set, lookupD_dictSet] at hq
      rcases Option.some.inj hq with rfl
      exact heq
    · rw [classTable_set]
      exact dictSet_length_of_mem _ _ _ (by rw [hlook]; rfl)
    · intro k
      rw [classTable_set]
      by_cases hk : k = p.prmId
      · subst hk
        rw [lookupD_dictSet, hlook]
        rfl
      · rw [lookupD_dictSet_ne _ _ _ _ hk]
  · exact ⟨qpC3read, mkPrmBond ["HC", "CT"] 300 (mkRat 109 100) none,
      by decide, by decide, by decide, by decide, by decide⟩

unseal Rat.mul Rat.add Rat.sub Rat.inv Rat.ofScientific in
/-- Witness for C3 at the concrete CT/HC duplicate records. -/
theorem claim_C3_witness :
    ∃ qp', qpC3a.addPrm (Prm.bond b2ex) = .ok (qp', .duplicate)
      ∧ lookupD (classTable qp' (Prm.bond b2ex)) (Prm.bond b2ex).prmId
          = some (Prm.bond b2ex)
      ∧ (∀ q, lookupD (classTable qp' (Prm.bond b2ex)) (Prm.bond b2ex).prmId
            = some q → q.reprStr = (Prm.bond b1ex).reprStr)
      ∧ (classTable qp' (Prm.bond b2ex)).length
          = (classTable qpC3a (Prm.bond b2ex)).length
      ∧ ∀ k, (lookupD (classTable qp' (Prm.bond b2ex)) k).isSome
          = (lookupD (classTable qpC3a (Prm.bond b2ex)) k).isSome :=
  claim_C3.1 qpC3a (Prm.bond b2ex) (Prm.bond b1ex) (by decide) (by decide)

/-! ## Stepping lemmas for the reader -/

theorem addPrm_of_not_dup (t : PrmTorsion) (fc m ph np : ℚ)
    (h : t.multiplicities.any
      (fun mult => decide (abs (abs m - abs mult) < tol7)) = false) :
    t.addPrm fc m ph np = some { t with
      multiplicities := t.multiplicities ++
        [if |ph| < tol7 ∨ |ph - 180| < tol7 then |m| else m],
      fcs := t.fcs ++ [fc],
      phases := t.phases ++ [ph],
      npaths := t.npaths ++ [np] } := by
  unfold PrmTorsion.addPrm
  rw [h]
  rfl

theorem parseTorsionsGo_nil (acc : List PrmTorsion) :
    parseTorsionsGo acc [] = .ok acc.reverse := rfl

theorem parseTorsionsGo_start (l : TorsionLine) (rest : List TorsionLine)
    (t' : PrmTorsion)
    (hadd : (mkPrmTorsion [l.a1, l.a2, l.a3, l.a4] l.comment).addPrm
      l.fc l.multiplicity l.phase l.npaths = some t') :
    parseTorsionsGo [] (l :: rest) = parseTorsionsGo [t'] rest := by
  show (match (mkPrmTorsion [l.a1, l.a2, l.a3, l.a4] l.comment).addPrm
      l.fc l.multiplicity l.phase l.npaths with
    | none => Except.error QErr.duplicateParameter
    | some t' => parseTorsionsGo [t'] rest) = _
  rw [hadd]

theorem parseTorsionsGo_fold (last : PrmTorsion) (acc' : List PrmTorsion)
    (l : TorsionLine) (rest : List TorsionLine)
    (hid : (mkPrmTorsion [l.a1, l.a2, l.a3, l.a4] l.comment).prm_id = last.prm_id)
    (t' : PrmTorsion)
    (hadd : last.addPrm l.fc l.multiplicity l.phase l.npaths = some t') :
    parseTorsionsGo (last :: acc') (l :: rest) = parseTorsionsGo (t' :: acc') rest := by
  show (if (mkPrmTorsion [l.a1, l.a2, l.a3, l.a4] l.comment).prm_id = last.prm_id then
      match last.addPrm l.fc l.multiplicity l.phase l.npaths with
      | none => Except.error QErr.duplicateParameter
      | some t'' => parseTorsionsGo (t'' :: acc') rest
    else
      match (mkPrmTorsion [l.a1, l.a2, l.a3, l.a4] l.comment).addPrm
          l.fc l.multiplicity l.phase l.npaths with
      | none => Except.error QErr.duplicateParameter
      | some t'' => parseTorsionsGo (t'' :: last :: acc') rest) =
    parseTorsionsGo (t' :: acc') rest
  rw [if_pos hid, hadd]

theorem parseTorsionsGo_new (last : PrmTorsion) (acc' : List PrmTorsion)
    (l : TorsionLine) (rest : List TorsionLine)
    (hid : ¬ (mkPrmTorsion [l.a1, l.a2, l.a3, l.a4] l.comment).prm_id = last.prm_id)
    (t' : PrmTorsion)
    (hadd : (mkPrmTorsion [l.a1, l.a2, l.a3, l.a4] l.comment).addPrm
      l.fc l.multiplicity l.phase l.npaths = some t') :
    parseTorsionsGo (last :: acc') (l :: rest) =
      parseTorsionsGo (t' :: last :: acc') rest := by
  show (if (mkPrmTorsion [l.a1, l.a2, l.a3, l.a4] l.comment).prm_id = last.prm_id then
      match last.addPrm l.fc l.multiplicity l.phase l.npaths with
      | none => Except.error QErr.duplicateParameter
      | some t'' => parseTorsionsGo (t'' :: acc') rest
    else
      match (mkPrmTorsion [l.a1, l.a2, l.a3, l.a4] l.comment).addPrm
          l.fc l.multiplicity l.phase l.npaths with
      | none => Except.error QErr.duplicateParameter
      | some t'' => parseTorsionsGo (t'' :: last :: acc') rest) =
    parseTorsionsGo (t' :: last :: acc') rest
  rw [if_neg hid, hadd]

theorem addAll_nil (qp : QPrm) (dups : List Prm) (n : ℕ) :
    addAll qp dups n [] = .ok (qp, dups.reverse, n) := rfl

theorem addAll_insert (qp : QPrm) (dups : List Prm) (n : ℕ) (p : Prm)
    (rest : List Prm) (hlook : lookupD (classTable qp p) p.prmId = none) :
    addAll qp dups n (p :: rest) =
      addAll (setClassTable qp p (dictSet (classTable qp p) p.prmId p)) dups n rest := by
  show (match qp.addPrm p with
    | .error e => Except.error e
    | .ok (qp', .inserted) => addAll qp' dups n rest
    | .ok (qp', .duplicate) => addAll qp' dups (n + 1) rest
    | .ok (qp', .overwritten old) => addAll qp' (old :: dups) n rest) = _
  unfold QPrm.addPrm
  rw [addToDict_insert _ _ _ hlook]
  rfl

theorem addAll_dup (qp : QPrm) (dups : List Prm) (n : ℕ) (p old : Prm)
    (rest : List Prm) (hlook : lookupD (classTable qp p) p.prmId = some old)
    (heq : p.reprStr = old.reprStr) :
    addAll qp dups n (p :: rest) =
      addAll (setClassTable qp p (dictSet (classTable qp p) p.prmId p)) dups
        (n + 1) rest := by
  show (match qp.addPrm p with
    | .error e => Except.error e
    | .ok (qp', .inserted) => addAll qp' dups n rest
    | .ok (qp', .duplicate) => addAll qp' dups (n + 1) rest
    | .ok (qp', .overwritten old) => addAll qp' (old :: dups) n rest) = _
  unfold QPrm.addPrm
  rw [addToDict_dup _ _ _ _ hlook heq]
  rfl

/-- Claim C9: the FFLD reader's Lennard-Jones conversion computes exactly
the square roots `A = sqrt(4 eps sigma^12)` and `B = sqrt(4 eps sigma^6)`
(characterized by the square and the sign, so no alternate rounding). -/
theorem claim_C9 (sigma epsilon : ℝ) (hs : 0 ≤ sigma) (he : 0 ≤ epsilon) :
    ffld_lj_A sigma epsilon = Real.sqrt (4 * epsilon * sigma ^ 12)
    ∧ ffld_lj_A sigma epsilon ^ 2 = 4 * epsilon * sigma ^ 12
    ∧ 0 ≤ ffld_lj_A sigma epsilon
    ∧ ffld_lj_B sigma epsilon = Real.sqrt (4 * epsilon * sigma ^ 6)
    ∧ ffld_lj_B sigma epsilon ^ 2 = 4 * epsilon * sigma ^ 6
    ∧ 0 ≤ ffld_lj_B sigma epsilon := by
  have h12 : (0 : ℝ) ≤ 4 * epsilon * sigma ^ 12 := by positivity
  have h6 : (0 : ℝ) ≤ 4 * epsilon * sigma ^ 6 := by positivity
  have hA : ffld_lj_A sigma epsilon = Real.sqrt (4 * epsilon * sigma ^ 12) := by
    unfold ffld_lj_A
    rw [show (0.5 : ℝ) = 1 / 2 by norm_num, ← Real.sqrt_eq_rpow]
  have hB : ffld_lj_B sigma epsilon = Real.sqrt (4 * epsilon * sigma ^ 6) := by
    unfold ffld_lj_B
    rw [show (0.5 : ℝ) = 1 / 2 by norm_num, ← Real.sqrt_eq_rpow]
  refine ⟨hA, ?_, ?_, hB, ?_, ?_⟩
  · rw [hA]
    exact Real.sq_sqrt h12
  · rw [hA]
    exact Real.sqrt_nonneg _
  · rw [hB]
    exact Real.sq_sqrt h6
  · rw [hB]
    exact Real.sqrt_nonneg _

/-- Witness for C9 at the specified sigma 3.5, epsilon 0.066. -/
theorem claim_C9_witness :
    ffld_lj_A 3.5 0.066 = Real.sqrt (4 * 0.066 * 3.5 ^ 12)
    ∧ ffld_lj_A 3.5 0.066 ^ 2 = 4 * 0.066 * 3.5 ^ 12
    ∧ 0 ≤ ffld_lj_A 3.5 0.066
    ∧ ffld_lj_B 3.5 0.066 = Real.sqrt (4 * 0.066 * 3.5 ^ 6)
    ∧ ffld_lj_B 3.5 0.066 ^ 2 = 4 * 0.066 * 3.5 ^ 6
    ∧ 0 ≤ ffld_lj_B 3.5 0.066 :=
  claim_C9 3.5 0.066 (by norm_num) (by norm_num)

theorem readPrm_torsions_only (qp : QPrm) (tls : List TorsionLine) :
    qp.readPrm
        { options := [], atomLines := [], bondLines := [], angleLines := [],
          torsionLines := tls, improperLines := [] } =
      match parseTorsionsGo [] tls with
      | .error e => .error e
      | .ok torsions => addAll qp [] 0 (torsions.map Prm.torsion ++ []) := by
  show (match parseTorsionsGo [] tls with
    | .error e => Except.error e
    | .ok torsions =>
      match parseImpropers ([] : List ImproperLine) with
      | .error e => Except.error e
      | .ok impropers => addAll qp [] 0
          (torsions.map Prm.torsion ++ impropers.map Prm.improper)) = _
  rcases h : parseTorsionsGo [] tls with e | ts
  · rfl
  · rfl

unseal Rat.mul Rat.add Rat.sub Rat.inv Rat.ofScientific in
/-- Claim C5: reading a torsion's multiplicity-1 and multiplicity-2 terms
for the sequence A-B-C-D, and separately (in a second native-format read)
the same two terms for the reversed sequence D-C-B-A, leaves exactly one
stored torsion whose ordered term list is the two terms sorted as
multiplicity 1 then multiplicity 2; the second read reports the record as
one duplicate and no conflict. -/
theorem claim_C5 (A B C D : String) (fc1 fc2 ph1 ph2 np1 np2 : ℚ)
    (hq : "?" ∉ ([A, B, C, D] : List String)) :
    ∃ qp1 qp2 t,
      (emptyQPrm .oplsaa false).readPrm (torsFile A B C D fc1 fc2 ph1 ph2 np1 np2)
          = .ok (qp1, [], 0)
      ∧ qp1.readPrm (torsFile D C B A fc1 fc2 ph1 ph2 np1 np2) = .ok (qp2, [], 1)
      ∧ qp2.torsions = [(torsionGetId [A, B, C, D], Prm.torsion t)]
      ∧ t.getPrms = [(fc1, 1, ph1, np1), (fc2, 2, ph2, np2)] := by
  have hm1 : (if |ph1| < tol7 ∨ |ph1 - 180| < tol7 then |(1 : ℚ)| else 1) = 1 := by
    rw [abs_one]
    exact ite_self 1
  have hm2 : (if |ph2| < tol7 ∨ |ph2 - 180| < tol7 then |(2 : ℚ)| else 2) = 2 := by
    rw [show |(2 : ℚ)| = 2 from by norm_num]
    exact ite_self 2
  have hadd1 : ∀ a b c d : String,
      (mkPrmTorsion [a, b, c, d] none).addPrm fc1 1 ph1 np1
        = some (tors1 a b c d fc1 ph1 np1) := by
    intro a b c d
    rw [addPrm_of_not_dup (mkPrmTorsion [a, b, c, d] none) fc1 1 ph1 np1
      (show ((mkPrmTorsion [a, b, c, d] none).multiplicities.any
        (fun mult => decide (abs (abs (1 : ℚ) - abs mult) < tol7))) = false
        from rfl), hm1]
    rfl
  have hadd2 : ∀ a b c d : String,
      (tors1 a b c d fc1 ph1 np1).addPrm fc2 2 ph2 np2
        = some (tors2 a b c d fc1 fc2 ph1 ph2 np1 np2) := by
    intro a b c d
    rw [addPrm_of_not_dup (tors1 a b c d fc1 ph1 np1) fc2 2 ph2 np2
      (show (([1] : List ℚ).any
        (fun mult => decide (abs (abs (2 : ℚ) - abs mult) < tol7))) = false
        from by decide), hm2]
    rfl
  have hparse : ∀ a b c d : String,
      parseTorsionsGo [] (torsFile a b c d fc1 fc2 ph1 ph2 np1 np2).torsionLines
        = .ok [tors2 a b c d fc1 fc2 ph1 ph2 np1 np2] := by
    intro a b c d
    show parseTorsionsGo []
      [{ a1 := a, a2 := b, a3 := c, a4 := d, fc := fc1, multiplicity := 1,
         phase := ph1, npaths := np1, comment := none },
       { a1 := a, a2 := b, a3 := c, a4 := d, fc := fc2, multiplicity := 2,
         phase := ph2, npaths := np2, comment := none }] = _
    rw [parseTorsionsGo_start
        { a1 := a, a2 := b, a3 := c, a4 := d, fc := fc1, multiplicity := 1,
          phase := ph1, npaths := np1, comment := none }
        _ _ (hadd1 a b c d),
      parseTorsionsGo_fold (tors1 a b c d fc1 ph1 np1) []
        { a1 := a, a2 := b, a3 := c, a4 := d, fc := fc2, multiplicity := 2,
          phase := ph2, npaths := np2, comment := none }
        [] rfl _ (hadd2 a b c d),
      parseTorsionsGo_nil]
    rfl
  have hgen : (tors2 A B C D fc1 fc2 ph1 ph2 np1 np2).is_generic = false := by
    show decide ("?" ∈ ([A, B, C, D] : List String)) = false
    exact decide_eq_false hq
  have hrev : tors2 D C B A fc1 fc2 ph1 ph2 np1 np2
      = tors2 A B C D fc1 fc2 ph1 ph2 np1 np2 := by
    have hid : torsionGetId [D, C, B, A] = torsionGetId [A, B, C, D] := by
      rw [show ([D, C, B, A] : List String) = ([A, B, C, D] : List String).reverse
        from rfl, torsionGetId_reverse]
    have hmem : ("?" ∈ ([D, C, B, A] : List String)) ↔
        ("?" ∈ ([A, B, C, D] : List String)) := by
      rw [show ([D, C, B, A] : List String) = ([A, B, C, D] : List String).reverse
        from rfl]
      exact List.mem_reverse
    have hgen2 : (decide ("?" ∈ ([D, C, B, A] : List String)))
        = (decide ("?" ∈ ([A, B, C, D] : List String))) := by
      rw [decide_eq_false (fun hmem' => hq (hmem.mp hmem')), decide_eq_false hq]
    unfold tors2 mkPrmTorsion
    rw [hid, hgen2]
  have hct1 : classTable (emptyQPrm .oplsaa false)
      (.torsion (tors2 A B C D fc1 fc2 ph1 ph2 np1 np2)) = [] := by
    show (if (tors2 A B C D fc1 fc2 ph1 ph2 np1 np2).is_generic then
      (emptyQPrm .oplsaa false).generic_torsions
      else (emptyQPrm .oplsaa false).torsions) = []
    rw [hgen]
    rfl
  have hct1' : lookupD (classTable (emptyQPrm .oplsaa false)
      (.torsion (tors2 A B C D fc1 fc2 ph1 ph2 np1 np2)))
      (Prm.torsion (tors2 A B C D fc1 fc2 ph1 ph2 np1 np2)).prmId = none := by
    rw [hct1]
    rfl
  have hq1eq : setClassTable (emptyQPrm .oplsaa false)
      (.torsion (tors2 A B C D fc1 fc2 ph1 ph2 np1 np2))
      (dictSet (classTable (emptyQPrm .oplsaa false)
          (.torsion (tors2 A B C D fc1 fc2 ph1 ph2 np1 np2)))
        (Prm.torsion (tors2 A B C D fc1 fc2 ph1 ph2 np1 np2)).prmId
        (.torsion (tors2 A B C D fc1 fc2 ph1 ph2 np1 np2))) =
      { emptyQPrm .oplsaa false with
        torsions := [(torsionGetId [A, B, C, D],
          Prm.torsion (tors2 A B C D fc1 fc2 ph1 ph2 np1 np2))] } := by
    rw [hct1]
    show (if (tors2 A B C D fc1 fc2 ph1 ph2 np1 np2).is_generic then _ else _) = _
    rw [hgen]
    rfl
  refine ⟨{ emptyQPrm .oplsaa false with
      torsions := [(torsionGetId [A, B, C, D],
        Prm.torsion (tors2 A B C D fc1 fc2 ph1 ph2 np1 np2))] },
    { emptyQPrm .oplsaa false with
      torsions := [(torsionGetId [A, B, C, D],
        Prm.torsion (tors2 A B C D fc1 fc2 ph1 ph2 np1 np2))] },
    tors2 A B C D fc1 fc2 ph1 ph2 np1 np2, ?_, ?_, rfl, ?_⟩
  · show (emptyQPrm .oplsaa false).readPrm
        { options := [], atomLines := [], bondLines := [], angleLines := [],
          torsionLines := (torsFile A B C D fc1 fc2 ph1 ph2 np1 np2).torsionLines,
          improperLines := [] } = _
    rw [readPrm_torsions_only, hparse A B C D]
    show addAll (emptyQPrm .oplsaa false) [] 0
        [Prm.torsion (tors2 A B C D fc1 fc2 ph1 ph2 np1 np2)] = _
    rw [addAll_insert _ _ _ _ _ hct1', hq1eq, addAll_nil]
    rfl
  · have hlook1 : lookupD (classTable
        { emptyQPrm .oplsaa false with
          torsions := [(torsionGetId [A, B, C, D],
            Prm.torsion (tors2 A B C D fc1 fc2 ph1 ph2 np1 np2))] }
        (.torsion (tors2 A B C D fc1 fc2 ph1 ph2 np1 np2)))
        (Prm.torsion (tors2 A B C D fc1 fc2 ph1 ph2 np1 np2)).prmId
        = some (Prm.torsion (tors2 A B C D fc1 fc2 ph1 ph2 np1 np2)) := by
      show lookupD (if (tors2 A B C D fc1 fc2 ph1 ph2 np1 np2).is_generic then _
        else _) _ = _
      rw [hgen]
      show lookupD [(torsionGetId [A, B, C, D],
        Prm.torsion (tors2 A B C D fc1 fc2 ph1 ph2 np1 np2))] _ = _
      rw [lookupD_cons, if_pos (show torsionGetId [A, B, C, D]
        = (Prm.torsion (tors2 A B C D fc1 fc2 ph1 ph2 np1 np2)).prmId from rfl)]
    show ({ emptyQPrm .oplsaa false with
        torsions := [(torsionGetId [A, B, C, D],
          Prm.torsion (tors2 A B C D fc1 fc2 ph1 ph2 np1 np2))] } : QPrm).readPrm
        { options := [], atomLines := [], bondLines := [], angleLines := [],
          torsionLines := (torsFile D C B A fc1 fc2 ph1 ph2 np1 np2).torsionLines,
          improperLines := [] } = _
    rw [readPrm_torsions_only, hparse D C B A]
    show addAll
        { emptyQPrm .oplsaa false with
          torsions := [(torsionGetId [A, B, C, D],
            Prm.torsion (tors2 A B C D fc1 fc2 ph1 ph2 np1 np2))] } [] 0
        [Prm.torsion (tors2 D C B A fc1 fc2 ph1 ph2 np1 np2)] = _
    rw [hrev]
    rw [addAll_dup _ _ _ _ _ _ hlook1 rfl]
    have hds : dictSet [(torsionGetId [A, B, C, D],
        Prm.torsion (tors2 A B C D fc1 fc2 ph1 ph2 np1 np2))]
        (Prm.torsion (tors2 A B C D fc1 fc2 ph1 ph2 np1 np2)).prmId
        (Prm.torsion (tors2 A B C D fc1 fc2 ph1 ph2 np1 np2)) =
        [(torsionGetId [A, B, C, D],
          Prm.torsion (tors2 A B C D fc1 fc2 ph1 ph2 np1 np2))] := by
      unfold dictSet
      rw [show lookupD [(torsionGetId [A, B, C, D],
          Prm.torsion (tors2 A B C D fc1 fc2 ph1 ph2 np1 np2))]
          (Prm.torsion (tors2 A B C D fc1 fc2 ph1 ph2 np1 np2)).prmId
          = some (Prm.torsion (tors2 A B C D fc1 fc2 ph1 ph2 np1 np2)) from by
        rw [lookupD_cons, if_pos (show torsionGetId [A, B, C, D]
          = (Prm.torsion (tors2 A B C D fc1 fc2 ph1 ph2 np1 np2)).prmId from rfl)]]
      show List.map _ _ = _
      rw [List.map_cons, List.map_nil,
        @if_pos ((torsionGetId [A, B, C, D],
            Prm.torsion (tors2 A B C D fc1 fc2 ph1 ph2 np1 np2)).1
          = (Prm.torsion (tors2 A B C D fc1 fc2 ph1 ph2 np1 np2)).prmId)
          _ rfl _ _ _]
      rfl
    rw [show classTable
        { emptyQPrm .oplsaa false with
          torsions := [(torsionGetId [A, B, C, D],
            Prm.torsion (tors2 A B C D fc1 fc2 ph1 ph2 np1 np2))] }
        (.torsion (tors2 A B C D fc1 fc2 ph1 ph2 np1 np2))
        = [(torsionGetId [A, B, C, D],
          Prm.torsion (tors2 A B C D fc1 fc2 ph1 ph2 np1 np2))] from by
      show (if (tors2 A B C D fc1 fc2 ph1 ph2 np1 np2).is_generic then _ else _) = _
      rw [hgen]
      rfl]
    rw [hds]
    rw [show setClassTable
        { emptyQPrm .oplsaa false with
          torsions := [(torsionGetId [A, B, C, D],
            Prm.torsion (tors2 A B C D fc1 fc2 ph1 ph2 np1 np2))] }
        (.torsion (tors2 A B C D fc1 fc2 ph1 ph2 np1 np2))
        [(torsionGetId [A, B, C, D],
          Prm.torsion (tors2 A B C D fc1 fc2 ph1 ph2 np1 np2))]
        = { emptyQPrm .oplsaa false with
            torsions := [(torsionGetId [A, B, C, D],
              Prm.torsion (tors2 A B C D fc1 fc2 ph1 ph2 np1 np2))] } from by
      show (if (tors2 A B C D fc1 fc2 ph1 ph2 np1 np2).is_generic then _ else _) = _
      rw [hgen]
      rfl]
    rw [addAll_nil]
    rfl
  · show sortI leMult (zip4 [fc1, fc2] [1, 2] [ph1, ph2] [np1, np2]) = _
    show insertS leMult (fc1, 1, ph1, np1) [(fc2, 2, ph2, np2)] = _
    show (if leMult (fc1, 1, ph1, np1) (fc2, 2, ph2, np2) then
        [(fc1, 1, ph1, np1), (fc2, 2, ph2, np2)]
      else [(fc2, 2, ph2, np2), (fc1, 1, ph1, np1)]) = _
    rw [@if_pos (leMult (fc1, 1, ph1, np1) (fc2, 2, ph2, np2) = true) _
      (show decide ((1 : ℚ) ≤ 2) = true from by decide) _ _ _]

/-- Witness for C5 at concrete atom types CT-CA-CB-HC with concrete values. -/
theorem claim_C5_witness :
    "?" ∉ (["CT", "CA", "CB", "HC"] : List String) ∧
    ∃ qp1 qp2 t,
      (emptyQPrm .oplsaa false).readPrm
          (torsFile "CT" "CA" "CB" "HC" 1 2 0 180 1 1) = .ok (qp1, [], 0)
      ∧ qp1.readPrm (torsFile "HC" "CB" "CA" "CT" 1 2 0 180 1 1) = .ok (qp2, [], 1)
      ∧ qp2.torsions = [(torsionGetId ["CT", "CA", "CB", "HC"], Prm.torsion t)]
      ∧ t.getPrms = [(1, 1, 0, 1), (2, 2, 180, 1)] :=
  ⟨by decide, claim_C5 "CT" "CA" "CB" "HC" 1 2 0 180 1 1 (by decide)⟩

theorem dictSet_not_found {α : Type} (d : List (String × α)) (k : String) (v : α)
    (h : lookupD d k = none) : dictSet d k v = d ++ [(k, v)] := by
  unfold dictSet
  rw [h]
  rfl

theorem classTable_eq_of_idx (qp : QPrm) (p q : Prm) (h : tableIdx p = tableIdx q) :
    classTable qp p = classTable qp q := by
  cases p with
  | atom a =>
    cases q with
    | atom a2 => rfl
    | bond b => simp [tableIdx] at h
    | angle c => simp [tableIdx] at h
    | torsion t => rcases hg : t.is_generic <;> simp [tableIdx, hg] at h
    | improper i => rcases hg : i.is_generic <;> simp [tableIdx, hg] at h
  | bond b =>
    cases q with
    | atom a2 => simp [tableIdx] at h
    | bond b2 => rfl
    | angle c => simp [tableIdx] at h
    | torsion t => rcases hg : t.is_generic <;> simp [tableIdx, hg] at h
    | improper i => rcases hg : i.is_generic <;> simp [tableIdx, hg] at h
  | angle c =>
    cases q with
    | atom a2 => simp [tableIdx] at h
    | bond b2 => simp [tableIdx] at h
    | angle c2 => rfl
    | torsion t => rcases hg : t.is_generic <;> simp [tableIdx, hg] at h
    | improper i => rcases hg : i.is_generic <;> simp [tableIdx, hg] at h
  | torsion t =>
    cases q with
    | atom a2 => rcases hg : t.is_generic <;> simp [tableIdx, hg] at h
    | bond b2 => rcases hg : t.is_generic <;> simp [tableIdx, hg] at h
    | angle c2 => rcases hg : t.is_generic <;> simp [tableIdx, hg] at h
    | torsion t2 =>
      rcases hg : t.is_generic <;> rcases hg2 : t2.is_generic <;>
        simp [classTable, tableIdx, hg, hg2] at h ⊢
    | improper i =>
      rcases hg : t.is_generic <;> rcases hg2 : i.is_generic <;>
        simp [tableIdx, hg, hg2] at h
  | improper i =>
    cases q with
    | atom a2 => rcases hg : i.is_generic <;> simp [tableIdx, hg] at h
    | bond b2 => rcases hg : i.is_generic <;> simp [tableIdx, hg] at h
    | angle c2 => rcases hg : i.is_generic <;> simp [tableIdx, hg] at h
    | torsion t2 =>
      rcases hg : i.is_generic <;> rcases hg2 : t2.is_generic <;>
        simp [tableIdx, hg, hg2] at h
    | improper i2 =>
      rcases hg : i.is_generic <;> rcases hg2 : i2.is_generic <;>
        simp [classTable, tableIdx, hg, hg2] at h ⊢

theorem classTable_set_same (qp : QPrm) (p q : Prm) (d : List (String × Prm))
    (h : tableIdx p = tableIdx q) :
    classTable (setClassTable qp p d) q = d := by
  cases p with
  | atom a =>
    cases q with
    | atom a2 => rfl
    | bond b => simp [tableIdx] at h
    | angle c => simp [tableIdx] at h
    | torsion t => rcases hg : t.is_generic <;> simp [tableIdx, hg] at h
    | improper i => rcases hg : i.is_generic <;> simp [tableIdx, hg] at h
  | bond b =>
    cases q with
    | atom a2 => simp [tableIdx] at h
    | bond b2 => rfl
    | angle c => simp [tableIdx] at h
    | torsion t => rcases hg : t.is_generic <;> simp [tableIdx, hg] at h
    | improper i => rcases hg : i.is_generic <;> simp [tableIdx, hg] at h
  | angle c =>
    cases q with
    | atom a2 => simp [tableIdx] at h
    | bond b2 => simp [tableIdx] at h
    | angle c2 => rfl
    | torsion t => rcases hg : t.is_generic <;> simp [tableIdx, hg] at h
    | improper i => rcases hg : i.is_generic <;> simp [tableIdx, hg] at h
  | torsion t =>
    cases q with
    | atom a2 => rcases hg : t.is_generic <;> simp [tableIdx, hg] at h
    | bond b2 => rcases hg : t.is_generic <;> simp [tableIdx, hg] at h
    | angle c2 => rcases hg : t.is_generic <;> simp [tableIdx, hg] at h
    | torsion t2 =>
      rcases hg : t.is_generic <;> rcases hg2 : t2.is_generic <;>
        simp [classTable, setClassTable, tableIdx, hg, hg2] at h ⊢
    | improper i =>
      rcases hg : t.is_generic <;> rcases hg2 : i.is_generic <;>
        simp [tableIdx, hg, hg2] at h
  | improper i =>
    cases q with
    | atom a2 => rcases hg : i.is_generic <;> simp [tableIdx, hg] at h
    | bond b2 => rcases hg : i.is_generic <;> simp [tableIdx, hg] at h
    | angle c2 => rcases hg : i.is_generic <;> simp [tableIdx, hg] at h
    | torsion t2 =>
      rcases hg : i.is_generic <;> rcases hg2 : t2.is_generic <;>
        simp [tableIdx, hg, hg2] at h
    | improper i2 =>
      rcases hg : i.is_generic <;> rcases hg2 : i2.is_generic <;>
        simp [classTable, setClassTable, tableIdx, hg, hg2] at h ⊢

theorem classTable_set_ne (qp : QPrm) (p q : Prm) (d : List (String × Prm))
    (h : tableIdx p ≠ tableIdx q) :
    classTable (setClassTable qp p d) q = classTable qp q := by
  cases p with
  | atom a =>
    cases q with
    | atom a2 => exact absurd rfl h
    | bond b => rfl
    | angle c => rfl
    | torsion t => rfl
    | improper i => rfl
  | bond b =>
    cases q with
    | atom a2 => rfl
    | bond b2 => exact absurd rfl h
    | angle c => rfl
    | torsion t => rfl
    | improper i => rfl
  | angle c =>
    cases q with
    | atom a2 => rfl
    | bond b2 => rfl
    | angle c2 => exact absurd rfl h
    | torsion t => rfl
    | improper i => rfl
  | torsion t =>
    cases q with
    | atom a2 => rcases hg : t.is_generic <;> simp [classTable, setClassTable, hg]
    | bond b2 => rcases hg : t.is_generic <;> simp [classTable, setClassTable, hg]
    | angle c2 => rcases hg : t.is_generic <;> simp [classTable, setClassTable, hg]
    | torsion t2 =>
      rcases hg : t.is_generic <;> rcases hg2 : t2.is_generic <;>
        simp [classTable, setClassTable, tableIdx, hg, hg2] at h ⊢
    | improper i =>
      rcases hg : t.is_generic <;> rcases hg2 : i.is_generic <;>
        simp [classTable, setClassTable, hg, hg2]
  | improper i =>
    cases q with
    | atom a2 => rcases hg : i.is_generic <;> simp [classTable, setClassTable, hg]
    | bond b2 => rcases hg : i.is_generic <;> simp [classTable, setClassTable, hg]
    | angle c2 => rcases hg : i.is_generic <;> simp [classTable, setClassTable, hg]
    | torsion t2 =>
      rcases hg : i.is_generic <;> rcases hg2 : t2.is_generic <;>
        simp [classTable, setClassTable, hg, hg2]
    | improper i2 =>
      rcases hg : i.is_generic <;> rcases hg2 : i2.is_generic <;>
        simp [classTable, setClassTable, tableIdx, hg, hg2] at h ⊢

theorem addPrm_fresh (qp : QPrm) (p : Prm)
    (hlook : lookupD (classTable qp p) (Prm.prmId p) = none) :
    qp.addPrm p = .ok (insPrm qp p, .inserted) := by
  unfold QPrm.addPrm
  rw [addToDict_insert _ _ _ hlook]
  show Except.ok (setClassTable qp p (dictSet (classTable qp p) p.prmId p),
    AddRes.inserted) = _
  rw [dictSet_not_found _ _ _ hlook]
  rfl

theorem addAll_fresh : ∀ (ps : List Prm) (qp : QPrm) (dups : List Prm) (n : ℕ),
    (∀ p ∈ ps, lookupD (classTable qp p) (Prm.prmId p) = none) →
    ps.Pairwise (fun p q => tableIdx p = tableIdx q → Prm.prmId p ≠ Prm.prmId q) →
    addAll qp dups n ps = .ok (insAll qp ps, dups.reverse, n)
  | [], qp, dups, n, _, _ => rfl
  | p :: ps, qp, dups, n, hfresh, hdist => by
    have hstep : addAll qp dups n (p :: ps) = addAll (insPrm qp p) dups n ps := by
      show (match qp.addPrm p with
        | .error e => (.error e : Except QErr (QPrm × List Prm × ℕ))
        | .ok (qp', .inserted) => addAll qp' dups n ps
        | .ok (qp', .duplicate) => addAll qp' dups (n + 1) ps
        | .ok (qp', .overwritten old) => addAll qp' (old :: dups) n ps) = _
      rw [addPrm_fresh qp p (hfresh p (List.mem_cons_self p ps))]
    rw [hstep]
    rcases List.pairwise_cons.mp hdist with ⟨hp, hdist'⟩
    exact addAll_fresh ps (insPrm qp p) dups n
      (by
        intro q hq
        by_cases hidx : tableIdx p = tableIdx q
        · rw [show classTable (insPrm qp p) q
              = classTable qp p ++ [(Prm.prmId p, p)] from
            classTable_set_same qp p q _ hidx]
          rw [lookupD_append_ne _ _ _ _ (Ne.symm (hp q hq hidx))]
          rw [classTable_eq_of_idx qp p q hidx]
          exact hfresh q (List.mem_cons_of_mem p hq)
        · rw [show classTable (insPrm qp p) q = classTable qp q from
            classTable_set_ne qp p q _ hidx]
          exact hfresh q (List.mem_cons_of_mem p hq))
      hdist'

theorem insPrm_atom (qp : QPrm) (a : PrmAtom) :
    insPrm qp (.atom a)
      = { qp with atom_types := qp.atom_types ++ [(a.prm_id, Prm.atom a)] } := rfl

theorem insPrm_bond (qp : QPrm) (b : PrmBond) :
    insPrm qp (.bond b)
      = { qp with bonds := qp.bonds ++ [(b.prm_id, Prm.bond b)] } := rfl

theorem insPrm_angle (qp : QPrm) (a : PrmAngle) :
    insPrm qp (.angle a)
      = { qp with angles := qp.angles ++ [(a.prm_id, Prm.angle a)] } := rfl

theorem insPrm_torsion_reg (qp : QPrm) (t : PrmTorsion) (h : t.is_generic = false) :
    insPrm qp (.torsion t)
      = { qp with torsions := qp.torsions ++ [(t.prm_id, Prm.torsion t)] } := by
  simp [insPrm, classTable, setClassTable, h, Prm.prmId]

theorem insPrm_torsion_gen (qp : QPrm) (t : PrmTorsion) (h : t.is_generic = true) :
    insPrm qp (.torsion t)
      = { qp with generic_torsions :=
            qp.generic_torsions ++ [(t.prm_id, Prm.torsion t)] } := by
  simp [insPrm, classTable, setClassTable, h, Prm.prmId]

theorem insPrm_improper_reg (qp : QPrm) (i : PrmImproper) (h : i.is_generic = false) :
    insPrm qp (.improper i)
      = { qp with impropers := qp.impropers ++ [(i.prm_id, Prm.improper i)] } := by
  simp [insPrm, classTable, setClassTable, h, Prm.prmId]

theorem insPrm_improper_gen (qp : QPrm) (i : PrmImproper) (h : i.is_generic = true) :
    insPrm qp (.improper i)
      = { qp with generic_impropers :=
            qp.generic_impropers ++ [(i.prm_id, Prm.improper i)] } := by
  simp [insPrm, classTable, setClassTable, h, Prm.prmId]

theorem insAll_append (qp : QPrm) (ps qs : List Prm) :
    insAll qp (ps ++ qs) = insAll (insAll qp ps) qs := by
  unfold insAll
  exact List.foldl_append insPrm qp ps qs

theorem insAll_atoms : ∀ (as : List PrmAtom) (qp : QPrm),
    insAll qp (as.map Prm.atom)
      = { qp with atom_types :=
            qp.atom_types ++ as.map (fun a => (a.prm_id, Prm.atom a)) }
  | [], qp => by
    simp [insAll]
  | a :: as, qp => by
    show insAll (insPrm qp (.atom a)) (as.map Prm.atom) = _
    rw [insPrm_atom, insAll_atoms as]
    simp [List.append_assoc]

theorem insAll_bonds : ∀ (bs : List PrmBond) (qp : QPrm),
    insAll qp (bs.map Prm.bond)
      = { qp with bonds := qp.bonds ++ bs.map (fun b => (b.prm_id, Prm.bond b)) }
  | [], qp => by
    simp [insAll]
  | b :: bs, qp => by
    show insAll (insPrm qp (.bond b)) (bs.map Prm.bond) = _
    rw [insPrm_bond, insAll_bonds bs]
    simp [List.append_assoc]

theorem insAll_angles : ∀ (cs : List PrmAngle) (qp : QPrm),
    insAll qp (cs.map Prm.angle)
      = { qp with angles := qp.angles ++ cs.map (fun c => (c.prm_id, Prm.angle c)) }
  | [], qp => by
    simp [insAll]
  | c :: cs, qp => by
    show insAll (insPrm qp (.angle c)) (cs.map Prm.angle) = _
    rw [insPrm_angle, insAll_angles cs]
    simp [List.append_assoc]

theorem insAll_torsions_reg : ∀ (ts : List PrmTorsion) (qp : QPrm),
    (∀ t ∈ ts, t.is_generic = false) →
    insAll qp (ts.map Prm.torsion)
      = { qp with torsions :=
            qp.torsions ++ ts.map (fun t => (t.prm_id, Prm.torsion t)) }
  | [], qp, _ => by
    simp [insAll]
  | t :: ts, qp, h => by
    show insAll (insPrm qp (.torsion t)) (ts.map Prm.torsion) = _
    rw [insPrm_torsion_reg qp t (h t (List.mem_cons_self t ts)),
      insAll_torsions_reg ts _ (fun u hu => h u (List.mem_cons_of_mem t hu))]
    simp [List.append_assoc]

theorem insAll_torsions_gen : ∀ (ts : List PrmTorsion) (qp : QPrm),
    (∀ t ∈ ts, t.is_generic = true) →
    insAll qp (ts.map Prm.torsion)
      = { qp with generic_torsions :=
            qp.generic_torsions ++ ts.map (fun t => (t.prm_id, Prm.torsion t)) }
  | [], qp, _ => by
    simp [insAll]
  | t :: ts, qp, h => by
    show insAll (insPrm qp (.torsion t)) (ts.map Prm.torsion) = _
    rw [insPrm_torsion_gen qp t (h t (List.mem_cons_self t ts)),
      insAll_torsions_gen ts _ (fun u hu => h u (List.mem_cons_of_mem t hu))]
    simp [List.append_assoc]

theorem insAll_impropers_reg : ∀ (is : List PrmImproper) (qp : QPrm),
    (∀ i ∈ is, i.is_generic = false) →
    insAll qp (is.map Prm.improper)
      = { qp with impropers :=
            qp.impropers ++ is.map (fun i => (i.prm_id, Prm.improper i)) }
  | [], qp, _ => by
    simp [insAll]
  | i :: is, qp, h => by
    show insAll (insPrm qp (.improper i)) (is.map Prm.improper) = _
    rw [insPrm_improper_reg qp i (h i (List.mem_cons_self i is)),
      insAll_impropers_reg is _ (fun u hu => h u (List.mem_cons_of_mem i hu))]
    simp [List.append_assoc]

theorem insAll_impropers_gen : ∀ (is : List PrmImproper) (qp : QPrm),
    (∀ i ∈ is, i.is_generic = true) →
    insAll qp (is.map Prm.improper)
      = { qp with generic_impropers :=
            qp.generic_impropers ++ is.map (fun i => (i.prm_id, Prm.improper i)) }
  | [], qp, _ => by
    simp [insAll]
  | i :: is, qp, h => by
    show insAll (insPrm qp (.improper i)) (is.map Prm.improper) = _
    rw [insPrm_improper_gen qp i (h i (List.mem_cons_self i is)),
      insAll_impropers_gen is _ (fun u hu => h u (List.mem_cons_of_mem i hu))]
    simp [List.append_assoc]

theorem readOptions_fresh : ∀ (src : List (String × String)) (opts : List (String × String))
    (ig : Bool), (src.map Prod.fst).Nodup →
    (∀ k ∈ src.map Prod.fst, lookupD opts k = none) →
    readOptions ig opts src = .ok (opts ++ src)
  | [], opts, ig, _, _ => by
    rw [List.append_nil]
    rfl
  | (k, v) :: src, opts, ig, hnd, hfresh => by
    show (match lookupD opts k with
      | some v0 =>
        if v ≠ v0 ∧ ig = false then (.error .optionsConflict : Except QErr _)
        else readOptions ig (dictSet opts k v) src
      | none => readOptions ig (dictSet opts k v) src) = _
    rw [hfresh k (by simp)]
    rw [dictSet_not_found _ _ _ (hfresh k (by simp))]
    have hnd' : (k :: src.map Prod.fst).Nodup := by simpa using hnd
    rw [readOptions_fresh src (opts ++ [(k, v)]) ig
      (List.nodup_cons.mp hnd').2
      (by
        intro k' hk'
        have hne : k' ≠ k := fun heq => (List.nodup_cons.mp hnd').1 (heq ▸ hk')
        rw [lookupD_append_ne _ _ _ _ hne]
        exact hfresh k' (List.mem_cons_of_mem _ hk'))]
    rw [List.append_assoc]
    rfl

theorem lookupD_perm {α : Type} {d d' : List (String × α)} (hperm : d.Perm d')
    (hnd : (d.map Prod.fst).Nodup) (k : String) : lookupD d k = lookupD d' k := by
  induction hperm with
  | nil => rfl
  | cons x h ih =>
    rcases x with ⟨k0, v⟩
    rw [lookupD_cons, lookupD_cons]
    by_cases h0 : k0 = k
    · rw [if_pos h0, if_pos h0]
    · rw [if_neg h0, if_neg h0]
      exact ih (List.nodup_cons.mp (by simpa using hnd)).2
  | swap x y l =>
    rcases x with ⟨kx, vx⟩
    rcases y with ⟨ky, vy⟩
    have hnd' : (ky :: kx :: l.map Prod.fst).Nodup := by simpa using hnd
    have hxy : ky ≠ kx := by
      have hh := (List.nodup_cons.mp hnd').1
      exact fun heq => hh (by rw [heq]; exact List.mem_cons_self _ _)
    by_cases hx : kx = k <;> by_cases hy : ky = k
    · exact absurd (hy.trans hx.symm) hxy
    · simp [lookupD_cons, hx, hy]
    · simp [lookupD_cons, hx, hy]
    · simp [lookupD_cons, hx, hy]
  | trans h1 h2 ih1 ih2 =>
    rw [ih1 hnd]
    exact ih2 ((h1.map Prod.fst).nodup_iff.mp hnd)

theorem table_keyed : ∀ {d : List (String × Prm)},
    (∀ pr ∈ d, pr.1 = Prm.prmId pr.2) →
    d = (d.map Prod.snd).map (fun p => (Prm.prmId p, p))
  | [], _ => rfl
  | (k, p) :: d, h => by
    have hk : k = Prm.prmId p := h (k, p) (List.mem_cons_self _ _)
    show (k, p) :: d = (Prm.prmId p, p) ::
      (d.map Prod.snd).map (fun q => (Prm.prmId q, q))
    rw [← hk, ← table_keyed (fun pr hpr => h pr (List.mem_cons_of_mem _ hpr))]

theorem lookupD_keyed_map : ∀ (vs : List Prm) (f : Prm → Prm)
    (hf : ∀ p, Prm.prmId (f p) = Prm.prmId p) (k : String),
    lookupD ((vs.map f).map (fun p => (Prm.prmId p, p))) k
      = (lookupD (vs.map (fun p => (Prm.prmId p, p))) k).map f
  | [], _, _, _ => rfl
  | p :: vs, f, hf, k => by
    show lookupD ((Prm.prmId (f p), f p) ::
      (vs.map f).map (fun q => (Prm.prmId q, q))) k = _
    rw [lookupD_cons, hf p]
    by_cases hk : Prm.prmId p = k
    · rw [if_pos hk]
      show _ = (lookupD ((Prm.prmId p, p) ::
        vs.map (fun q => (Prm.prmId q, q))) k).map f
      rw [lookupD_cons, if_pos hk]
      rfl
    · rw [if_neg hk]
      show _ = (lookupD ((Prm.prmId p, p) ::
        vs.map (fun q => (Prm.prmId q, q))) k).map f
      rw [lookupD_cons, if_neg hk]
      exact lookupD_keyed_map vs f hf k

theorem prmRound_prmId (ff : FFType) : ∀ p : Prm,
    Prm.prmId (prmRound ff p) = Prm.prmId p
  | .atom a => by cases ff <;> rfl
  | .bond _ => rfl
  | .angle _ => rfl
  | .torsion _ => rfl
  | .improper _ => rfl

theorem prmSort_prmId : ∀ p : Prm, Prm.prmId (prmSort p) = Prm.prmId p
  | .atom _ => rfl
  | .bond _ => rfl
  | .angle _ => rfl
  | .torsion _ => rfl
  | .improper _ => rfl

theorem zip4_maps : ∀ ps : List (ℚ × ℚ × ℚ × ℚ),
    zip4 (ps.map (fun p => p.1)) (ps.map (fun p => p.2.1))
      (ps.map (fun p => p.2.2.1)) (ps.map (fun p => p.2.2.2)) = ps
  | [] => rfl
  | p :: ps => by
    show (p.1, p.2.1, p.2.2.1, p.2.2.2) :: zip4 _ _ _ _ = p :: ps
    rw [zip4_maps ps]

theorem leMult_total : ∀ a b, leMult a b = true ∨ leMult b a = true := by
  intro a b
  rcases le_total a.2.1 b.2.1 with h | h
  · exact Or.inl (decide_eq_true h)
  · exact Or.inr (decide_eq_true h)

theorem leMult_trans : ∀ a b c, leMult a b = true → leMult b c = true →
    leMult a c = true := by
  intro a b c hab hbc
  exact decide_eq_true (le_trans (of_decide_eq_true hab) (of_decide_eq_true hbc))

theorem sortTorsion_getPrms (t : PrmTorsion) :
    (sortTorsion t).getPrms = t.getPrms := by
  show sortI leMult (zip4 (t.getPrms.map (fun p => p.1))
    (t.getPrms.map (fun p => p.2.1)) (t.getPrms.map (fun p => p.2.2.1))
    (t.getPrms.map (fun p => p.2.2.2))) = t.getPrms
  rw [zip4_maps]
  exact sortI_of_sorted leMult
    (sortI_sorted leMult leMult_total leMult_trans _)

theorem sortTorsion_prm_id (t : PrmTorsion) : (sortTorsion t).prm_id = t.prm_id := rfl

theorem getString_fields (qp : QPrm) :
    qp.getString.options = qp.options ∧
    qp.getString.atomLines = (sortVals qp.atom_types).filterMap (atomArm qp.ff_type) ∧
    qp.getString.bondLines = (sortVals qp.bonds).filterMap bondArm ∧
    qp.getString.angleLines = (sortVals qp.angles).filterMap angleArm ∧
    qp.getString.torsionLines
      = (sortValsWild qp.generic_torsions ++ sortVals qp.torsions).flatMap torsArm ∧
    qp.getString.improperLines
      = (sortValsWild qp.generic_impropers ++ sortVals qp.impropers).filterMap
          improperArm :=
  ⟨rfl, rfl, rfl, rfl, rfl, rfl⟩

theorem atom_roundtrip_oplsaa (a : PrmAtom) (h : atomWF .oplsaa a) :
    mkPrmAtom (atomLineOf .oplsaa a).name (atomLineOf .oplsaa a).c6
      (some (atomLineOf .oplsaa a).c1) (some (atomLineOf .oplsaa a).c3) none none
      (atomLineOf .oplsaa a).comment = roundAtom .oplsaa a := by
  obtain ⟨at0, pid, ljA, ljB, ljR, lje, m, c⟩ := a
  rcases h with ⟨hid, _, _, hR, hE⟩
  cases hid
  cases hR
  cases hE
  rfl

theorem atom_roundtrip_amber (a : PrmAtom) (h : atomWF .amber a) :
    mkPrmAtom (atomLineOf .amber a).name (atomLineOf .amber a).c6
      none none (some (atomLineOf .amber a).c1) (some (atomLineOf .amber a).c3)
      (atomLineOf .amber a).comment = roundAtom .amber a := by
  obtain ⟨at0, pid, ljA, ljB, ljR, lje, m, c⟩ := a
  rcases h with ⟨hid, hA, hB, hR, hE⟩
  rcases Option.isSome_iff_exists.mp hR with ⟨r, hr⟩
  rcases Option.isSome_iff_exists.mp hE with ⟨e, he⟩
  cases hid
  cases hA
  cases hB
  cases hr
  cases he
  rfl

theorem atomLines_roundtrip (ff : FFType) : ∀ vs : List Prm,
    (∀ p ∈ vs, ∃ a, p = .atom a ∧ atomWF ff a) →
    (parseAtoms ff (vs.filterMap (atomArm ff))).map Prm.atom
      = vs.map (prmRound ff)
  | [], _ => by cases ff <;> rfl
  | p :: vs, h => by
    rcases h p (List.mem_cons_self p vs) with ⟨a, rfl, hwf⟩
    have htail := atomLines_roundtrip ff vs
      (fun q hq => h q (List.mem_cons_of_mem _ hq))
    rw [List.filterMap_cons]
    cases ff with
    | oplsaa =>
      show (mkPrmAtom (atomLineOf .oplsaa a).name (atomLineOf .oplsaa a).c6
          (some (atomLineOf .oplsaa a).c1) (some (atomLineOf .oplsaa a).c3)
          none none (atomLineOf .oplsaa a).comment ::
          parseAtoms .oplsaa (vs.filterMap (atomArm .oplsaa))).map Prm.atom
        = (Prm.atom a :: vs).map (prmRound .oplsaa)
      rw [List.map_cons, List.map_cons, htail, atom_roundtrip_oplsaa a hwf]
      rfl
    | amber =>
      show (mkPrmAtom (atomLineOf .amber a).name (atomLineOf .amber a).c6
          none none (some (atomLineOf .amber a).c1)
          (some (atomLineOf .amber a).c3)
          (atomLineOf .amber a).comment ::
          parseAtoms .amber (vs.filterMap (atomArm .amber))).map Prm.atom
        = (Prm.atom a :: vs).map (prmRound .amber)
      rw [List.map_cons, List.map_cons, htail, atom_roundtrip_amber a hwf]
      rfl

theorem bond_roundtrip (b : PrmBond) (x y : String) (hat : b.atom_types = [x, y])
    (hwf : bondWF b) :
    mkPrmBond [x, y] b.fc b.r0 b.comment = b := by
  rcases hwf with ⟨_, hid, hsplit⟩
  rw [hat] at hid
  show ({ fc := b.fc, r0 := b.r0, prm_id := bondGetId [x, y],
          atom_types := pySplit (bondGetId [x, y]),
          comment := b.comment } : PrmBond) = b
  rw [← hid, hsplit]

theorem bondLines_roundtrip : ∀ vs : List Prm,
    (∀ p ∈ vs, ∃ b, p = .bond b ∧ bondWF b) →
    ((vs.filterMap bondArm).map
        (fun l => mkPrmBond [l.a1, l.a2] l.fc l.r0 l.comment)).map Prm.bond = vs
  | [], _ => rfl
  | p :: vs, h => by
    rcases h p (List.mem_cons_self p vs) with ⟨b, rfl, hwf⟩
    have h2 : b.atom_types.length = 2 := hwf.1
    rcases hat : b.atom_types with _ | ⟨x, _ | ⟨y, _ | _⟩⟩ <;>
      rw [hat] at h2 <;> try simp at h2
    have harm : bondArm (.bond b) = some ⟨x, y, b.fc, b.r0, b.comment⟩ := by
      show (match b.atom_types with
        | [x, y] => some (⟨x, y, b.fc, b.r0, b.comment⟩ : BondLine)
        | _ => (none : Option BondLine)) = _
      rw [hat]
    rw [List.filterMap_cons, harm, List.map_cons, List.map_cons,
      bond_roundtrip b x y hat hwf,
      bondLines_roundtrip vs (fun q hq => h q (List.mem_cons_of_mem _ hq))]

theorem angle_roundtrip (a : PrmAngle) (x y z : String)
    (hat : a.atom_types = [x, y, z]) (hwf : angleWF a) :
    mkPrmAngle [x, y, z] a.fc a.theta0 a.comment = a := by
  rcases hwf with ⟨_, hid, hsplit⟩
  rw [hat] at hid
  show ({ fc := a.fc, theta0 := a.theta0, prm_id := angleGetId [x, y, z],
          atom_types := pySplit (angleGetId [x, y, z]),
          comment := a.comment } : PrmAngle) = a
  rw [← hid, hsplit]

theorem angleLines_roundtrip : ∀ vs : List Prm,
    (∀ p ∈ vs, ∃ a, p = .angle a ∧ angleWF a) →
    ((vs.filterMap angleArm).map
        (fun l => mkPrmAngle [l.a1, l.a2, l.a3] l.fc l.theta0 l.comment)).map
      Prm.angle = vs
  | [], _ => rfl
  | p :: vs, h => by
    rcases h p (List.mem_cons_self p vs) with ⟨a, rfl, hwf⟩
    have h3 : a.atom_types.length = 3 := hwf.1
    rcases hat : a.atom_types with _ | ⟨x, _ | ⟨y, _ | ⟨z, _ | _⟩⟩⟩ <;>
      rw [hat] at h3 <;> try simp at h3
    have harm : angleArm (.angle a) = some ⟨x, y, z, a.fc, a.theta0, a.comment⟩ := by
      show (match a.atom_types with
        | [x, y, z] => some (⟨x, y, z, a.fc, a.theta0, a.comment⟩ : AngleLine)
        | _ => (none : Option AngleLine)) = _
      rw [hat]
    rw [List.filterMap_cons, harm, List.map_cons, List.map_cons,
      angle_roundtrip a x y z hat hwf,
      angleLines_roundtrip vs (fun q hq => h q (List.mem_cons_of_mem _ hq))]

unseal Rat.mul Rat.add Rat.sub Rat.inv Rat.ofScientific in
theorem tol5_not_lt : ¬ (tol5 < |(2 : ℚ)| - 2) := by decide

theorem improper_roundtrip (i : PrmImproper) (x y z w : String)
    (hat : i.atom_types = [x, y, z, w]) (hwf : improperWF i) :
    mkPrmImproper y [x, z, w] i.fc i.phi0 2 i.comment = .ok i := by
  rcases hwf with ⟨hm, hid, hsplit, hmatch⟩
  rw [hat] at hmatch
  rcases hmatch with ⟨htoks, hgen⟩
  show (if tol5 < |(2 : ℚ)| - 2 then (.error .unsupportedMultiplicity : Except QErr PrmImproper)
    else match improperGetIdTokens y [x, z, w] with
    | none => .error .threeWildcards
    | some toks =>
      .ok { is_generic := decide ("?" ∈ ([x, z, w] : List String)), fc := i.fc,
            phi0 := i.phi0, multiplicity := 2, prm_id := joinT toks,
            atom_types := pySplit (joinT toks), comment := i.comment }) = .ok i
  rw [if_neg tol5_not_lt, htoks]
  show Except.ok { is_generic := decide ("?" ∈ ([x, z, w] : List String)),
                   fc := i.fc, phi0 := i.phi0, multiplicity := 2,
                   prm_id := joinT [x, y, z, w],
                   atom_types := pySplit (joinT [x, y, z, w]),
                   comment := i.comment }
    = Except.ok i
  rw [← hgen, ← hat, ← hid, hsplit, ← hm]

theorem improperLines_loop : ∀ (vs : List Prm) (acc : List PrmImproper),
    (∀ p ∈ vs, ∃ i, p = .improper i ∧ improperWF i) →
    ∃ is : List PrmImproper,
      List.mapM.loop (fun l => mkPrmImproper l.a2 [l.a1, l.a3, l.a4] l.fc
          l.phi0 2 l.comment) (vs.filterMap improperArm) acc
        = .ok (acc.reverse ++ is)
      ∧ is.map Prm.improper = vs
  | [], acc, _ => by
    refine ⟨[], ?_, rfl⟩
    show (pure acc.reverse : Except QErr (List PrmImproper)) = _
    rw [List.append_nil]
    rfl
  | p :: vs, acc, h => by
    rcases h p (List.mem_cons_self p vs) with ⟨i, rfl, hwf⟩
    have hmatch0 := hwf.2.2.2
    rcases hat : i.atom_types with _ | ⟨x, _ | ⟨y, _ | ⟨z, _ | ⟨w, _ | _⟩⟩⟩⟩ <;>
      rw [hat] at hmatch0 <;> try exact hmatch0.elim
    have harm : improperArm (.improper i)
        = some ⟨x, y, z, w, i.fc, i.phi0, i.comment⟩ := by
      show (match i.atom_types with
        | [x, y, z, w] => some (⟨x, y, z, w, i.fc, i.phi0, i.comment⟩ : ImproperLine)
        | _ => (none : Option ImproperLine)) = _
      rw [hat]
    rw [List.filterMap_cons, harm]
    rcases improperLines_loop vs (i :: acc)
      (fun q hq => h q (List.mem_cons_of_mem _ hq)) with ⟨is, hloop, hmap⟩
    refine ⟨i :: is, ?_, ?_⟩
    · show (mkPrmImproper y [x, z, w] i.fc i.phi0 2 i.comment >>= fun b =>
        List.mapM.loop _ (vs.filterMap improperArm) (b :: acc)) = _
      rw [improper_roundtrip i x y z w hat hwf]
      show List.mapM.loop _ (vs.filterMap improperArm) (i :: acc) = _
      rw [hloop]
      simp
    · rw [List.map_cons, hmap]

theorem addPrm_prm_id {t t' : PrmTorsion} {fc m ph np : ℚ}
    (h : t.addPrm fc m ph np = some t') : t'.prm_id = t.prm_id := by
  unfold PrmTorsion.addPrm at h
  rcases hany : t.multiplicities.any
      (fun mult => decide (abs (abs m - abs mult) < tol7)) with _ | _
  · rw [if_neg (by rw [hany]; exact Bool.false_ne_true)] at h
    cases h
    rfl
  · rw [if_pos hany] at h
    cases h

theorem foldTerms_spec : ∀ (L : List (ℚ × ℚ × ℚ × ℚ)) (t0 : PrmTorsion),
    (t0.multiplicities ++ L.map (fun p => p.2.1)).Pairwise
      (fun m m' => ¬ (abs (abs m' - abs m) < tol7)) →
    (∀ p ∈ L, (|p.2.2.1| < tol7 ∨ |p.2.2.1 - 180| < tol7) → p.2.1 = |p.2.1|) →
    foldTerms t0 L = some { t0 with
      fcs := t0.fcs ++ L.map (fun p => p.1),
      multiplicities := t0.multiplicities ++ L.map (fun p => p.2.1),
      phases := t0.phases ++ L.map (fun p => p.2.2.1),
      npaths := t0.npaths ++ L.map (fun p => p.2.2.2) }
  | [], t0, _, _ => by simp [foldTerms]
  | p :: ps, t0, hdist, hnorm => by
    have hcross := (List.pairwise_append.mp hdist).2.2
    have hany : t0.multiplicities.any
        (fun mult => decide (abs (abs p.2.1 - abs mult) < tol7)) = false := by
      rw [List.any_eq_false]
      intro m hm
      simpa using hcross m hm p.2.1 (by simp)
    have hstore : (if |p.2.2.1| < tol7 ∨ |p.2.2.1 - 180| < tol7 then |p.2.1|
        else p.2.1) = p.2.1 := by
      by_cases hc : |p.2.2.1| < tol7 ∨ |p.2.2.1 - 180| < tol7
      · rw [if_pos hc]
        exact (hnorm p (List.mem_cons_self _ _) hc).symm
      · rw [if_neg hc]
    have hadd : t0.addPrm p.1 p.2.1 p.2.2.1 p.2.2.2 = some { t0 with
        fcs := t0.fcs ++ [p.1],
        multiplicities := t0.multiplicities ++ [p.2.1],
        phases := t0.phases ++ [p.2.2.1],
        npaths := t0.npaths ++ [p.2.2.2] } := by
      rw [addPrm_of_not_dup _ _ _ _ _ hany, hstore]
    show (match t0.addPrm p.1 p.2.1 p.2.2.1 p.2.2.2 with
      | none => (none : Option PrmTorsion)
      | some t1 => foldTerms t1 ps) = _
    rw [hadd]
    show foldTerms { t0 with
      fcs := t0.fcs ++ [p.1],
      multiplicities := t0.multiplicities ++ [p.2.1],
      phases := t0.phases ++ [p.2.2.1],
      npaths := t0.npaths ++ [p.2.2.2] } ps = _
    rw [foldTerms_spec ps _
      (by
        show ((t0.multiplicities ++ [p.2.1]) ++ ps.map (fun q => q.2.1)).Pairwise _
        rw [List.append_assoc]
        exact hdist)
      (fun q hq => hnorm q (List.mem_cons_of_mem _ hq))]
    simp [List.append_assoc]

theorem zip4_length : ∀ (as bs cs ds : List ℚ), as.length = bs.length →
    cs.length = bs.length → ds.length = bs.length →
    (zip4 as bs cs ds).length = bs.length
  | [], bs, cs, ds, ha, _, _ => by
    cases bs with
    | nil => rfl
    | cons b bs => simp at ha
  | a :: as, bs, cs, ds, ha, hc, hd => by
    cases bs with
    | nil => simp at ha
    | cons b bs =>
      cases cs with
      | nil => simp at hc
      | cons c cs =>
        cases ds with
        | nil => simp at hd
        | cons d ds =>
          show (zip4 as bs cs ds).length + 1 = bs.length + 1
          rw [zip4_length as bs cs ds (by simpa using ha) (by simpa using hc)
            (by simpa using hd)]

theorem zip4_map_mult : ∀ (as bs cs ds : List ℚ), as.length = bs.length →
    cs.length = bs.length → ds.length = bs.length →
    (zip4 as bs cs ds).map (fun p => p.2.1) = bs
  | [], bs, cs, ds, ha, _, _ => by
    cases bs with
    | nil => rfl
    | cons b bs => simp at ha
  | a :: as, bs, cs, ds, ha, hc, hd => by
    cases bs with
    | nil => simp at ha
    | cons b bs =>
      cases cs with
      | nil => simp at hc
      | cons c cs =>
        cases ds with
        | nil => simp at hd
        | cons d ds =>
          show b :: (zip4 as bs cs ds).map (fun p => p.2.1) = b :: bs
          rw [zip4_map_mult as bs cs ds (by simpa using ha) (by simpa using hc)
            (by simpa using hd)]

theorem mem_zip4 : ∀ {as bs cs ds : List ℚ} {p : ℚ × ℚ × ℚ × ℚ},
    p ∈ zip4 as bs cs ds → (p.2.1, p.2.2.1) ∈ List.zip bs cs
  | a :: as, b :: bs, c :: cs, d :: ds, p, hp => by
    rcases List.mem_cons.mp hp with rfl | hp
    · exact List.mem_cons_self _ _
    · exact List.mem_cons_of_mem _ (mem_zip4 hp)

theorem parse_fold : ∀ (L : List (ℚ × ℚ × ℚ × ℚ)) (t0 tE : PrmTorsion)
    (acc : List PrmTorsion) (rest : List TorsionLine) (x y z w : String)
    (cmt : Option String),
    torsionGetId [x, y, z, w] = t0.prm_id →
    foldTerms t0 L = some tE →
    parseTorsionsGo (t0 :: acc) (L.map (lineOf x y z w cmt) ++ rest)
      = parseTorsionsGo (tE :: acc) rest
  | [], t0, tE, acc, rest, x, y, z, w, cmt, _, hfold => by
    have h' : some t0 = some tE := hfold
    cases h'
    rfl
  | p :: ps, t0, tE, acc, rest, x, y, z, w, cmt, hid, hfold => by
    rcases hadd : t0.addPrm p.1 p.2.1 p.2.2.1 p.2.2.2 with _ | t1
    · exfalso
      have hnone : foldTerms t0 (p :: ps) = none := by
        show (match t0.addPrm p.1 p.2.1 p.2.2.1 p.2.2.2 with
          | none => (none : Option PrmTorsion)
          | some t1 => foldTerms t1 ps) = none
        rw [hadd]
      rw [hnone] at hfold
      exact Option.noConfusion hfold
    · have hfold' : foldTerms t1 ps = some tE := by
        have hstep : foldTerms t0 (p :: ps) = foldTerms t1 ps := by
          show (match t0.addPrm p.1 p.2.1 p.2.2.1 p.2.2.2 with
            | none => (none : Option PrmTorsion)
            | some t1 => foldTerms t1 ps) = foldTerms t1 ps
          rw [hadd]
        rw [hstep] at hfold
        exact hfold
      show parseTorsionsGo (t0 :: acc)
        (lineOf x y z w cmt p :: (ps.map (lineOf x y z w cmt) ++ rest)) = _
      rw [parseTorsionsGo_fold t0 acc (lineOf x y z w cmt p) _ hid t1 hadd]
      exact parse_fold ps t1 tE acc rest x y z w cmt
        (hid.trans (addPrm_prm_id hadd).symm) hfold'

theorem parse_group (t : PrmTorsion) (hwf : torsionWF t) (acc : List PrmTorsion)
    (hb : ∀ t0, acc.head? = some t0 → t.prm_id ≠ t0.prm_id)
    (rest : List TorsionLine) :
    parseTorsionsGo acc (torsionLinesOf t ++ rest)
      = parseTorsionsGo (sortTorsion t :: acc) rest := by
  obtain ⟨h4, hidt, hsplitt, hgent, hlf, hlp, hln, hmne, hdist, hnorm⟩ := hwf
  rcases hat : t.atom_types with _ | ⟨x, _ | ⟨y, _ | ⟨z, _ | ⟨w, _ | _⟩⟩⟩⟩ <;>
    rw [hat] at h4 <;> try simp at h4
  have hlines : torsionLinesOf t = t.getPrms.map (lineOf x y z w t.comment) := by
    show (match t.atom_types with
      | [x, y, z, w] => t.getPrms.map fun pr : ℚ × ℚ × ℚ × ℚ =>
          ({ a1 := x, a2 := y, a3 := z, a4 := w, fc := pr.1,
             multiplicity := pr.2.1, phase := pr.2.2.1, npaths := pr.2.2.2,
             comment := t.comment } : TorsionLine)
      | _ => ([] : List TorsionLine)) = _
    rw [hat]
    rfl
  have hperm : t.getPrms.Perm (zip4 t.fcs t.multiplicities t.phases t.npaths) :=
    sortI_perm _ _
  have hmap : (zip4 t.fcs t.multiplicities t.phases t.npaths).map
      (fun p => p.2.1) = t.multiplicities := zip4_map_mult _ _ _ _ hlf hlp hln
  have hdist' : (t.getPrms.map (fun p => p.2.1)).Pairwise
      (fun m m' => ¬ (abs (abs m' - abs m) < tol7)) := by
    have h1 : ((zip4 t.fcs t.multiplicities t.phases t.npaths).map
        (fun p => p.2.1)).Pairwise
        (fun m m' => ¬ (abs (abs m' - abs m) < tol7)) := by
      rw [hmap]
      exact hdist
    exact h1.perm (List.Perm.map _ hperm).symm
      (fun hab hc => hab (by rwa [abs_sub_comm] at hc))
  have hnorm' : ∀ p ∈ t.getPrms,
      (|p.2.2.1| < tol7 ∨ |p.2.2.1 - 180| < tol7) → p.2.1 = |p.2.1| :=
    fun p hp => hnorm (p.2.1, p.2.2.1) (mem_zip4 (hperm.mem_iff.mp hp))
  have hne : t.getPrms ≠ [] := by
    intro h0
    apply hmne
    have hlen : t.multiplicities.length = 0 := by
      rw [← zip4_length t.fcs t.multiplicities t.phases t.npaths hlf hlp hln,
        ← hperm.length_eq, h0]
      rfl
    exact List.length_eq_zero.mp hlen
  have hidc : torsionGetId [x, y, z, w] = t.prm_id := by
    rw [← hat, ← hidt]
  have hfold : foldTerms (mkPrmTorsion [x, y, z, w] t.comment) t.getPrms
      = some (sortTorsion t) := by
    rw [foldTerms_spec t.getPrms (mkPrmTorsion [x, y, z, w] t.comment)
      hdist' hnorm']
    have hTeq : ({ mkPrmTorsion [x, y, z, w] t.comment with
        fcs := (mkPrmTorsion [x, y, z, w] t.comment).fcs
          ++ t.getPrms.map (fun q => q.1),
        multiplicities := (mkPrmTorsion [x, y, z, w] t.comment).multiplicities
          ++ t.getPrms.map (fun q => q.2.1),
        phases := (mkPrmTorsion [x, y, z, w] t.comment).phases
          ++ t.getPrms.map (fun q => q.2.2.1),
        npaths := (mkPrmTorsion [x, y, z, w] t.comment).npaths
          ++ t.getPrms.map (fun q => q.2.2.2) } : PrmTorsion)
        = sortTorsion t := by
      show ({ is_generic := decide ("?" ∈ ([x, y, z, w] : List String)),
              fcs := [] ++ t.getPrms.map (fun q => q.1),
              multiplicities := [] ++ t.getPrms.map (fun q => q.2.1),
              phases := [] ++ t.getPrms.map (fun q => q.2.2.1),
              npaths := [] ++ t.getPrms.map (fun q => q.2.2.2),
              prm_id := torsionGetId [x, y, z, w],
              atom_types := pySplit (torsionGetId [x, y, z, w]),
              comment := t.comment } : PrmTorsion) = sortTorsion t
      rw [hidc, hsplitt, ← hat, ← hgent]
      simp only [List.nil_append]
      rfl
    rw [hTeq]
  rw [hlines]
  rcases hgp : t.getPrms with _ | ⟨p, ps⟩
  · exact absurd hgp hne
  rw [hgp] at hfold
  rcases haddp : (mkPrmTorsion [x, y, z, w] t.comment).addPrm
      p.1 p.2.1 p.2.2.1 p.2.2.2 with _ | t1
  · exfalso
    have hnone : foldTerms (mkPrmTorsion [x, y, z, w] t.comment) (p :: ps)
        = none := by
      show (match (mkPrmTorsion [x, y, z, w] t.comment).addPrm
          p.1 p.2.1 p.2.2.1 p.2.2.2 with
        | none => (none : Option PrmTorsion)
        | some t1 => foldTerms t1 ps) = none
      rw [haddp]
    rw [hnone] at hfold
    exact Option.noConfusion hfold
  have hfold1 : foldTerms t1 ps = some (sortTorsion t) := by
    have hstep : foldTerms (mkPrmTorsion [x, y, z, w] t.comment) (p :: ps)
        = foldTerms t1 ps := by
      show (match (mkPrmTorsion [x, y, z, w] t.comment).addPrm
          p.1 p.2.1 p.2.2.1 p.2.2.2 with
        | none => (none : Option PrmTorsion)
        | some t1 => foldTerms t1 ps) = foldTerms t1 ps
      rw [haddp]
    rw [hstep] at hfold
    exact hfold
  have hid1 : torsionGetId [x, y, z, w] = t1.prm_id :=
    (addPrm_prm_id haddp).symm
  cases acc with
  | nil =>
    show parseTorsionsGo []
      (lineOf x y z w t.comment p :: (ps.map (lineOf x y z w t.comment) ++ rest))
      = _
    rw [parseTorsionsGo_start (lineOf x y z w t.comment p) _ t1 haddp]
    exact parse_fold ps t1 (sortTorsion t) [] rest x y z w t.comment hid1 hfold1
  | cons t0h acc' =>
    show parseTorsionsGo (t0h :: acc')
      (lineOf x y z w t.comment p :: (ps.map (lineOf x y z w t.comment) ++ rest))
      = _
    rw [parseTorsionsGo_new t0h acc' (lineOf x y z w t.comment p) _
      (by
        show ¬ (torsionGetId [x, y, z, w] = t0h.prm_id)
        rw [hidc]
        exact hb t0h rfl) t1 haddp]
    exact parse_fold ps t1 (sortTorsion t) (t0h :: acc') rest x y z w t.comment
      hid1 hfold1

theorem parse_flat : ∀ (ts : List PrmTorsion) (acc : List PrmTorsion),
    (∀ t ∈ ts, torsionWF t) →
    List.Chain' (fun a b => a.prm_id ≠ b.prm_id) ts →
    (∀ tH t0, ts.head? = some tH → acc.head? = some t0 →
      tH.prm_id ≠ t0.prm_id) →
    parseTorsionsGo acc (ts.flatMap torsionLinesOf)
      = .ok (acc.reverse ++ ts.map sortTorsion)
  | [], acc, _, _, _ => by
    show parseTorsionsGo acc [] = _
    rw [parseTorsionsGo_nil, List.map_nil, List.append_nil]
  | t :: ts, acc, hwf, hchain, hb => by
    show parseTorsionsGo acc (torsionLinesOf t ++ ts.flatMap torsionLinesOf) = _
    rw [parse_group t (hwf t (List.mem_cons_self t ts)) acc
      (fun t0 h0 => hb t t0 rfl h0) _]
    rw [parse_flat ts (sortTorsion t :: acc)
      (fun u hu => hwf u (List.mem_cons_of_mem t hu))
      hchain.tail
      (by
        intro tH t0 hH h0
        have ht0 : sortTorsion t = t0 := Option.some.inj h0
        rw [← ht0, sortTorsion_prm_id]
        exact Ne.symm ((List.chain'_cons'.mp hchain).1 tH hH))]
    rw [List.reverse_cons, List.append_assoc, List.map_cons]
    rfl

theorem untorsion_exists (P : PrmTorsion → Prop) : ∀ vs : List Prm,
    (∀ p ∈ vs, ∃ t, p = .torsion t ∧ P t) →
    ∃ ts : List PrmTorsion, vs = ts.map Prm.torsion ∧ ∀ t ∈ ts, P t
  | [], _ => ⟨[], rfl, fun t ht => absurd ht (List.not_mem_nil t)⟩
  | p :: vs, h => by
    rcases h p (List.mem_cons_self p vs) with ⟨t, rfl, hP⟩
    rcases untorsion_exists P vs (fun q hq => h q (List.mem_cons_of_mem _ hq))
      with ⟨ts, rfl, hPs⟩
    refine ⟨t :: ts, rfl, ?_⟩
    intro u hu
    rcases List.mem_cons.mp hu with rfl | hu
    · exact hP
    · exact hPs u hu

theorem unimproper_exists (P : PrmImproper → Prop) : ∀ vs : List Prm,
    (∀ p ∈ vs, ∃ i, p = .improper i ∧ P i) →
    ∃ is : List PrmImproper, vs = is.map Prm.improper ∧ ∀ i ∈ is, P i
  | [], _ => ⟨[], rfl, fun i hi => absurd hi (List.not_mem_nil i)⟩
  | p :: vs, h => by
    rcases h p (List.mem_cons_self p vs) with ⟨i, rfl, hP⟩
    rcases unimproper_exists P vs (fun q hq => h q (List.mem_cons_of_mem _ hq))
      with ⟨is, rfl, hPs⟩
    refine ⟨i :: is, rfl, ?_⟩
    intro u hu
    rcases List.mem_cons.mp hu with rfl | hu
    · exact hP
    · exact hPs u hu

theorem flatMap_torsArm : ∀ ts : List PrmTorsion,
    (ts.map Prm.torsion).flatMap torsArm = ts.flatMap torsionLinesOf
  | [] => rfl
  | t :: ts => by
    show torsArm (.torsion t) ++ (ts.map Prm.torsion).flatMap torsArm
      = torsionLinesOf t ++ ts.flatMap torsionLinesOf
    rw [flatMap_torsArm ts]
    rfl

theorem parseImpropers_loop_eq (ls : List ImproperLine) :
    parseImpropers ls = List.mapM.loop (fun l => mkPrmImproper l.a2
      [l.a1, l.a3, l.a4] l.fc l.phi0 2 l.comment) ls [] := rfl

theorem tableWF_keys {d : List (String × Prm)} (h : ∀ pr ∈ d, pr.1 = Prm.prmId pr.2) :
    d.map Prod.fst = (d.map Prod.snd).map Prm.prmId := by
  rw [List.map_map]
  exact List.map_congr_left (fun pr hpr => h pr hpr)

theorem sorted_vals_nodup (le : Prm → Prm → Bool) {d : List (String × Prm)}
    (h : tableWF d) : ((sortI le (d.map Prod.snd)).map Prm.prmId).Nodup := by
  have hperm : ((sortI le (d.map Prod.snd)).map Prm.prmId).Perm
      ((d.map Prod.snd).map Prm.prmId) := (sortI_perm le _).map _
  rw [hperm.nodup_iff, ← tableWF_keys h.2]
  exact h.1

theorem map_prmId_map (f : Prm → Prm) (hf : ∀ p, Prm.prmId (f p) = Prm.prmId p)
    (vs : List Prm) : (vs.map f).map Prm.prmId = vs.map Prm.prmId := by
  rw [List.map_map]
  exact List.map_congr_left (fun p _ => hf p)

theorem pairwise_section {vs : List Prm} (hnd : (vs.map Prm.prmId).Nodup) :
    vs.Pairwise (fun p q => tableIdx p = tableIdx q →
      Prm.prmId p ≠ Prm.prmId q) := by
  refine (List.pairwise_map.mp hnd).imp ?_
  intro a b hne _
  exact hne

theorem pairwise_app {A B : List Prm}
    (pA : A.Pairwise (fun p q => tableIdx p = tableIdx q →
      Prm.prmId p ≠ Prm.prmId q))
    (pB : B.Pairwise (fun p q => tableIdx p = tableIdx q →
      Prm.prmId p ≠ Prm.prmId q))
    (hcross : ∀ a ∈ A, ∀ b ∈ B, tableIdx a ≠ tableIdx b) :
    (A ++ B).Pairwise (fun p q => tableIdx p = tableIdx q →
      Prm.prmId p ≠ Prm.prmId q) :=
  List.pairwise_append.mpr
    ⟨pA, pB, fun a ha b hb hidx => absurd hidx (hcross a ha b hb)⟩

theorem torsion_gen_ne_reg {t t' : PrmTorsion} (hwt : torsionWF t)
    (hwt' : torsionWF t') (hg : t.is_generic = true) (hg' : t'.is_generic = false) :
    t.prm_id ≠ t'.prm_id := by
  intro heq
  have hat : t.atom_types = t'.atom_types := by
    rw [← hwt.2.2.1, ← hwt'.2.2.1, heq]
  have hcontr : (true : Bool) = false := by
    rw [← hg, ← hg', hwt.2.2.2.1, hwt'.2.2.2.1, hat]
  exact Bool.noConfusion hcontr

theorem lookup_table_core {d : List (String × Prm)} {vs : List Prm}
    (hvs : vs.Perm (d.map Prod.snd)) (htw : tableWF d) (k : String) :
    lookupD (vs.map (fun p => (Prm.prmId p, p))) k = lookupD d k := by
  have hd : d = (d.map Prod.snd).map (fun p => (Prm.prmId p, p)) :=
    table_keyed htw.2
  have hnd : ((vs.map (fun p => (Prm.prmId p, p))).map Prod.fst).Nodup := by
    have hfst : (vs.map (fun p => (Prm.prmId p, p))).map Prod.fst
        = vs.map Prm.prmId := by
      rw [List.map_map]
      rfl
    rw [hfst]
    have hperm2 : (vs.map Prm.prmId).Perm ((d.map Prod.snd).map Prm.prmId) :=
      hvs.map _
    rw [hperm2.nodup_iff, ← tableWF_keys htw.2]
    exact htw.1
  calc lookupD (vs.map (fun p => (Prm.prmId p, p))) k
      = lookupD ((d.map Prod.snd).map (fun p => (Prm.prmId p, p))) k :=
        lookupD_perm (hvs.map _) hnd k
    _ = lookupD d k := by rw [← hd]

theorem classTable_nil_store {qp : QPrm} (h1 : qp.atom_types = [])
    (h2 : qp.bonds = []) (h3 : qp.angles = []) (h4 : qp.generic_torsions = [])
    (h5 : qp.torsions = []) (h6 : qp.generic_impropers = [])
    (h7 : qp.impropers = []) : ∀ p : Prm, classTable qp p = [] := by
  intro p
  cases p with
  | atom a => exact h1
  | bond b => exact h2
  | angle c => exact h3
  | torsion t => rcases hg : t.is_generic <;> simp [classTable, hg, h4, h5]
  | improper i => rcases hg : i.is_generic <;> simp [classTable, hg, h6, h7]

theorem sortTorsion_is_generic (t : PrmTorsion) :
    (sortTorsion t).is_generic = t.is_generic := rfl

theorem readPrm_steps (qp : QPrm) (f : PrmFile) (opts : List (String × String))
    (ts : List PrmTorsion) (is : List PrmImproper)
    (ho : readOptions qp.ignore_errors qp.options f.options = .ok opts)
    (ht : parseTorsionsGo [] f.torsionLines = .ok ts)
    (hi : parseImpropers f.improperLines = .ok is) :
    qp.readPrm f = addAll { qp with options := opts } [] 0
      ((parseAtoms qp.ff_type f.atomLines).map Prm.atom
        ++ (f.bondLines.map fun l =>
            mkPrmBond [l.a1, l.a2] l.fc l.r0 l.comment).map Prm.bond
        ++ (f.angleLines.map fun l =>
            mkPrmAngle [l.a1, l.a2, l.a3] l.fc l.theta0 l.comment).map Prm.angle
        ++ ts.map Prm.torsion ++ is.map Prm.improper) := by
  show (match readOptions qp.ignore_errors qp.options f.options with
    | .error e => (.error e : Except QErr (QPrm × List Prm × ℕ))
    | .ok opts =>
      match parseTorsionsGo [] f.torsionLines with
      | .error e => .error e
      | .ok torsions =>
        match parseImpropers f.improperLines with
        | .error e => .error e
        | .ok impropers =>
          addAll { qp with options := opts } [] 0
            ((parseAtoms qp.ff_type f.atomLines).map Prm.atom
              ++ (f.bondLines.map fun l : BondLine =>
                  mkPrmBond [l.a1, l.a2] l.fc l.r0 l.comment).map Prm.bond
              ++ (f.angleLines.map fun l : AngleLine =>
                  mkPrmAngle [l.a1, l.a2, l.a3] l.fc l.theta0
                    l.comment).map Prm.angle
              ++ torsions.map Prm.torsion
              ++ impropers.map Prm.improper)) = _
  rw [ho, ht, hi]

theorem tableIdx_prmRound (ff : FFType) : ∀ p : Prm,
    tableIdx (prmRound ff p) = tableIdx p
  | .atom a => by cases ff <;> rfl
  | .bond _ => rfl
  | .angle _ => rfl
  | .torsion _ => rfl
  | .improper _ => rfl

/-- Claim C4: serializing a well-formed store with the canonical
serializer (`get_string`) and re-parsing the output through the
native-format parser (`read_prm`) into a fresh store succeeds with no
conflict and no duplicate, and reproduces an equivalent store: the
options are preserved, every sub-table holds exactly the same canonical
identities, and the stored values agree within formatting precision —
bonds, angles and impropers come back verbatim, atoms come back with
the oplsaa Lennard-Jones values rounded to the four decimals the
printer emits (amber atoms verbatim), and torsions come back with the
same identity and the same term multiset, re-ordered by ascending
multiplicity. -/
theorem claim_C4 (qp : QPrm) (ig : Bool) (hwf : storeWF qp) :
    ∃ qp', (emptyQPrm qp.ff_type ig).readPrm qp.getString = .ok (qp', [], 0)
      ∧ qp'.options = qp.options
      ∧ (∀ k, lookupD qp'.atom_types k
          = (lookupD qp.atom_types k).map (prmRound qp.ff_type))
      ∧ (∀ k, lookupD qp'.bonds k = lookupD qp.bonds k)
      ∧ (∀ k, lookupD qp'.angles k = lookupD qp.angles k)
      ∧ (∀ k, lookupD qp'.torsions k = (lookupD qp.torsions k).map prmSort)
      ∧ (∀ k, lookupD qp'.generic_torsions k
          = (lookupD qp.generic_torsions k).map prmSort)
      ∧ (∀ k, lookupD qp'.impropers k = lookupD qp.impropers k)
      ∧ (∀ k, lookupD qp'.generic_impropers k = lookupD qp.generic_impropers k)
      ∧ (∀ p, Prm.prmId (prmRound qp.ff_type p) = Prm.prmId p)
      ∧ (∀ p, Prm.prmId (prmSort p) = Prm.prmId p)
      ∧ (∀ t : PrmTorsion, (sortTorsion t).getPrms = t.getPrms) := by
  obtain ⟨hndO, twA, twB, twC, twT, twGT, twI, twGI,
    hA, hB, hC, hT, hGT, hI, hGI⟩ := hwf
  have hmemA : ∀ p ∈ sortVals qp.atom_types,
      ∃ a, p = .atom a ∧ atomWF qp.ff_type a := by
    intro p hp
    rcases List.mem_map.mp ((sortI_perm _ _).mem_iff.mp hp) with ⟨pr, hpr, rfl⟩
    exact hA pr hpr
  have hmemB : ∀ p ∈ sortVals qp.bonds, ∃ b, p = .bond b ∧ bondWF b := by
    intro p hp
    rcases List.mem_map.mp ((sortI_perm _ _).mem_iff.mp hp) with ⟨pr, hpr, rfl⟩
    exact hB pr hpr
  have hmemC : ∀ p ∈ sortVals qp.angles, ∃ a, p = .angle a ∧ angleWF a := by
    intro p hp
    rcases List.mem_map.mp ((sortI_perm _ _).mem_iff.mp hp) with ⟨pr, hpr, rfl⟩
    exact hC pr hpr
  have hmemT : ∀ p ∈ sortVals qp.torsions,
      ∃ t, p = .torsion t ∧ (torsionWF t ∧ t.is_generic = false) := by
    intro p hp
    rcases List.mem_map.mp ((sortI_perm _ _).mem_iff.mp hp) with ⟨pr, hpr, rfl⟩
    rcases hT pr hpr with ⟨t, h1, h2, h3⟩
    exact ⟨t, h1, h2, h3⟩
  have hmemGT : ∀ p ∈ sortValsWild qp.generic_torsions,
      ∃ t, p = .torsion t ∧ (torsionWF t ∧ t.is_generic = true) := by
    intro p hp
    rcases List.mem_map.mp ((sortI_perm _ _).mem_iff.mp hp) with ⟨pr, hpr, rfl⟩
    rcases hGT pr hpr with ⟨t, h1, h2, h3⟩
    exact ⟨t, h1, h2, h3⟩
  have hmemI : ∀ p ∈ sortVals qp.impropers,
      ∃ i, p = .improper i ∧ (improperWF i ∧ i.is_generic = false) := by
    intro p hp
    rcases List.mem_map.mp ((sortI_perm _ _).mem_iff.mp hp) with ⟨pr, hpr, rfl⟩
    rcases hI pr hpr with ⟨i, h1, h2, h3⟩
    exact ⟨i, h1, h2, h3⟩
  have hmemGI : ∀ p ∈ sortValsWild qp.generic_impropers,
      ∃ i, p = .improper i ∧ (improperWF i ∧ i.is_generic = true) := by
    intro p hp
    rcases List.mem_map.mp ((sortI_perm _ _).mem_iff.mp hp) with ⟨pr, hpr, rfl⟩
    rcases hGI pr hpr with ⟨i, h1, h2, h3⟩
    exact ⟨i, h1, h2, h3⟩
  obtain ⟨gens, hgenseq, hgensP⟩ := untorsion_exists _ _ hmemGT
  obtain ⟨regs, hregseq, hregsP⟩ := untorsion_exists _ _ hmemT
  obtain ⟨gi, hgieq, hgiP⟩ := unimproper_exists _ _ hmemGI
  obtain ⟨ri, hrieq, hriP⟩ := unimproper_exists _ _ hmemI
  have hndA : ((sortVals qp.atom_types).map Prm.prmId).Nodup :=
    sorted_vals_nodup _ twA
  have hndB : ((sortVals qp.bonds).map Prm.prmId).Nodup :=
    sorted_vals_nodup _ twB
  have hndC : ((sortVals qp.angles).map Prm.prmId).Nodup :=
    sorted_vals_nodup _ twC
  have hndT : ((sortVals qp.torsions).map Prm.prmId).Nodup :=
    sorted_vals_nodup _ twT
  have hndGT : ((sortValsWild qp.generic_torsions).map Prm.prmId).Nodup :=
    sorted_vals_nodup _ twGT
  have hndI : ((sortVals qp.impropers).map Prm.prmId).Nodup :=
    sorted_vals_nodup _ twI
  have hndGI : ((sortValsWild qp.generic_impropers).map Prm.prmId).Nodup :=
    sorted_vals_nodup _ twGI
  have hgens_ids : (gens.map (fun t => t.prm_id)).Nodup := by
    have h0 := hndGT
    rw [hgenseq] at h0
    rw [show (gens.map Prm.torsion).map Prm.prmId
        = gens.map (fun t => t.prm_id) from by rw [List.map_map]; rfl] at h0
    exact h0
  have hregs_ids : (regs.map (fun t => t.prm_id)).Nodup := by
    have h0 := hndT
    rw [hregseq] at h0
    rw [show (regs.map Prm.torsion).map Prm.prmId
        = regs.map (fun t => t.prm_id) from by rw [List.map_map]; rfl] at h0
    exact h0
  have hgi_ids : (gi.map (fun i => i.prm_id)).Nodup := by
    have h0 := hndGI
    rw [hgieq] at h0
    rw [show (gi.map Prm.improper).map Prm.prmId
        = gi.map (fun i => i.prm_id) from by rw [List.map_map]; rfl] at h0
    exact h0
  have hri_ids : (ri.map (fun i => i.prm_id)).Nodup := by
    have h0 := hndI
    rw [hrieq] at h0
    rw [show (ri.map Prm.improper).map Prm.prmId
        = ri.map (fun i => i.prm_id) from by rw [List.map_map]; rfl] at h0
    exact h0
  have hwf_ts : ∀ t ∈ gens ++ regs, torsionWF t := by
    intro t ht
    rcases List.mem_append.mp ht with h | h
    · exact (hgensP t h).1
    · exact (hregsP t h).1
  have hchain : List.Chain' (fun a b : PrmTorsion => a.prm_id ≠ b.prm_id)
      (gens ++ regs) := by
    apply List.Pairwise.chain'
    refine List.pairwise_append.mpr
      ⟨List.pairwise_map.mp hgens_ids, List.pairwise_map.mp hregs_ids, ?_⟩
    intro a ha b hb
    exact torsion_gen_ne_reg (hgensP a ha).1 (hregsP b hb).1
      (hgensP a ha).2 (hregsP b hb).2
  have hts : parseTorsionsGo [] (qp.getString).torsionLines
      = .ok ((gens ++ regs).map sortTorsion) := by
    have hfield : (qp.getString).torsionLines
        = (sortValsWild qp.generic_torsions ++ sortVals qp.torsions).flatMap
            torsArm := rfl
    rw [hfield, hgenseq, hregseq, ← List.map_append, flatMap_torsArm]
    exact parse_flat (gens ++ regs) [] hwf_ts hchain
      (fun tH t0 _ h0 => Option.noConfusion h0)
  have hmemGIRI : ∀ p ∈ sortValsWild qp.generic_impropers
      ++ sortVals qp.impropers, ∃ i, p = .improper i ∧ improperWF i := by
    intro p hp
    rcases List.mem_append.mp hp with h | h
    · rcases hmemGI p h with ⟨i, h1, h2, _⟩
      exact ⟨i, h1, h2⟩
    · rcases hmemI p h with ⟨i, h1, h2, _⟩
      exact ⟨i, h1, h2⟩
  obtain ⟨isL, hisloop, hismap⟩ := improperLines_loop
    (sortValsWild qp.generic_impropers ++ sortVals qp.impropers) [] hmemGIRI
  have his : parseImpropers (qp.getString).improperLines = .ok isL := by
    have hfield : (qp.getString).improperLines
        = (sortValsWild qp.generic_impropers ++ sortVals qp.impropers).filterMap
            improperArm := rfl
    rw [hfield, parseImpropers_loop_eq, hisloop]
    rfl
  have hopts : readOptions (emptyQPrm qp.ff_type ig).ignore_errors
      (emptyQPrm qp.ff_type ig).options (qp.getString).options
      = .ok qp.options :=
    readOptions_fresh qp.options [] ig hndO (fun k _ => rfl)
  have hread := readPrm_steps (emptyQPrm qp.ff_type ig) qp.getString qp.options
    ((gens ++ regs).map sortTorsion) isL hopts hts his
  have htorsec : ((gens ++ regs).map sortTorsion).map Prm.torsion
      = (gens.map sortTorsion).map Prm.torsion
        ++ (regs.map sortTorsion).map Prm.torsion := by
    rw [List.map_append, List.map_append]
  have himpsec : isL.map Prm.improper
      = gi.map Prm.improper ++ ri.map Prm.improper := by
    rw [hismap, hgieq, hrieq]
  rw [htorsec, himpsec] at hread
  have hatoms : (parseAtoms qp.ff_type (qp.getString).atomLines).map Prm.atom
      = (sortVals qp.atom_types).map (prmRound qp.ff_type) :=
    atomLines_roundtrip qp.ff_type _ hmemA
  have hbonds : (((qp.getString).bondLines.map fun l : BondLine =>
      mkPrmBond [l.a1, l.a2] l.fc l.r0 l.comment)).map Prm.bond
      = sortVals qp.bonds :=
    bondLines_roundtrip _ hmemB
  have hangles : (((qp.getString).angleLines.map fun l : AngleLine =>
      mkPrmAngle [l.a1, l.a2, l.a3] l.fc l.theta0 l.comment)).map Prm.angle
      = sortVals qp.angles :=
    angleLines_roundtrip _ hmemC
  have hflagsTG : ∀ t ∈ gens.map sortTorsion, t.is_generic = true := by
    intro t ht
    rcases List.mem_map.mp ht with ⟨g, hg, rfl⟩
    rw [sortTorsion_is_generic]
    exact (hgensP g hg).2
  have hflagsTR : ∀ t ∈ regs.map sortTorsion, t.is_generic = false := by
    intro t ht
    rcases List.mem_map.mp ht with ⟨g, hg, rfl⟩
    rw [sortTorsion_is_generic]
    exact (hregsP g hg).2
  have hflagsIG : ∀ i ∈ gi, i.is_generic = true := fun i hi => (hgiP i hi).2
  have hflagsIR : ∀ i ∈ ri, i.is_generic = false := fun i hi => (hriP i hi).2
  have hidxA : ∀ p ∈ (parseAtoms qp.ff_type (qp.getString).atomLines).map
      Prm.atom, tableIdx p = 0 := by
    intro p hp
    rw [hatoms] at hp
    rcases List.mem_map.mp hp with ⟨q, hq, rfl⟩
    rcases hmemA q hq with ⟨a, rfl, _⟩
    rw [tableIdx_prmRound]
    rfl
  have hidxB : ∀ p ∈ (((qp.getString).bondLines.map fun l : BondLine =>
      mkPrmBond [l.a1, l.a2] l.fc l.r0 l.comment)).map Prm.bond,
      tableIdx p = 1 := by
    intro p hp
    rcases List.mem_map.mp hp with ⟨q, hq, rfl⟩
    rfl
  have hidxC : ∀ p ∈ (((qp.getString).angleLines.map fun l : AngleLine =>
      mkPrmAngle [l.a1, l.a2, l.a3] l.fc l.theta0 l.comment)).map Prm.angle,
      tableIdx p = 2 := by
    intro p hp
    rcases List.mem_map.mp hp with ⟨q, hq, rfl⟩
    rfl
  have hidxTG : ∀ p ∈ (gens.map sortTorsion).map Prm.torsion,
      tableIdx p = 3 := by
    intro p hp
    rcases List.mem_map.mp hp with ⟨t, ht, rfl⟩
    simp [tableIdx, hflagsTG t ht]
  have hidxTR : ∀ p ∈ (regs.map sortTorsion).map Prm.torsion,
      tableIdx p = 4 := by
    intro p hp
    rcases List.mem_map.mp hp with ⟨t, ht, rfl⟩
    simp [tableIdx, hflagsTR t ht]
  have hidxIG : ∀ p ∈ gi.map Prm.improper, tableIdx p = 5 := by
    intro p hp
    rcases List.mem_map.mp hp with ⟨i, hi, rfl⟩
    simp [tableIdx, hflagsIG i hi]
  have hidxIR : ∀ p ∈ ri.map Prm.improper, tableIdx p = 6 := by
    intro p hp
    rcases List.mem_map.mp hp with ⟨i, hi, rfl⟩
    simp [tableIdx, hflagsIR i hi]
  have hndA0 : (((parseAtoms qp.ff_type (qp.getString).atomLines).map
      Prm.atom).map Prm.prmId).Nodup := by
    rw [hatoms, map_prmId_map _ (prmRound_prmId _)]
    exact hndA
  have hndB0 : ((((qp.getString).bondLines.map fun l : BondLine =>
      mkPrmBond [l.a1, l.a2] l.fc l.r0 l.comment).map Prm.bond).map
      Prm.prmId).Nodup := by
    rw [hbonds]
    exact hndB
  have hndC0 : ((((qp.getString).angleLines.map fun l : AngleLine =>
      mkPrmAngle [l.a1, l.a2, l.a3] l.fc l.theta0 l.comment).map Prm.angle).map
      Prm.prmId).Nodup := by
    rw [hangles]
    exact hndC
  have hndTG0 : (((gens.map sortTorsion).map Prm.torsion).map Prm.prmId).Nodup := by
    rw [show ((gens.map sortTorsion).map Prm.torsion).map Prm.prmId
        = gens.map (fun t => t.prm_id) from by rw [List.map_map, List.map_map]; rfl]
    exact hgens_ids
  have hndTR0 : (((regs.map sortTorsion).map Prm.torsion).map Prm.prmId).Nodup := by
    rw [show ((regs.map sortTorsion).map Prm.torsion).map Prm.prmId
        = regs.map (fun t => t.prm_id) from by rw [List.map_map, List.map_map]; rfl]
    exact hregs_ids
  have hndIG0 : ((gi.map Prm.improper).map Prm.prmId).Nodup := by
    rw [show (gi.map Prm.improper).map Prm.prmId
        = gi.map (fun i => i.prm_id) from by rw [List.map_map]; rfl]
    exact hgi_ids
  have hndIR0 : ((ri.map Prm.improper).map Prm.prmId).Nodup := by
    rw [show (ri.map Prm.improper).map Prm.prmId
        = ri.map (fun i => i.prm_id) from by rw [List.map_map]; rfl]
    exact hri_ids
  have hdist := by
    refine pairwise_app (pairwise_app (pairwise_app (pairwise_app
      (pairwise_section hndA0) (pairwise_section hndB0) ?_)
      (pairwise_section hndC0) ?_)
      (pairwise_app (pairwise_section hndTG0) (pairwise_section hndTR0) ?_) ?_)
      (pairwise_app (pairwise_section hndIG0) (pairwise_section hndIR0) ?_) ?_
    · intro a ha b hb
      rw [hidxA a ha, hidxB b hb]
      decide
    · intro a ha b hb
      rcases List.mem_append.mp ha with h | h
      · rw [hidxA a h, hidxC b hb]
        decide
      · rw [hidxB a h, hidxC b hb]
        decide
    · intro a ha b hb
      rw [hidxTG a ha, hidxTR b hb]
      decide
    · intro a ha b hb
      have ha2 : tableIdx a ≤ 2 := by
        rcases List.mem_append.mp ha with h | h
        · rcases List.mem_append.mp h with h' | h'
          · rw [hidxA a h']
            omega
          · rw [hidxB a h']
            omega
        · rw [hidxC a h]
      have hb34 : 3 ≤ tableIdx b := by
        rcases List.mem_append.mp hb with h | h
        · rw [hidxTG b h]
        · rw [hidxTR b h]
          omega
      omega
    · intro a ha b hb
      rw [hidxIG a ha, hidxIR b hb]
      decide
    · intro a ha b hb
      have ha4 : tableIdx a ≤ 4 := by
        rcases List.mem_append.mp ha with h | h
        · rcases List.mem_append.mp h with h' | h'
          · rcases List.mem_append.mp h' with h'' | h''
            · rw [hidxA a h'']
              omega
            · rw [hidxB a h'']
              omega
          · rw [hidxC a h']
            omega
        · rcases List.mem_append.mp h with h' | h'
          · rw [hidxTG a h']
            omega
          · rw [hidxTR a h']
      have hb5 : 5 ≤ tableIdx b := by
        rcases List.mem_append.mp hb with h | h
        · rw [hidxIG b h]
        · rw [hidxIR b h]
          omega
      omega
  have hfresh : ∀ p ∈ (parseAtoms qp.ff_type (qp.getString).atomLines).map
        Prm.atom
      ++ ((qp.getString).bondLines.map fun l : BondLine =>
          mkPrmBond [l.a1, l.a2] l.fc l.r0 l.comment).map Prm.bond
      ++ ((qp.getString).angleLines.map fun l : AngleLine =>
          mkPrmAngle [l.a1, l.a2, l.a3] l.fc l.theta0 l.comment).map Prm.angle
      ++ ((gens.map sortTorsion).map Prm.torsion
        ++ (regs.map sortTorsion).map Prm.torsion)
      ++ (gi.map Prm.improper ++ ri.map Prm.improper),
      lookupD (classTable { emptyQPrm qp.ff_type ig with
        options := qp.options } p) (Prm.prmId p) = none := by
    intro p _
    rw [classTable_nil_store rfl rfl rfl rfl rfl rfl rfl p]
    rfl
  have hread2 : (emptyQPrm qp.ff_type ig).readPrm qp.getString
      = addAll { emptyQPrm qp.ff_type ig with options := qp.options } [] 0
        ((parseAtoms qp.ff_type (qp.getString).atomLines).map Prm.atom
          ++ ((qp.getString).bondLines.map fun l : BondLine =>
              mkPrmBond [l.a1, l.a2] l.fc l.r0 l.comment).map Prm.bond
          ++ ((qp.getString).angleLines.map fun l : AngleLine =>
              mkPrmAngle [l.a1, l.a2, l.a3] l.fc l.theta0 l.comment).map
              Prm.angle
          ++ ((gens.map sortTorsion).map Prm.torsion
            ++ (regs.map sortTorsion).map Prm.torsion)
          ++ (gi.map Prm.improper ++ ri.map Prm.improper)) := hread
  rw [addAll_fresh _ _ _ _ hfresh hdist] at hread2
  have hins : insAll { emptyQPrm qp.ff_type ig with options := qp.options }
      ((parseAtoms qp.ff_type (qp.getString).atomLines).map Prm.atom
        ++ ((qp.getString).bondLines.map fun l : BondLine =>
            mkPrmBond [l.a1, l.a2] l.fc l.r0 l.comment).map Prm.bond
        ++ ((qp.getString).angleLines.map fun l : AngleLine =>
            mkPrmAngle [l.a1, l.a2, l.a3] l.fc l.theta0 l.comment).map Prm.angle
        ++ ((gens.map sortTorsion).map Prm.torsion
          ++ (regs.map sortTorsion).map Prm.torsion)
        ++ (gi.map Prm.improper ++ ri.map Prm.improper))
      = { ff_type := qp.ff_type, ignore_errors := ig, options := qp.options,
          atom_types := (parseAtoms qp.ff_type (qp.getString).atomLines).map
            (fun a => (a.prm_id, Prm.atom a)),
          bonds := ((qp.getString).bondLines.map fun l : BondLine =>
            mkPrmBond [l.a1, l.a2] l.fc l.r0 l.comment).map
            (fun b => (b.prm_id, Prm.bond b)),
          angles := ((qp.getString).angleLines.map fun l : AngleLine =>
            mkPrmAngle [l.a1, l.a2, l.a3] l.fc l.theta0 l.comment).map
            (fun c => (c.prm_id, Prm.angle c)),
          generic_torsions := (gens.map sortTorsion).map
            (fun t => (t.prm_id, Prm.torsion t)),
          torsions := (regs.map sortTorsion).map
            (fun t => (t.prm_id, Prm.torsion t)),
          generic_impropers := gi.map (fun i => (i.prm_id, Prm.improper i)),
          impropers := ri.map (fun i => (i.prm_id, Prm.improper i)) } := by
    rw [insAll_append, insAll_append, insAll_append, insAll_append,
      insAll_append, insAll_append]
    rw [insAll_atoms, insAll_bonds, insAll_angles,
      insAll_torsions_gen _ _ hflagsTG, insAll_torsions_reg _ _ hflagsTR,
      insAll_impropers_gen _ _ hflagsIG, insAll_impropers_reg _ _ hflagsIR]
    rfl
  rw [hins] at hread2
  refine ⟨_, hread2, rfl, ?_, ?_, ?_, ?_, ?_, ?_, ?_,
    prmRound_prmId qp.ff_type, prmSort_prmId, sortTorsion_getPrms⟩
  · intro k
    show lookupD ((parseAtoms qp.ff_type (qp.getString).atomLines).map
      (fun a => (a.prm_id, Prm.atom a))) k = _
    have hconv : (parseAtoms qp.ff_type (qp.getString).atomLines).map
        (fun a => (a.prm_id, Prm.atom a))
        = ((sortVals qp.atom_types).map (prmRound qp.ff_type)).map
          (fun p => (Prm.prmId p, p)) := by
      rw [← hatoms]
      conv_rhs => rw [List.map_map]
      rfl
    rw [hconv, lookupD_keyed_map _ _ (prmRound_prmId _) k,
      lookup_table_core (show (sortVals qp.atom_types).Perm
        (qp.atom_types.map Prod.snd) from sortI_perm _ _) twA k]
  · intro k
    show lookupD (((qp.getString).bondLines.map fun l : BondLine =>
      mkPrmBond [l.a1, l.a2] l.fc l.r0 l.comment).map
      (fun b => (b.prm_id, Prm.bond b))) k = _
    have hconv : ((qp.getString).bondLines.map fun l : BondLine =>
        mkPrmBond [l.a1, l.a2] l.fc l.r0 l.comment).map
        (fun b => (b.prm_id, Prm.bond b))
        = (sortVals qp.bonds).map (fun p => (Prm.prmId p, p)) := by
      rw [← hbonds]
      conv_rhs => rw [List.map_map]
      rfl
    rw [hconv, lookup_table_core (show (sortVals qp.bonds).Perm
      (qp.bonds.map Prod.snd) from sortI_perm _ _) twB k]
  · intro k
    show lookupD (((qp.getString).angleLines.map fun l : AngleLine =>
      mkPrmAngle [l.a1, l.a2, l.a3] l.fc l.theta0 l.comment).map
      (fun c => (c.prm_id, Prm.angle c))) k = _
    have hconv : ((qp.getString).angleLines.map fun l : AngleLine =>
        mkPrmAngle [l.a1, l.a2, l.a3] l.fc l.theta0 l.comment).map
        (fun c => (c.prm_id, Prm.angle c))
        = (sortVals qp.angles).map (fun p => (Prm.prmId p, p)) := by
      rw [← hangles]
      conv_rhs => rw [List.map_map]
      rfl
    rw [hconv, lookup_table_core (show (sortVals qp.angles).Perm
      (qp.angles.map Prod.snd) from sortI_perm _ _) twC k]
  · intro k
    show lookupD ((regs.map sortTorsion).map
      (fun t => (t.prm_id, Prm.torsion t))) k = _
    have hconv : (regs.map sortTorsion).map
        (fun t => (t.prm_id, Prm.torsion t))
        = ((sortVals qp.torsions).map prmSort).map
          (fun p => (Prm.prmId p, p)) := by
      rw [hregseq]
      conv_lhs => rw [List.map_map]
      conv_rhs => rw [List.map_map, List.map_map]
      rfl
    rw [hconv, lookupD_keyed_map _ _ prmSort_prmId k,
      lookup_table_core (show (sortVals qp.torsions).Perm
        (qp.torsions.map Prod.snd) from sortI_perm _ _) twT k]
  · intro k
    show lookupD ((gens.map sortTorsion).map
      (fun t => (t.prm_id, Prm.torsion t))) k = _
    have hconv : (gens.map sortTorsion).map
        (fun t => (t.prm_id, Prm.torsion t))
        = ((sortValsWild qp.generic_torsions).map prmSort).map
          (fun p => (Prm.prmId p, p)) := by
      rw [hgenseq]
      conv_lhs => rw [List.map_map]
      conv_rhs => rw [List.map_map, List.map_map]
      rfl
    rw [hconv, lookupD_keyed_map _ _ prmSort_prmId k,
      lookup_table_core (show (sortValsWild qp.generic_torsions).Perm
        (qp.generic_torsions.map Prod.snd) from sortI_perm _ _) twGT k]
  · intro k
    show lookupD (ri.map (fun i => (i.prm_id, Prm.improper i))) k = _
    have hconv : ri.map (fun i => (i.prm_id, Prm.improper i))
        = (sortVals qp.impropers).map (fun p => (Prm.prmId p, p)) := by
      rw [hrieq]
      conv_rhs => rw [List.map_map]
      rfl
    rw [hconv, lookup_table_core (show (sortVals qp.impropers).Perm
      (qp.impropers.map Prod.snd) from sortI_perm _ _) twI k]
  · intro k
    show lookupD (gi.map (fun i => (i.prm_id, Prm.improper i))) k = _
    have hconv : gi.map (fun i => (i.prm_id, Prm.improper i))
        = (sortValsWild qp.generic_impropers).map (fun p => (Prm.prmId p, p)) := by
      rw [hgieq]
      conv_rhs => rw [List.map_map]
      rfl
    rw [hconv, lookup_table_core (show (sortValsWild qp.generic_impropers).Perm
      (qp.generic_impropers.map Prod.snd) from sortI_perm _ _) twGI k]

unseal Rat.mul Rat.add Rat.sub Rat.inv Rat.ofScientific in
/-- Witness for C4: the concrete store `qpW4` is well-formed, so the
round trip reproduces it as the theorem states. -/
theorem claim_C4_witness :
    storeWF qpW4 ∧
    (∃ qp', (emptyQPrm qpW4.ff_type false).readPrm qpW4.getString
        = .ok (qp', [], 0)
      ∧ qp'.options = qpW4.options
      ∧ (∀ k, lookupD qp'.atom_types k
          = (lookupD qpW4.atom_types k).map (prmRound qpW4.ff_type))
      ∧ (∀ k, lookupD qp'.bonds k = lookupD qpW4.bonds k)
      ∧ (∀ k, lookupD qp'.angles k = lookupD qpW4.angles k)
      ∧ (∀ k, lookupD qp'.torsions k = (lookupD qpW4.torsions k).map prmSort)
      ∧ (∀ k, lookupD qp'.generic_torsions k
          = (lookupD qpW4.generic_torsions k).map prmSort)
      ∧ (∀ k, lookupD qp'.impropers k = lookupD qpW4.impropers k)
      ∧ (∀ k, lookupD qp'.generic_impropers k
          = lookupD qpW4.generic_impropers k)
      ∧ (∀ p, Prm.prmId (prmRound qpW4.ff_type p) = Prm.prmId p)
      ∧ (∀ p, Prm.prmId (prmSort p) = Prm.prmId p)
      ∧ (∀ t : PrmTorsion, (sortTorsion t).getPrms = t.getPrms)) := by
  have hwfW : storeWF qpW4 := by
    refine ⟨by decide, by decide, by decide, by decide, by decide, by decide,
      by decide, by decide, ?_, ?_, ?_, ?_, ?_, ?_, ?_⟩
    · intro pr hpr
      simp only [qpW4, List.mem_singleton] at hpr
      subst hpr
      exact ⟨_, rfl, by decide⟩
    · intro pr hpr
      simp only [qpW4, List.mem_singleton] at hpr
      subst hpr
      exact ⟨_, rfl, by decide⟩
    · intro pr hpr
      simp only [qpW4, List.mem_singleton] at hpr
      subst hpr
      exact ⟨_, rfl, by decide⟩
    · intro pr hpr
      simp only [qpW4, List.mem_singleton] at hpr
      subst hpr
      exact ⟨_, rfl, by decide, rfl⟩
    · intro pr hpr
      simp only [qpW4, List.mem_singleton] at hpr
      subst hpr
      exact ⟨_, rfl, by decide, rfl⟩
    · intro pr hpr
      simp only [qpW4, List.mem_singleton] at hpr
      subst hpr
      exact ⟨_, rfl, by decide, rfl⟩
    · intro pr hpr
      simp only [qpW4, List.mem_singleton] at hpr
      subst hpr
      exact ⟨_, rfl, by decide, rfl⟩
  exact ⟨hwfW, claim_C4 qpW4 false hwfW⟩
